import Mathlib

/-!
nginx-vod-module: request path parsing (`ngx_http_vod_request_parse.c`).

A shallow embedding of the URI parsing routines of the module and the
properties proved about them.

Conventions of the embedding.

* A byte (`u_char`) is a natural number; a byte range is a `List Nat`.
* A pointer into a buffer is the offset from the start of that buffer, and a
  pointer that may be `NULL` is an `Option`.
* Unsigned machine integers are natural numbers reduced modulo `2 ^ 32`
  (`uint32_t`) or `2 ^ 64` (`ngx_uint_t`, `uint64_t`) at the places where the
  C arithmetic can wrap.
* A function returning `ngx_int_t` status returns `Except Int _`, the error
  being the status code.
* Where C leaves the result undefined (a shift of an `int` by 32 or more), a
  function returns an `Option` and `none` stands for no defined result.
* What the file takes from outside the sources that are modelled here (nginx
  core, the headers of the module, other compilation units) is gathered in
  the structure `Env` or defined with a comment saying where it comes from.
-/

set_option autoImplicit false

namespace NgxVod

deriving instance DecidableEq for Except

/-- A byte range: the bytes of an `ngx_str_t` or of `[start_pos, end_pos)`. -/
abbrev Bytes := List Nat

/-- The bytes of a string literal, used to write the examples. -/
def bytes (s : String) : Bytes := s.toList.map Char.toNat

/-- The nginx status `NGX_HTTP_BAD_REQUEST`. -/
def NGX_HTTP_BAD_REQUEST : Int := 400

/-- The nginx status `NGX_HTTP_INTERNAL_SERVER_ERROR`. -/
def NGX_HTTP_INTERNAL_SERVER_ERROR : Int := 500

/-- The C constant `UINT_MAX` for a 32-bit `unsigned int`. -/
def UINT_MAX : Nat := 4294967295

/-- The byte `'/'`. -/
def SLASH : Nat := 47

/-- The byte `','`. -/
def COMMA : Nat := 44

/-- The nginx macro `ngx_tolower(c)`:
`(c >= 'A' && c <= 'Z') ? (c | 0x20) : c`. -/
def ngx_tolower (c : Nat) : Nat :=
  if 65 ≤ c ∧ c ≤ 90 then c ||| 32 else c

/-- The nginx macro `ngx_hash(key, c)`: `key * 31 + c` on `ngx_uint_t`
(64 bits). -/
def ngx_hash (key c : Nat) : Nat := (key * 31 + c) % 2 ^ 64

/-- The nginx function `ngx_hash_key_lc(data, len)`: the left fold of
`ngx_hash` over the lower-cased bytes, starting from 0. -/
def ngx_hash_key_lc (data : Bytes) : Nat :=
  data.foldl (fun key c => ngx_hash key (ngx_tolower c)) 0

/-- The nginx function `ngx_atoi(line, n)` (nginx core, `ngx_string.c`), with
`ngx_int_t` of 64 bits: `none` stands for `NGX_ERROR`. An empty range is an
error, so is a byte that is not a decimal digit, and so is a value above
`NGX_MAX_INT_T_VALUE`. -/
def ngx_atoi (line : Bytes) : Option Nat :=
  if line.length = 0 then none
  else
    line.foldl
      (fun acc c =>
        match acc with
        | none => none
        | some value =>
          if c < 48 ∨ c > 57 then none
          else if value ≥ 922337203685477580 ∧
              (value > 922337203685477580 ∨ c - 48 > 7) then none
          else some (value * 10 + (c - 48)))
      (some 0)

/-- The entries of the table `uri_param_defs`, in the order of the table. -/
inductive ParamDef where
  | clip_to
  | clip_from
  | tracks
  | speed
  deriving DecidableEq, Repr

/-- The index of an entry in `uri_param_defs`
(`param_def - uri_param_defs`). -/
def ParamDef.index : ParamDef → Nat
  | .clip_to => 0
  | .clip_from => 1
  | .tracks => 2
  | .speed => 3

/-- The record `media_clip_source_t`, with the fields that the parser
writes. `tracks_mask_video` is `tracks_mask[MEDIA_TYPE_VIDEO]` and
`tracks_mask_audio` is `tracks_mask[MEDIA_TYPE_AUDIO]`; `sequence` is the slot
of the sequence the source points back to. -/
structure media_clip_source_t where
  id : Nat
  clip_from : Nat
  clip_to : Nat
  tracks_mask_audio : Nat
  tracks_mask_video : Nat
  uri : Bytes
  stripped_uri : Bytes
  mapped_uri : Bytes
  sequence : Nat
  deriving DecidableEq, Repr

/-- The clip returned through `result`: the source itself
(`&source_clip->base`) or a rate filter wrapping it. -/
inductive media_clip_t where
  | source
  | rate_filter (id : Nat) (filter : Nat)
  deriving DecidableEq, Repr

/-- What the parser takes from outside `ngx_http_vod_request_parse.c`.

* `MAX_URI_PARAM_NAME_LEN`, `MAX_SUB_URIS`: constants of
  `ngx_http_vod_request_parse.h`.
* `ngx_hash_find key name`: the lookup in the parameter table
  (`ngx_hash_find(params_hash, key, name, len)`), giving the entry of
  `uri_param_defs` or `none` for `NULL`.
* `parse_utils_extract_track_tokens range masks`: the track token grammar of
  `vod/parse_utils.c`; from the range and the masks `(audio, video)` on entry
  it gives the number of bytes consumed and the masks on return.
* `rate_filter_create_from_string value`: the constructor of
  `vod/filters/rate_filter.c` followed by
  `ngx_http_vod_status_to_ngx_error`; the payload stands for the filter node.
* `ngx_palloc size`: whether the pool satisfies an allocation of `size`
  bytes.
* `SLOT_SIZE`: the sum `sizeof(media_sequence_t) + sizeof(media_clip_source_t*)
  + sizeof(media_clip_source_t) + sizeof(media_clip_t*)`.
* `INVALID_CLIP_INDEX`: the constant that stands for no clip. -/
structure Env where
  MAX_URI_PARAM_NAME_LEN : Nat
  MAX_SUB_URIS : Nat
  SLOT_SIZE : Nat
  INVALID_CLIP_INDEX : Nat
  ngx_hash_find : Nat → Bytes → Option ParamDef
  parse_utils_extract_track_tokens : Bytes → Nat × Nat → Nat × (Nat × Nat)
  rate_filter_create_from_string : Bytes → Except Int Nat
  ngx_palloc : Nat → Bool

/-- The parser `ngx_http_vod_parse_uint32_param`, before the store: the
value of `ngx_atoi` truncated to `uint32_t`, or `NGX_HTTP_BAD_REQUEST`. -/
def ngx_http_vod_parse_uint32_param (value : Bytes) : Except Int Nat :=
  match ngx_atoi value with
  | none => .error NGX_HTTP_BAD_REQUEST
  | some result => .ok (result % 2 ^ 32)

/-- The parser `ngx_http_vod_parse_tracks_param`: both masks are cleared, the
track tokens are read, and the value has to be consumed whole. -/
def ngx_http_vod_parse_tracks_param (env : Env) (value : Bytes)
    (output : media_clip_source_t) : Except Int media_clip_source_t :=
  let r := env.parse_utils_extract_track_tokens value (0, 0)
  if r.1 ≠ value.length then .error NGX_HTTP_BAD_REQUEST
  else .ok { output with tracks_mask_audio := r.2.1, tracks_mask_video := r.2.2 }

/-- The call `param_def->parser(&cur_param, source_clip, target_offset)` for
the three entries of `uri_param_defs` that have a parser. The entry `speed`
has none and is never dispatched here. -/
def ParamDef.parser (env : Env) (d : ParamDef) (value : Bytes)
    (output : media_clip_source_t) : Except Int media_clip_source_t :=
  match d with
  | .clip_to =>
    match ngx_http_vod_parse_uint32_param value with
    | .error rc => .error rc
    | .ok v => .ok { output with clip_to := v }
  | .clip_from =>
    match ngx_http_vod_parse_uint32_param value with
    | .error rc => .error rc
    | .ok v => .ok { output with clip_from := v }
  | .tracks => ngx_http_vod_parse_tracks_param env value output
  | .speed => .ok output

/-- The part of the state that the value of a parameter can change: the
local `parsed_params_mask`, the source record, `*clip_id` and `*result`. -/
structure ParamState where
  parsed_params_mask : Nat
  source_clip : media_clip_source_t
  clip_id : Nat
  result : media_clip_t
  deriving DecidableEq, Repr

/-- The local variables of the scan loop of
`ngx_http_vod_extract_uri_params`. `param_name` holds the bytes
`param_name[0 .. param_name_pos)`, `p` the bytes written to the stripped
buffer so far, and `out` the mask and the records of `ParamState`. -/
structure ScanState where
  param_def : Option ParamDef
  cur_key_hash : Nat
  param_name : Bytes
  copy_start : Nat
  last_slash : Option Nat
  p : Bytes
  out : ParamState
  deriving DecidableEq, Repr

/-- The nginx macro `ngx_copy(p, src, n)` on a destination that is written
front to back: `n` bytes of the buffer from offset `src` are appended. -/
def ngx_copy (p : Bytes) (buf : Bytes) (src n : Nat) : Bytes :=
  p ++ (buf.drop src).take n

/-- The loop body for a byte that is not `'/'`: the lower-cased byte is
appended to `param_name` and hashed while the buffer of
`MAX_URI_PARAM_NAME_LEN + 1` bytes has room. -/
def name_step (env : Env) (st : ScanState) (c : Nat) : ScanState :=
  if st.param_name.length < env.MAX_URI_PARAM_NAME_LEN + 1 then
    { st with
      param_name := st.param_name ++ [ngx_tolower c]
      cur_key_hash := ngx_hash st.cur_key_hash (ngx_tolower c) }
  else st

/-- The body of the test on `parsed_params_mask`: the value goes to the rate
filter constructor (`speed`), which also takes a clip id, or to the parser of
the entry. -/
def store_param (env : Env) (d : ParamDef) (cur_param : Bytes) (o : ParamState) :
    Except Int ParamState :=
  if d = .speed then
    match env.rate_filter_create_from_string cur_param with
    | .error rc => .error rc
    | .ok filter =>
      .ok { o with
            result := .rate_filter o.clip_id filter
            clip_id := (o.clip_id + 1) % 2 ^ 32 }
  else
    match d.parser env cur_param o.source_clip with
    | .error rc => .error rc
    | .ok src => .ok { o with source_clip := src }

/-- The branch of the loop body that handles the value of the pending
parameter `d`: nothing is parsed when the bit of `d` is already set in
`parsed_params_mask`; otherwise the bit is set and the value is stored. -/
def value_step (env : Env) (d : ParamDef) (cur_param : Bytes) (o : ParamState) :
    Except Int ParamState :=
  if o.parsed_params_mask &&& (1 <<< d.index) = 0 then
    store_param env d cur_param
      { o with parsed_params_mask := o.parsed_params_mask ||| (1 <<< d.index) }
  else .ok o

/-- The loop body at a boundary (`cur_pos` is at a `'/'` or at `end_pos`). -/
def boundary_step (env : Env) (uri : Bytes) (cur_pos : Nat) (st : ScanState) :
    Except Int ScanState :=
  match st.last_slash with
  | none => .ok { st with last_slash := some cur_pos, cur_key_hash := 0, param_name := [] }
  | some last_slash =>
    let r : Except Int ScanState :=
      match st.param_def with
      | none =>
        match env.ngx_hash_find st.cur_key_hash st.param_name with
        | some d =>
          .ok { st with
                param_def := some d
                p := ngx_copy st.p uri st.copy_start (last_slash - st.copy_start)
                copy_start := last_slash }
        | none => .ok st
      | some d =>
        match value_step env d ((uri.drop (last_slash + 1)).take (cur_pos - (last_slash + 1)))
            st.out with
        | .error rc => .error rc
        | .ok o => .ok { st with out := o, copy_start := cur_pos, param_def := none }
    match r with
    | .error rc => .error rc
    | .ok st1 => .ok { st1 with last_slash := some cur_pos, cur_key_hash := 0, param_name := [] }

/-- The scan loop `for (cur_pos = uri->data; cur_pos <= end_pos; cur_pos++)`.
The second argument is the part of the URI from `cur_pos` on, so the empty
list is the last iteration, `cur_pos = end_pos`. -/
def scan_loop (env : Env) (uri : Bytes) : Bytes → Nat → ScanState → Except Int ScanState
  | [], cur_pos, st => boundary_step env uri cur_pos st
  | c :: rest, cur_pos, st =>
    if c ≠ SLASH then scan_loop env uri rest (cur_pos + 1) (name_step env st c)
    else
      match boundary_step env uri cur_pos st with
      | .error rc => .error rc
      | .ok st1 => scan_loop env uri rest (cur_pos + 1) st1

/-- The source defaults, with the clip id taken from the counter. -/
def source_defaults (uri : Bytes) (sequence clip_id : Nat) : media_clip_source_t where
  id := clip_id
  clip_from := 0
  clip_to := UINT_MAX
  tracks_mask_audio := 0xffffffff
  tracks_mask_video := 0xffffffff
  uri := uri
  stripped_uri := []
  mapped_uri := []
  sequence := sequence

/-- The mask and the records on entry to the scan loop. -/
def param_init (uri : Bytes) (sequence clip_id : Nat) : ParamState where
  parsed_params_mask := 0
  source_clip := source_defaults uri sequence clip_id
  clip_id := (clip_id + 1) % 2 ^ 32
  result := .source

/-- The locals on entry to the scan loop. -/
def scan_init (uri : Bytes) (sequence clip_id : Nat) : ScanState where
  param_def := none
  cur_key_hash := 0
  param_name := []
  copy_start := 0
  last_slash := none
  p := []
  out := param_init uri sequence clip_id

/-- What `ngx_http_vod_extract_uri_params` leaves on success: the source
record, the result clip and the clip id counter. -/
structure ExtractResult where
  source_clip : media_clip_source_t
  result : media_clip_t
  clip_id : Nat
  deriving DecidableEq, Repr

/-- The end of `ngx_http_vod_extract_uri_params`, after the scan: the test
of the clip range and the stores of the stripped URI `p`. -/
def extract_finish (o : ParamState) (p : Bytes) : Except Int ExtractResult :=
  if o.source_clip.clip_from ≥ o.source_clip.clip_to then .error NGX_HTTP_BAD_REQUEST
  else
    .ok
      { source_clip := { o.source_clip with stripped_uri := p, mapped_uri := p }
        result := o.result
        clip_id := o.clip_id }

/-- The function `ngx_http_vod_extract_uri_params`. `sequence` is the slot of
the caller's current sequence and `clip_id` the value of `*clip_id` on
entry. -/
def ngx_http_vod_extract_uri_params (env : Env) (uri : Bytes) (sequence clip_id : Nat) :
    Except Int ExtractResult :=
  if env.ngx_palloc (uri.length + 1) = false then .error NGX_HTTP_INTERNAL_SERVER_ERROR
  else
    match scan_loop env uri uri 0 (scan_init uri sequence clip_id) with
    | .error rc => .error rc
    | .ok st =>
      extract_finish st.out (ngx_copy st.p uri st.copy_start (uri.length - st.copy_start))

/-- A parameter table holding the given names (already in lower case), as
`ngx_http_vod_init_hash` builds it: a name is found when it is one of the keys
and the hash passed is the `ngx_hash_key_lc` of the key. Used for the
examples. -/
def table_find (keys : List (Bytes × ParamDef)) (key : Nat) (name : Bytes) : Option ParamDef :=
  match keys.find? (fun e => e.1 = name ∧ ngx_hash_key_lc e.1 = key) with
  | some e => some e.2
  | none => none

/-- An environment for the examples: the table maps `clipfrom` and `clipto`
only, so neither the track token grammar nor the rate filter is reached (the
first consumes nothing, the second rejects); the pool never fails. -/
def example_env : Env where
  MAX_URI_PARAM_NAME_LEN := 32
  MAX_SUB_URIS := 32
  SLOT_SIZE := 256
  INVALID_CLIP_INDEX := 0xffffffff
  ngx_hash_find := table_find [(bytes "clipfrom", .clip_from), (bytes "clipto", .clip_to)]
  parse_utils_extract_track_tokens := fun _ masks => (0, masks)
  rate_filter_create_from_string := fun _ => .error NGX_HTTP_BAD_REQUEST
  ngx_palloc := fun _ => true

/-! ### The reading of the URI as segments -/

/-- The fields of a byte range cut at every byte `sep`: the first field and
the list of the fields that follow a separator. -/
def split_on (sep : Nat) : Bytes → Bytes × List Bytes
  | [] => ([], [])
  | c :: cs =>
    if c = sep then ([], (split_on sep cs).1 :: (split_on sep cs).2)
    else (c :: (split_on sep cs).1, (split_on sep cs).2)

/-- The name under which a segment is looked up: its first
`MAX_URI_PARAM_NAME_LEN + 1` bytes in lower case. -/
def key_name (env : Env) (seg : Bytes) : Bytes :=
  (seg.take (env.MAX_URI_PARAM_NAME_LEN + 1)).map ngx_tolower

/-- The parameter that the table gives for a segment, when it is looked up
as a key. -/
def lookup (env : Env) (seg : Bytes) : Option ParamDef :=
  env.ngx_hash_find ((key_name env seg).foldl ngx_hash 0) (key_name env seg)

/-- The stripped form of the segments that follow the first `'/'`: a
segment that the table maps to a parameter is removed with the `'/'` before
it and with the segment after it; any other segment is kept behind its
`'/'`. A last segment has no value after it and is kept. -/
def strip_pairs (env : Env) : List Bytes → Bytes
  | [] => []
  | [k] => SLASH :: k
  | k :: v :: rest =>
    match lookup env k with
    | some _ => strip_pairs env rest
    | none => SLASH :: k ++ strip_pairs env (v :: rest)

/-- The stripped URI as the specification words it: the URI without its
recognised `/key/value` pairs. -/
def spec_stripped_uri (env : Env) (uri : Bytes) : Bytes :=
  (split_on SLASH uri).1 ++ strip_pairs env (split_on SLASH uri).2

/-- The recognised pairs of the segments that follow the first `'/'`, in
order: the parameter of the key and the bytes of the value. -/
def spec_params (env : Env) : List Bytes → List (ParamDef × Bytes)
  | [] => []
  | [_] => []
  | k :: v :: rest =>
    match lookup env k with
    | some d => (d, v) :: spec_params env rest
    | none => spec_params env (v :: rest)

/-- The loop body for values run over a list of recognised pairs. -/
def run_params (env : Env) : List (ParamDef × Bytes) → ParamState → Except Int ParamState
  | [], o => .ok o
  | (d, v) :: ps, o =>
    match value_step env d v o with
    | .error rc => .error rc
    | .ok o1 => run_params env ps o1

/-- What a scan leaves for the end of the function: the mask and records,
and the stripped URI once the last range is copied. -/
def scan_outcome (uri : Bytes) (r : Except Int ScanState) : Except Int (ParamState × Bytes) :=
  match r with
  | .error rc => .error rc
  | .ok st => .ok (st.out, ngx_copy st.p uri st.copy_start (uri.length - st.copy_start))

/-- An outcome paired with a stripped URI. -/
def with_stripped (r : Except Int ParamState) (s : Bytes) : Except Int (ParamState × Bytes) :=
  match r with
  | .error rc => .error rc
  | .ok o => .ok (o, s)

/-- The extraction as the specification words it: the pool gives the
stripped buffer, the values of the recognised pairs are handled in order, the
clip range is tested, and the stripped URI is the URI without its recognised
pairs. -/
def spec_extract_uri_params (env : Env) (uri : Bytes) (sequence clip_id : Nat) :
    Except Int ExtractResult :=
  if env.ngx_palloc (uri.length + 1) = false then .error NGX_HTTP_INTERNAL_SERVER_ERROR
  else
    match run_params env (spec_params env (split_on SLASH uri).2) (param_init uri sequence clip_id) with
    | .error rc => .error rc
    | .ok o => extract_finish o (spec_stripped_uri env uri)

/-- The pairs of a list that are the first of their parameter; `seen` lists
the parameters met before. -/
def first_occurrences : List ParamDef → List (ParamDef × Bytes) → List (ParamDef × Bytes)
  | _, [] => []
  | seen, (d, v) :: ps =>
    if d ∈ seen then first_occurrences seen ps
    else (d, v) :: first_occurrences (d :: seen) ps

/-- Every pair of a list stored in order, with no test of the mask. -/
def store_all (env : Env) : List (ParamDef × Bytes) → ParamState → Except Int ParamState
  | [], o => .ok o
  | (d, v) :: ps, o =>
    match store_param env d v
        { o with parsed_params_mask := o.parsed_params_mask ||| (1 <<< d.index) } with
    | .error rc => .error rc
    | .ok o1 => store_all env ps o1

/-- The field of the source record that the parser of an entry writes (both
track masks for `tracks`; `speed` writes no field of the source). -/
def ParamDef.field (d : ParamDef) (src : media_clip_source_t) : Nat × Nat :=
  match d with
  | .clip_to => (src.clip_to, 0)
  | .clip_from => (src.clip_from, 0)
  | .tracks => (src.tracks_mask_audio, src.tracks_mask_video)
  | .speed => (0, 0)

/-! ### The multi URI -/

/-- The record `ngx_str_t` for a string inside the URI buffer: `data` is the
offset of its first byte, `none` for `NULL`. -/
structure ngx_str_t where
  data : Option Nat
  len : Nat
  deriving DecidableEq, Repr

/-- The bytes that an `ngx_str_t` designates in the buffer. -/
def ngx_str_t.bytes (buf : Bytes) (s : ngx_str_t) : Bytes :=
  match s.data with
  | none => []
  | some off => (buf.drop off).take s.len

/-- The record `ngx_http_vod_multi_uri_t`. `prefix_` and `postfix_` are the
fields `prefix` and `postfix`; `middle_parts` lists the entries of the array
that were written, from index 0. -/
structure ngx_http_vod_multi_uri_t where
  prefix_ : ngx_str_t
  middle_parts : List ngx_str_t
  postfix_ : ngx_str_t
  parts_count : Nat
  deriving DecidableEq, Repr

/-- The variables of the loop of `ngx_http_vod_parse_multi_uri`:
`result->prefix.len`, the entries written to `result->middle_parts`,
`last_comma_pos` and `part_index`. -/
structure MultiState where
  prefix_len : Nat
  middle_parts : List ngx_str_t
  last_comma_pos : Option Nat
  part_index : Nat
  deriving DecidableEq, Repr

/-- The loop `for (cur_pos = uri->data; cur_pos < end_pos; cur_pos++)` of
`ngx_http_vod_parse_multi_uri`; the second argument is the range from
`cur_pos` to `end_pos`. The store to `middle_parts[part_index]` appends, as
`part_index` is the number of entries written. -/
def multi_loop (env : Env) : Bytes → Nat → MultiState → Except Int MultiState
  | [], _, st => .ok st
  | c :: rest, cur_pos, st =>
    if c ≠ COMMA then multi_loop env rest (cur_pos + 1) st
    else
      match st.last_comma_pos with
      | none =>
        multi_loop env rest (cur_pos + 1)
          { st with prefix_len := cur_pos, last_comma_pos := some (cur_pos + 1) }
      | some last_comma_pos =>
        if st.part_index ≥ env.MAX_SUB_URIS then .error NGX_HTTP_BAD_REQUEST
        else
          multi_loop env rest (cur_pos + 1)
            { st with
              middle_parts :=
                st.middle_parts ++ [{ data := some last_comma_pos, len := cur_pos - last_comma_pos }]
              part_index := st.part_index + 1
              last_comma_pos := some (cur_pos + 1) }

/-- The function `ngx_http_vod_parse_multi_uri`. The result is the record
`result` with the value of `uri->len` on return. -/
def ngx_http_vod_parse_multi_uri (env : Env) (uri multi_uri_suffix : Bytes) :
    Except Int (ngx_http_vod_multi_uri_t × Nat) :=
  if uri.length < multi_uri_suffix.length ∨
      uri.drop (uri.length - multi_uri_suffix.length) ≠ multi_uri_suffix then
    .ok
      ({ prefix_ := { data := some 0, len := uri.length }
         middle_parts := [{ data := none, len := 0 }]
         postfix_ := { data := none, len := 0 }
         parts_count := 1 }, uri.length)
  else
    let uri_len := uri.length - multi_uri_suffix.length
    match multi_loop env (uri.take uri_len) 0
        { prefix_len := uri.length, middle_parts := [], last_comma_pos := none, part_index := 0 } with
    | .error rc => .error rc
    | .ok st =>
      let postfix_ : ngx_str_t :=
        match st.last_comma_pos with
        | none => { data := none, len := 0 }
        | some last_comma_pos => { data := some last_comma_pos, len := uri_len - last_comma_pos }
      if st.part_index = 0 then
        .ok
          ({ prefix_ := { data := some 0, len := st.prefix_len }
             middle_parts := [{ data := none, len := 0 }]
             postfix_ := postfix_
             parts_count := 1 }, uri_len)
      else
        .ok
          ({ prefix_ := { data := some 0, len := st.prefix_len }
             middle_parts := st.middle_parts
             postfix_ := postfix_
             parts_count := st.part_index }, uri_len)

/-- The last of a first field and the fields after it. -/
def last_field : Bytes → List Bytes → Bytes
  | f, [] => f
  | _, g :: gs => last_field g gs

/-- A first field and the fields after it, without the last of them. -/
def init_fields : Bytes → List Bytes → List Bytes
  | _, [] => []
  | f, g :: gs => f :: init_fields g gs

/-! ### The file name of a URI -/

/-- The loop of `ngx_http_vod_split_uri_file_name`, from the end of the URI
to its start: the first argument is `cur_pos + 1`, so 0 ends the loop
(`cur_pos < uri->data`). The result is `path` and `file_name` when the
function returns `TRUE`. -/
def split_uri_loop (uri : Bytes) : Nat → Int → Option (ngx_str_t × ngx_str_t)
  | 0, _ => none
  | cur_pos + 1, components =>
    if uri[cur_pos]? ≠ some SLASH then split_uri_loop uri cur_pos components
    else if components - 1 > 0 then split_uri_loop uri cur_pos (components - 1)
    else
      some ({ data := some 0, len := cur_pos },
            { data := some (cur_pos + 1), len := uri.length - (cur_pos + 1) })

/-- The function `ngx_http_vod_split_uri_file_name`: `none` is `FALSE`. -/
def ngx_http_vod_split_uri_file_name (uri : Bytes) (components : Int) :
    Option (ngx_str_t × ngx_str_t) :=
  split_uri_loop uri uri.length components

/-! ### The URI path -/

/-- The record `request_params_t`, with the fields that the parsers of this
file read or write. -/
structure request_params_t where
  segment_index : Nat
  clip_index : Nat
  sequences_mask : Nat
  tracks_mask_audio : Nat
  tracks_mask_video : Nat
  deriving DecidableEq, Repr

/-- The record `media_sequence_t`, with the fields that
`ngx_http_vod_parse_uri_path` writes; `clips` is the one clip that
`cur_sequence->clips` points to. -/
structure media_sequence_t where
  index : Nat
  clips : media_clip_t
  stripped_uri : Bytes
  mapped_uri : Bytes
  deriving DecidableEq, Repr

/-- The record `media_set_t`, with the fields that
`ngx_http_vod_parse_uri_path` writes: `sequences` are the slots from
`media_set->sequences` to `sequences_end` and `sources` the sources from
`media_set->sources` to `sources_end`. -/
structure media_set_t where
  sequences : List media_sequence_t
  sources : List media_clip_source_t
  sequence_count : Nat
  has_multi_sequences : Bool
  total_clip_count : Nat
  clip_count : Nat
  deriving DecidableEq, Repr

/-- Modelled from the spec: `vod_get_number_of_set_bits` is declared outside
the sources; it gives the number of bits set in a 32-bit word (the number of
parts that the usable mask selects). -/
def vod_get_number_of_set_bits (i : Nat) : Nat :=
  ((List.range 32).filter (fun b => i.testBit b)).length

/-- Modelled from the spec: `ngx_http_vod_merge_string_parts` is defined in
`ngx_http_vod_utils.c`, outside the sources; the specification has it
concatenate the parts (prefix, middle part, postfix) into one URI. -/
def ngx_http_vod_merge_string_parts (parts : List Bytes) : Except Int Bytes :=
  .ok parts.flatten

/-- The variables that the loop of `ngx_http_vod_parse_uri_path` advances:
the sequence slots and the source pointers written so far (`cur_sequence`,
`cur_source_ptr`, with `cur_source` and `cur_clip_ptr` in step) and
`clip_id`. -/
structure PathState where
  sequences : List media_sequence_t
  sources : List media_clip_source_t
  clip_id : Nat
  deriving DecidableEq, Repr

/-- The loop `for (i = 0; i < multi_uri.parts_count; i++)` of
`ngx_http_vod_parse_uri_path`; the first numeric argument is
`parts_count - i`. `1 << i` is taken in 32 bits; the function runs the loop
with `parts_count` below 32, where the shift is defined. -/
def path_loop (env : Env) (uri : Bytes) (multi_uri : ngx_http_vod_multi_uri_t)
    (sequences_mask : Nat) (request_params : request_params_t) :
    Nat → Nat → PathState → Except Int PathState
  | 0, _, st => .ok st
  | n + 1, i, st =>
    if sequences_mask &&& ((1 <<< i) % 2 ^ 32) = 0 then
      path_loop env uri multi_uri sequences_mask request_params n (i + 1) st
    else
      match ngx_http_vod_merge_string_parts
          [multi_uri.prefix_.bytes uri,
           (multi_uri.middle_parts.getD i { data := none, len := 0 }).bytes uri,
           multi_uri.postfix_.bytes uri] with
      | .error rc => .error rc
      | .ok cur_uri =>
        match ngx_http_vod_extract_uri_params env cur_uri st.sequences.length st.clip_id with
        | .error rc => .error rc
        | .ok r =>
          if r.source_clip.tracks_mask_audio &&& request_params.tracks_mask_audio = 0 ∧
              r.source_clip.tracks_mask_video &&& request_params.tracks_mask_video = 0 then
            path_loop env uri multi_uri sequences_mask request_params n (i + 1)
              { st with clip_id := r.clip_id }
          else
            path_loop env uri multi_uri sequences_mask request_params n (i + 1)
              { sequences :=
                  st.sequences ++
                    [{ index := i
                       clips := r.result
                       stripped_uri := r.source_clip.stripped_uri
                       mapped_uri := r.source_clip.stripped_uri }]
                sources := st.sources ++ [r.source_clip]
                clip_id := r.clip_id }

/-- The function `ngx_http_vod_parse_uri_path`. The result is the media set
with `*request_params` and `uri->len` as the call leaves them. `none` stands
for no defined result: `parts_mask = (1 << multi_uri.parts_count) - 1` shifts
an `int` of 32 bits, which C leaves undefined for a count of 32 or more
(`parts_count` reaches `MAX_SUB_URIS`). Below 32 the mask is
`2 ^ parts_count - 1`. -/
def ngx_http_vod_parse_uri_path (env : Env) (multi_uri_suffix uri : Bytes)
    (request_params : request_params_t) :
    Option (Except Int (media_set_t × request_params_t × Nat)) :=
  match ngx_http_vod_parse_multi_uri env uri multi_uri_suffix with
  | .error rc => some (.error rc)
  | .ok (multi_uri, uri_len) =>
    let sequences_mask :=
      if multi_uri.parts_count > 1 then request_params.sequences_mask else 0xffffffff
    let request_params1 : request_params_t :=
      if multi_uri.parts_count > 1 then { request_params with sequences_mask := 0xffffffff }
      else request_params
    if multi_uri.parts_count ≥ 32 then none
    else
      some
        (let parts_mask := (1 <<< multi_uri.parts_count) - 1
         let uri_count := vod_get_number_of_set_bits (sequences_mask &&& parts_mask)
         if uri_count = 0 then .error NGX_HTTP_BAD_REQUEST
         else if env.ngx_palloc (env.SLOT_SIZE * uri_count) = false then
           .error NGX_HTTP_INTERNAL_SERVER_ERROR
         else
           match path_loop env uri multi_uri sequences_mask request_params1
               multi_uri.parts_count 0 { sequences := [], sources := [], clip_id := 1 } with
           | .error rc => .error rc
           | .ok st =>
             if st.sequences.length ≤ 0 then .error NGX_HTTP_BAD_REQUEST
             else
               .ok
                 ({ sequences := st.sequences
                    sources := st.sources
                    sequence_count := st.sequences.length
                    has_multi_sequences := decide (multi_uri.parts_count > 1)
                    total_clip_count := 1
                    clip_count := 1 }, request_params1, uri_len))

/-- The URI of part `i` of a multi URI: prefix, middle part `i`, postfix. -/
def part_uri (uri : Bytes) (multi_uri : ngx_http_vod_multi_uri_t) (i : Nat) : Bytes :=
  [multi_uri.prefix_.bytes uri,
   (multi_uri.middle_parts.getD i { data := none, len := 0 }).bytes uri,
   multi_uri.postfix_.bytes uri].flatten

/-- Whether part `i` passes the test of the sequence mask in the loop. -/
def part_selected (sequences_mask i : Nat) : Bool :=
  decide (sequences_mask &&& ((1 <<< i) % 2 ^ 32) ≠ 0)

/-- Whether the extraction of a URI succeeds and leaves a source with a
requested track: the audio masks or the video masks intersect. -/
def part_kept (env : Env) (request_params : request_params_t) (cur_uri : Bytes) : Bool :=
  match ngx_http_vod_extract_uri_params env cur_uri 0 0 with
  | .error _ => false
  | .ok r =>
    decide (¬ (r.source_clip.tracks_mask_audio &&& request_params.tracks_mask_audio = 0 ∧
      r.source_clip.tracks_mask_video &&& request_params.tracks_mask_video = 0))

/-- Whether the extraction of a URI succeeds and leaves a source without any
requested track. -/
def part_dropped (env : Env) (request_params : request_params_t) (cur_uri : Bytes) : Bool :=
  match ngx_http_vod_extract_uri_params env cur_uri 0 0 with
  | .error _ => false
  | .ok r =>
    decide (r.source_clip.tracks_mask_audio &&& request_params.tracks_mask_audio = 0 ∧
      r.source_clip.tracks_mask_video &&& request_params.tracks_mask_video = 0)

/-- Two states of the parameters that agree on the mask and on the clip
range and track masks of the source; they may differ in the ids. -/
def same_params (o o' : ParamState) : Prop :=
  o.parsed_params_mask = o'.parsed_params_mask ∧
  o.source_clip.clip_from = o'.source_clip.clip_from ∧
  o.source_clip.clip_to = o'.source_clip.clip_to ∧
  o.source_clip.tracks_mask_audio = o'.source_clip.tracks_mask_audio ∧
  o.source_clip.tracks_mask_video = o'.source_clip.tracks_mask_video

/-! ### The token matcher -/

/-- The loop over a run of decimal digits that both number readers share:
`for (; start_pos < end_pos && *start_pos >= '0' && *start_pos <= '9';
start_pos++) value = value * 10 + *start_pos - '0';` on an unsigned integer of
the given modulus. The arguments are the range from `start_pos`, the offset of
`start_pos` and `value`; the result is `value`, the offset and the range on
exit. -/
def decimal_loop (modulus : Nat) : Bytes → Nat → Nat → Nat × Nat × Bytes
  | [], start_pos, value => (value, start_pos, [])
  | c :: cs, start_pos, value =>
    if 48 ≤ c ∧ c ≤ 57 then
      decimal_loop modulus cs (start_pos + 1) ((value * 10 + c - 48) % modulus)
    else (value, start_pos, c :: cs)

/-- The match types of `ngx_http_vod_match_definition_t`, each with the
fields of the definition that its case of `ngx_http_vod_parse_string`
reads. -/
inductive ngx_http_vod_match_definition_t where
  | MATCH_END
  | MATCH_FIXED_STRING (string : Bytes)
  | MATCH_NUMBER (target_offset : Nat)
  | MATCH_DELIM_STRING (target_offset : Nat) (delim : Nat)
  deriving DecidableEq, Repr

/-- A value stored in the output record: a `uint64_t` or an `ngx_str_t`
pointing into the input. -/
inductive match_field where
  | number (value : Nat)
  | string (s : ngx_str_t)
  deriving DecidableEq, Repr

/-- The output record of `ngx_http_vod_parse_string`, as the stores made to
it: the offset and the value, the latest first. -/
abbrev match_output := List (Nat × match_field)

/-- The libc function `memchr(s, c, n)` on a range: the index of the first
byte equal to `c`, or `none` for `NULL`. -/
def memchr : Bytes → Nat → Option Nat
  | [], _ => none
  | b :: bs, c =>
    if b = c then some 0
    else
      match memchr bs c with
      | none => none
      | some k => some (k + 1)

/-- The function `ngx_http_vod_parse_string`. The arguments are the match
definitions from `match_def` on, the range from `start_pos` to `end_pos`, the
offset of `start_pos` in the input and the output record; the result is the
value returned with the output record. A table that ends without `MATCH_END`
is read past its end, which has no meaning: `none`. -/
def ngx_http_vod_parse_string :
    List ngx_http_vod_match_definition_t → Bytes → Nat → match_output →
      Option (Bool × match_output)
  | [], _, _, _ => none
  | .MATCH_END :: _, range, _, output => some (decide (range = []), output)
  | .MATCH_FIXED_STRING string :: match_def, range, start_pos, output =>
    if range.length < string.length ∨ range.take string.length ≠ string then
      some (false, output)
    else
      ngx_http_vod_parse_string match_def (range.drop string.length)
        (start_pos + string.length) output
  | .MATCH_NUMBER target_offset :: match_def, range, start_pos, output =>
    ngx_http_vod_parse_string match_def (decimal_loop (2 ^ 64) range start_pos 0).2.2
      (decimal_loop (2 ^ 64) range start_pos 0).2.1
      ((target_offset, .number (decimal_loop (2 ^ 64) range start_pos 0).1) :: output)
  | .MATCH_DELIM_STRING target_offset delim :: match_def, range, start_pos, output =>
    match memchr range delim with
    | none => some (false, output)
    | some k =>
      ngx_http_vod_parse_string match_def (range.drop (k + 1)) (start_pos + k + 1)
        ((target_offset, .string { data := some start_pos, len := k }) :: output)

/-- Whether a byte is an ASCII decimal digit. -/
def is_digit (c : Nat) : Bool := decide (48 ≤ c ∧ c ≤ 57)

/-- The decimal value of a run of digits, as a natural number. -/
def decimal_value (digits : Bytes) : Nat :=
  digits.foldl (fun value c => value * 10 + (c - 48)) 0

/-! ### The file name -/

/-- Modelled from the spec: `parse_utils_extract_uint32_token` is defined in
`vod/parse_utils.c`, outside the sources; the specification has it read the
run of decimal digits at the cursor into a `uint32_t`, with no overflow
check, and return the new cursor. The result is the value and the range from
the new cursor. -/
def parse_utils_extract_uint32_token (range : Bytes) : Nat × Bytes :=
  ((decimal_loop (2 ^ 32) range 0 0).1, (decimal_loop (2 ^ 32) range 0 0).2.2)

/-- The statement `if (start_pos < end_pos && *start_pos == '-') start_pos++;`
on the range from `start_pos`. -/
def skip_dash : Bytes → Bytes
  | [] => []
  | c :: cs => if c = 45 then cs else c :: cs

/-- The loop `while (start_pos < end_pos)` of
`ngx_http_vod_extract_sequence_tokens`, on the range from `start_pos` and
`*result`. The first argument bounds the number of iterations; an iteration
consumes the `'f'`, so the length of the range bounds it. `none` stands for no
defined result: the shift `1 << (sequence_index - 1)` has a count of 32 or
more, which C leaves undefined (or the bound is used up). -/
def sequence_loop : Nat → Bytes → Nat → Option (Nat × Bytes)
  | 0, _, _ => none
  | _ + 1, [], result => some (result, [])
  | fuel + 1, c :: cs, result =>
    if c ≠ 102 then some (result, c :: cs)
    else
      let sequence_index := (parse_utils_extract_uint32_token cs).1
      let start_pos := (parse_utils_extract_uint32_token cs).2
      if sequence_index = 0 then sequence_loop fuel (skip_dash start_pos) 0xffffffff
      else if sequence_index - 1 ≥ 32 then none
      else sequence_loop fuel (skip_dash start_pos) (result ||| (1 <<< (sequence_index - 1)))

/-- The function `ngx_http_vod_extract_sequence_tokens`, on the range from
`start_pos` and the value of `*result` on entry; the result is `*result` and
the range from the cursor returned. -/
def ngx_http_vod_extract_sequence_tokens (range : Bytes) (result : Nat) : Option (Nat × Bytes) :=
  match range with
  | [] => some (0xffffffff, [])
  | c :: cs =>
    if c ≠ 102 then some (0xffffffff, c :: cs)
    else sequence_loop ((c :: cs).length + 1) (c :: cs) result

/-- The function `ngx_http_vod_extract_clip_token`, on the range from
`start_pos`; the result is `*result` and the range from the cursor
returned. -/
def ngx_http_vod_extract_clip_token (env : Env) (range : Bytes) : Nat × Bytes :=
  match range with
  | [] => (env.INVALID_CLIP_INDEX, [])
  | c :: cs =>
    if c ≠ 99 then (env.INVALID_CLIP_INDEX, c :: cs)
    else
      let clip_index := (parse_utils_extract_uint32_token cs).1
      let start_pos := (parse_utils_extract_uint32_token cs).2
      (if clip_index = 0 then env.INVALID_CLIP_INDEX else clip_index - 1, skip_dash start_pos)

/-- The function `ngx_http_vod_parse_uri_file_name`, on the range from
`start_pos` to `end_pos` and the record `*result` on entry. `none` stands for
no defined result (see `sequence_loop`). -/
def ngx_http_vod_parse_uri_file_name (env : Env) (range : Bytes) (expect_segment_index : Bool)
    (result : request_params_t) : Option (Except Int request_params_t) :=
  let start_pos := skip_dash range
  let segment : Except Int (request_params_t × Bytes) :=
    if expect_segment_index then
      if (parse_utils_extract_uint32_token start_pos).1 ≤ 0 then .error NGX_HTTP_BAD_REQUEST
      else
        .ok ({ result with segment_index := (parse_utils_extract_uint32_token start_pos).1 - 1 },
          skip_dash (parse_utils_extract_uint32_token start_pos).2)
    else .ok (result, start_pos)
  match segment with
  | .error rc => some (.error rc)
  | .ok (result1, start_pos1) =>
    let clip := ngx_http_vod_extract_clip_token env start_pos1
    match ngx_http_vod_extract_sequence_tokens clip.2 result1.sequences_mask with
    | none => none
    | some (sequences_mask, start_pos2) =>
      let tracks := env.parse_utils_extract_track_tokens start_pos2
        (result1.tracks_mask_audio, result1.tracks_mask_video)
      if tracks.1 ≠ start_pos2.length then some (.error NGX_HTTP_BAD_REQUEST)
      else
        some (.ok
          { result1 with
            clip_index := clip.1
            sequences_mask := sequences_mask
            tracks_mask_audio := tracks.2.1
            tracks_mask_video := tracks.2.2 })

/-- The decimal digits of a number, the most significant first; the first
argument bounds the number of digits. -/
def to_decimal_loop : Nat → Nat → Bytes → Bytes
  | 0, _, acc => acc
  | fuel + 1, n, acc =>
    if n < 10 then (n + 48) :: acc
    else to_decimal_loop fuel (n / 10) ((n % 10 + 48) :: acc)

/-- The decimal text of a number. -/
def to_decimal (n : Nat) : Bytes := to_decimal_loop (n + 1) n []

/-- The text of a sequence token: `'f'`, the digits of the value and,
if asked for, the separator `'-'`. -/
def sequence_token (t : Bytes × Bool) : Bytes :=
  102 :: t.1 ++ (if t.2 then [45] else [])

/-- The text of a list of sequence tokens. -/
def sequence_tokens_text (toks : List (Bytes × Bool)) : Bytes :=
  (toks.map sequence_token).flatten

/-- The mask after a list of sequence tokens whose values are 1 to 32: bit
`v - 1` is set for each value `v`. -/
def sequence_tokens_mask (result : Nat) (toks : List (Bytes × Bool)) : Nat :=
  toks.foldl (fun m t => m ||| (1 <<< (decimal_value t.1 - 1))) result

/-- A token followed by the rest of a text, with the separator `'-'` between
them when there is a rest. -/
def token_then (t rest : Bytes) : Bytes :=
  if rest = [] then t else t ++ 45 :: rest

/-- The canonical text of a sequence mask before the rest of a text: nothing
for the mask `0xffffffff`, otherwise the token `'f'` with `i + 1` for each
bit `i` that is set, in increasing order. -/
def encode_sequences (mask : Nat) (rest : Bytes) : Bytes :=
  if mask = 0xffffffff then rest
  else
    (((List.range 32).filter (fun i => mask.testBit i)).map
      (fun i => 102 :: to_decimal (i + 1))).foldr token_then rest

/-- The canonical text of a clip index before the rest of a text: nothing
when there is no clip, otherwise the token `'c'` with the index plus one. -/
def encode_clip (env : Env) (clip_index : Nat) (rest : Bytes) : Bytes :=
  if clip_index = env.INVALID_CLIP_INDEX then rest
  else token_then (99 :: to_decimal (clip_index + 1)) rest

/-- The canonical text of the decoded fields of a file name, as the
specification describes it: the segment index plus one when a segment index is
expected, then `'c'` with the clip index plus one unless there is no clip,
then `'f'` with `i + 1` for each bit `i` of the sequence mask unless the mask
is `0xffffffff`, then the text of the track tokens, with `'-'` between
consecutive tokens. -/
def encode_file_name (env : Env) (expect_segment_index : Bool) (r : request_params_t)
    (tracks_text : Bytes) : Bytes :=
  if expect_segment_index then
    token_then (to_decimal (r.segment_index + 1))
      (encode_clip env r.clip_index (encode_sequences r.sequences_mask tracks_text))
  else encode_clip env r.clip_index (encode_sequences r.sequences_mask tracks_text)

/-- Whether a sequence token is well formed with a value from 1 to 32: its
digits are decimal digits and their value is in that range. -/
def token_ok (t : Bytes × Bool) : Bool :=
  t.1.all is_digit && decide (1 ≤ decimal_value t.1) && decide (decimal_value t.1 ≤ 32)

/-- Whether the bytes after the digits of a token end the number: a token
without separator is not followed by a digit nor by `'-'`. -/
def token_end_ok (dash : Bool) (next : Bytes) : Bool :=
  match next with
  | [] => true
  | c :: _ => dash || (!is_digit c && c != 45)

/-- Whether a text is read as the given sequence tokens followed by `tail`:
the tokens are well formed and `tail` does not start with `'f'`. -/
def tokens_ok : List (Bytes × Bool) → Bytes → Bool
  | [], [] => true
  | [], c :: _ => c != 102
  | t :: ts, tail =>
    token_ok t && token_end_ok t.2 (sequence_tokens_text ts ++ tail) && tokens_ok ts tail

/-- The range from the cursor at which `ngx_http_vod_parse_uri_file_name`
reads the sequence tokens: after the optional `'-'`, the segment index when
one is expected, and the clip token. -/
def sequence_cursor (env : Env) (range : Bytes) (expect_segment_index : Bool) : Bytes :=
  (ngx_http_vod_extract_clip_token env
    (if expect_segment_index then
      skip_dash (parse_utils_extract_uint32_token (skip_dash range)).2
     else skip_dash range)).2

/-! ### The lookups and the copies of the scan -/

/-- A call `ngx_hash_find(params_hash, cur_key_hash, param_name, ...)` of
the scan loop: the hash and the name passed, with `last_slash` and `cur_pos`
at the call. -/
structure lookup_call where
  key : Nat
  name : Bytes
  last_slash : Nat
  cur_pos : Nat
  deriving DecidableEq, Repr

/-- The call of `ngx_hash_find` that the loop body makes at a boundary: one
call when `last_slash` is set and no parameter is pending, none otherwise. -/
def boundary_lookup (cur_pos : Nat) (st : ScanState) : List lookup_call :=
  match st.last_slash, st.param_def with
  | some last_slash, none =>
    [{ key := st.cur_key_hash, name := st.param_name, last_slash := last_slash,
       cur_pos := cur_pos }]
  | _, _ => []

/-- The calls of `ngx_hash_find` that the scan loop makes, in order; the loop
is followed as in `scan_loop`. -/
def scan_lookups (env : Env) (uri : Bytes) : Bytes → Nat → ScanState → List lookup_call
  | [], cur_pos, st => boundary_lookup cur_pos st
  | c :: rest, cur_pos, st =>
    if c ≠ SLASH then scan_lookups env uri rest (cur_pos + 1) (name_step env st c)
    else
      boundary_lookup cur_pos st ++
        match boundary_step env uri cur_pos st with
        | .error _ => []
        | .ok st1 => scan_lookups env uri rest (cur_pos + 1) st1

/-- The calls of `ngx_hash_find` that `ngx_http_vod_extract_uri_params`
makes. -/
def extract_lookups (env : Env) (uri : Bytes) (sequence clip_id : Nat) : List lookup_call :=
  if env.ngx_palloc (uri.length + 1) = false then []
  else scan_lookups env uri uri 0 (scan_init uri sequence clip_id)

/-- The segment of a lookup: the bytes of the URI after `last_slash` and
before `cur_pos`. -/
def lookup_segment (uri : Bytes) (l : lookup_call) : Bytes :=
  (uri.drop (l.last_slash + 1)).take (l.cur_pos - (l.last_slash + 1))

/-- The call `ngx_copy(p, copy_start, last_slash - copy_start)` that the loop
body makes at a boundary, as the range from `copy_start` to `last_slash`: one
call when the lookup finds a parameter, none otherwise. -/
def boundary_copy (env : Env) (st : ScanState) : List (Nat × Nat) :=
  match st.last_slash, st.param_def with
  | some last_slash, none =>
    match env.ngx_hash_find st.cur_key_hash st.param_name with
    | some _ => [(st.copy_start, last_slash)]
    | none => []
  | _, _ => []

/-- The ranges that the scan loop copies to the stripped buffer, in order;
the loop is followed as in `scan_loop`. -/
def scan_copies (env : Env) (uri : Bytes) : Bytes → Nat → ScanState → List (Nat × Nat)
  | [], _, st => boundary_copy env st
  | c :: rest, cur_pos, st =>
    if c ≠ SLASH then scan_copies env uri rest (cur_pos + 1) (name_step env st c)
    else
      boundary_copy env st ++
        match boundary_step env uri cur_pos st with
        | .error _ => []
        | .ok st1 => scan_copies env uri rest (cur_pos + 1) st1

/-- The ranges that `ngx_http_vod_extract_uri_params` copies to the stripped
buffer, in order: those of the loop and, when the scan and the test of the
clip range pass, the last one from `copy_start` to `end_pos`. -/
def extract_copies (env : Env) (uri : Bytes) (sequence clip_id : Nat) : List (Nat × Nat) :=
  if env.ngx_palloc (uri.length + 1) = false then []
  else
    scan_copies env uri uri 0 (scan_init uri sequence clip_id) ++
      match scan_loop env uri uri 0 (scan_init uri sequence clip_id) with
      | .error _ => []
      | .ok st =>
        if st.out.source_clip.clip_from ≥ st.out.source_clip.clip_to then []
        else [(st.copy_start, uri.length)]

/-- The bytes of a range of the URI. -/
def range_bytes (uri : Bytes) (r : Nat × Nat) : Bytes :=
  (uri.drop r.1).take (r.2 - r.1)

/-- Ranges that are well formed, increasing and disjoint between `lo` and
`hi`: each starts at or after the end of the one before (`lo` for the first),
does not end before it starts, and the last ends at or before `hi`. -/
def ranges_ok : Nat → Nat → List (Nat × Nat) → Prop
  | lo, hi, [] => lo ≤ hi
  | lo, hi, r :: rs => lo ≤ r.1 ∧ r.1 ≤ r.2 ∧ ranges_ok r.2 hi rs

/-- What holds of a lookup of the scan of `uri`: the URI is `A ++ '/' ::
seg ++ B` with `last_slash` at the `'/'`, `cur_pos` at the end of `seg`, no
`'/'` in `seg`, `B` empty or starting with `'/'`, and the name and hash passed
are those of `seg`. -/
def lookup_ok (env : Env) (uri : Bytes) (l : lookup_call) : Prop :=
  ∃ A seg B, uri = A ++ SLASH :: seg ++ B ∧ l.last_slash = A.length ∧
    l.cur_pos = A.length + 1 + seg.length ∧ SLASH ∉ seg ∧ (B = [] ∨ B.head? = some SLASH) ∧
    l.name = key_name env seg ∧ l.key = (key_name env seg).foldl ngx_hash 0

/-! ### The number at the end of a range -/

/-- The loop of `ngx_http_vod_extract_uint32_token_reverse`. The first
argument lists the bytes `end_pos[-1]`, `end_pos[-2]`, ... down to
`start_pos[0]`, so the empty list is `end_pos = start_pos`; `end_pos` is the
offset from `start_pos`. `value` and `multiplier` are `uint32_t`: the product
`(end_pos[-1] - '0') * multiplier`, the sum and `multiplier *= 10` are taken
modulo `2 ^ 32`. -/
def reverse_loop : Bytes → Nat → Nat → Nat → Nat × Nat
  | [], end_pos, _, value => (value, end_pos)
  | c :: cs, end_pos, multiplier, value =>
    if 48 ≤ c ∧ c ≤ 57 then
      reverse_loop cs (end_pos - 1) ((multiplier * 10) % 2 ^ 32)
        ((value + ((c - 48) * multiplier) % 2 ^ 32) % 2 ^ 32)
    else (value, end_pos)

/-- The function `ngx_http_vod_extract_uint32_token_reverse`, on the range
from `start_pos` to `end_pos`; the result is `*result` and the pointer
returned, as an offset from `start_pos`. -/
def ngx_http_vod_extract_uint32_token_reverse (range : Bytes) : Nat × Nat :=
  reverse_loop range.reverse range.length 1 0

end NgxVod

/-! ## Theorems -/

namespace NgxVod

theorem drop_take_mid (X Y Z : Bytes) (n m : Nat) (hn : n = X.length) (hm : m = Y.length) :
    ((X ++ Y ++ Z).drop n).take m = Y := by
  subst hn hm
  simp

theorem value_slice (A cur rest : Bytes) (sep n : Nat) (hn : n = A.length + 1 + cur.length) :
    ((A ++ sep :: cur ++ rest).drop (A.length + 1)).take (n - (A.length + 1)) = cur := by
  subst hn
  have h : A ++ sep :: cur ++ rest = (A ++ [sep]) ++ cur ++ rest := by simp
  rw [h]
  exact drop_take_mid (A ++ [sep]) cur rest _ _ (by simp) (by omega)

theorem name_step_fields (env : Env) (st : ScanState) (c : Nat) :
    (name_step env st c).last_slash = st.last_slash ∧
    (name_step env st c).param_def = st.param_def ∧
    (name_step env st c).copy_start = st.copy_start ∧
    (name_step env st c).p = st.p ∧
    (name_step env st c).out = st.out := by
  unfold name_step
  split <;> simp

theorem key_name_snoc (env : Env) (cur : Bytes) (c : Nat) :
    key_name env (cur ++ [c]) =
      if (key_name env cur).length < env.MAX_URI_PARAM_NAME_LEN + 1 then
        key_name env cur ++ [ngx_tolower c]
      else key_name env cur := by
  unfold key_name
  simp only [List.length_map, List.length_take]
  split
  · rename_i h
    have h1 : cur.length < env.MAX_URI_PARAM_NAME_LEN + 1 := by omega
    rw [List.take_of_length_le (by simp; omega), List.take_of_length_le (by omega)]
    simp
  · rename_i h
    have h1 : env.MAX_URI_PARAM_NAME_LEN + 1 ≤ cur.length := by omega
    rw [List.take_append_of_le_length h1]

theorem name_step_name (env : Env) (st : ScanState) (c : Nat) (cur : Bytes)
    (hname : st.param_name = key_name env cur)
    (hhash : st.cur_key_hash = (key_name env cur).foldl ngx_hash 0) :
    (name_step env st c).param_name = key_name env (cur ++ [c]) ∧
    (name_step env st c).cur_key_hash = (key_name env (cur ++ [c])).foldl ngx_hash 0 := by
  rw [key_name_snoc]
  unfold name_step
  rw [hname]
  split
  · simp [hname, hhash]
  · simp [hname, hhash]

theorem split_on_cons_ne (sep c : Nat) (cs : Bytes) (h : c ≠ sep) :
    split_on sep (c :: cs) = (c :: (split_on sep cs).1, (split_on sep cs).2) := by
  simp [split_on, h]

theorem split_on_cons_eq (sep : Nat) (cs : Bytes) :
    split_on sep (sep :: cs) = ([], (split_on sep cs).1 :: (split_on sep cs).2) := by
  simp [split_on]

theorem scan_loop_spec (env : Env) (uri : Bytes) : ∀ rest : Bytes,
    (∀ (pre : Bytes) (st : ScanState) (cur_pos : Nat), uri = pre ++ rest → cur_pos = pre.length →
      st.last_slash = none → st.param_def = none → st.copy_start = 0 → st.p = [] →
      scan_outcome uri (scan_loop env uri rest cur_pos st) =
        with_stripped (run_params env (spec_params env (split_on SLASH rest).2) st.out)
          (pre ++ (split_on SLASH rest).1 ++ strip_pairs env (split_on SLASH rest).2)) ∧
    (∀ (A B cur : Bytes) (st : ScanState) (cur_pos : Nat),
      uri = A ++ B ++ SLASH :: cur ++ rest → cur_pos = (A ++ B).length + 1 + cur.length →
      st.last_slash = some (A ++ B).length → st.param_def = none → st.copy_start = A.length →
      st.param_name = key_name env cur → st.cur_key_hash = (key_name env cur).foldl ngx_hash 0 →
      scan_outcome uri (scan_loop env uri rest cur_pos st) =
        with_stripped
          (run_params env (spec_params env ((cur ++ (split_on SLASH rest).1) :: (split_on SLASH rest).2))
            st.out)
          (st.p ++ B ++ strip_pairs env ((cur ++ (split_on SLASH rest).1) :: (split_on SLASH rest).2))) ∧
    (∀ (A cur : Bytes) (d : ParamDef) (st : ScanState) (cur_pos : Nat),
      uri = A ++ SLASH :: cur ++ rest → cur_pos = A.length + 1 + cur.length →
      st.last_slash = some A.length → st.param_def = some d →
      scan_outcome uri (scan_loop env uri rest cur_pos st) =
        with_stripped
          (run_params env ((d, cur ++ (split_on SLASH rest).1) :: spec_params env (split_on SLASH rest).2)
            st.out)
          (st.p ++ strip_pairs env (split_on SLASH rest).2)) := by
  intro rest
  induction rest with
  | nil =>
    refine ⟨?_, ?_, ?_⟩
    · intro pre st cur_pos huri hpos hls hpd hcs hp
      simp [scan_loop, boundary_step, hls, scan_outcome, split_on, spec_params, run_params,
        with_stripped, strip_pairs, ngx_copy, hcs, hp, huri]
    · intro A B cur st cur_pos huri hpos hls hpd hcs hname hhash
      simp only [scan_loop, boundary_step, hls, hpd, split_on, spec_params, run_params,
        with_stripped, strip_pairs, List.append_nil]
      rw [hhash, hname]
      cases hf : env.ngx_hash_find ((key_name env cur).foldl ngx_hash 0) (key_name env cur) with
      | none =>
        simp [scan_outcome, ngx_copy, hcs, huri]
      | some d =>
        simp [scan_outcome, ngx_copy, hcs, huri]
        omega
    · intro A cur d st cur_pos huri hpos hls hpd
      have hv := value_slice A cur [] SLASH cur_pos hpos
      rw [← huri] at hv
      simp only [scan_loop, boundary_step, hls, hpd, hv, split_on, spec_params, run_params,
        List.append_nil]
      cases hs : value_step env d cur st.out with
      | error rc => simp [scan_outcome, with_stripped]
      | ok o =>
        simp [scan_outcome, with_stripped, strip_pairs, ngx_copy, huri, hpos]
        omega
  | cons c rest ih =>
    obtain ⟨ih0, ihK, ihV⟩ := ih
    by_cases hc : c = SLASH
    · subst hc
      rw [split_on_cons_eq]
      refine ⟨?_, ?_, ?_⟩
      · intro pre st cur_pos huri hpos hls hpd hcs hp
        simp only [scan_loop, boundary_step, hls, ne_eq, not_true_eq_false, if_false]
        rw [ihK [] pre [] _ (cur_pos + 1) (by simpa using huri) (by simp [hpos])
          (by simp [hpos]) (by simp [hpd]) (by simp [hcs]) (by simp [key_name])
          (by simp [key_name])]
        simp [hp, spec_params, strip_pairs]
      · intro A B cur st cur_pos huri hpos hls hpd hcs hname hhash
        have hl : env.ngx_hash_find st.cur_key_hash st.param_name = lookup env cur := by
          rw [hhash, hname]; rfl
        simp only [scan_loop, boundary_step, hls, hpd, hl, ne_eq, not_true_eq_false, if_false,
          List.append_nil]
        cases hf : lookup env cur with
        | none =>
          simp only []
          rw [ihK A (B ++ SLASH :: cur) [] _ (cur_pos + 1) (by simpa using huri)
            (by simp [hpos]; omega) (by simp [hpos]; omega) (by simp [hpd]) (by simp [hcs])
            (by simp [key_name]) (by simp [key_name])]
          simp [spec_params, strip_pairs, hf]
        | some d =>
          simp only []
          rw [ihV (A ++ B ++ SLASH :: cur) [] d _ (cur_pos + 1) (by simpa using huri)
            (by simp [hpos]; omega) (by simp [hpos]; omega) (by simp)]
          have hB : ngx_copy st.p uri st.copy_start ((A ++ B).length - st.copy_start) = st.p ++ B := by
            unfold ngx_copy
            rw [huri, hcs]
            have h : A ++ B ++ SLASH :: cur ++ SLASH :: rest = A ++ B ++ (SLASH :: cur ++ SLASH :: rest) := by
              simp
            rw [h, drop_take_mid A B _ _ _ rfl (by simp)]
          rw [List.length_append] at hB
          simp [spec_params, strip_pairs, hf, hB]
      · intro A cur d st cur_pos huri hpos hls hpd
        have hv := value_slice A cur (SLASH :: rest) SLASH cur_pos hpos
        rw [← huri] at hv
        simp only [scan_loop, boundary_step, hls, hpd, hv, run_params, ne_eq, not_true_eq_false,
          if_false, List.append_nil]
        cases hs : value_step env d cur st.out with
        | error rc => simp [scan_outcome, with_stripped]
        | ok o =>
          simp only []
          rw [ihK (A ++ SLASH :: cur) [] [] _ (cur_pos + 1) (by simpa using huri)
            (by simp [hpos]; omega) (by simp [hpos]; omega) (by simp) (by simp [hpos]; omega)
            (by simp [key_name]) (by simp [key_name])]
          simp
    · rw [split_on_cons_ne _ _ _ hc]
      refine ⟨?_, ?_, ?_⟩
      · intro pre st cur_pos huri hpos hls hpd hcs hp
        obtain ⟨f1, f2, f3, f4, f5⟩ := name_step_fields env st c
        simp only [scan_loop, ne_eq, hc, not_false_eq_true, if_true]
        rw [ih0 (pre ++ [c]) _ (cur_pos + 1) (by simpa using huri) (by simp [hpos])
          (by rw [f1, hls]) (by rw [f2, hpd]) (by rw [f3, hcs]) (by rw [f4, hp])]
        simp [f5]
      · intro A B cur st cur_pos huri hpos hls hpd hcs hname hhash
        obtain ⟨f1, f2, f3, f4, f5⟩ := name_step_fields env st c
        obtain ⟨g1, g2⟩ := name_step_name env st c cur hname hhash
        simp only [scan_loop, ne_eq, hc, not_false_eq_true, if_true]
        rw [ihK A B (cur ++ [c]) _ (cur_pos + 1) (by simpa using huri) (by simp [hpos]; omega)
          (by rw [f1, hls]) (by rw [f2, hpd]) (by rw [f3, hcs]) g1 g2]
        simp [f4, f5]
      · intro A cur d st cur_pos huri hpos hls hpd
        obtain ⟨f1, f2, f3, f4, f5⟩ := name_step_fields env st c
        simp only [scan_loop, ne_eq, hc, not_false_eq_true, if_true]
        rw [ihV A (cur ++ [c]) d _ (cur_pos + 1) (by simpa using huri) (by simp [hpos]; omega)
          (by rw [f1, hls]) (by rw [f2, hpd])]
        simp [f4, f5]

theorem split_on_join (sep : Nat) (l : Bytes) :
    (split_on sep l).1 ++ ((split_on sep l).2.map (fun s => sep :: s)).flatten = l := by
  induction l with
  | nil => simp [split_on]
  | cons c cs ih =>
    by_cases h : c = sep
    · subst h
      rw [split_on_cons_eq]
      simpa using ih
    · rw [split_on_cons_ne _ _ _ h]
      simpa using ih

theorem extract_uri_params_eq_spec (env : Env) (uri : Bytes) (sequence clip_id : Nat) :
    ngx_http_vod_extract_uri_params env uri sequence clip_id =
      spec_extract_uri_params env uri sequence clip_id := by
  have h := (scan_loop_spec env uri uri).1 [] (scan_init uri sequence clip_id) 0 (by simp) rfl
    rfl rfl rfl rfl
  unfold ngx_http_vod_extract_uri_params spec_extract_uri_params
  split
  · rfl
  · have ho : (scan_init uri sequence clip_id).out = param_init uri sequence clip_id := rfl
    rw [ho] at h
    cases hs : scan_loop env uri uri 0 (scan_init uri sequence clip_id) with
    | error rc =>
      rw [hs] at h
      cases hr : run_params env (spec_params env (split_on SLASH uri).2)
          (param_init uri sequence clip_id) with
      | error rc2 =>
        rw [hr] at h
        simp [scan_outcome, with_stripped] at h
        simp [h]
      | ok o =>
        rw [hr] at h
        simp [scan_outcome, with_stripped] at h
    | ok st =>
      rw [hs] at h
      cases hr : run_params env (spec_params env (split_on SLASH uri).2)
          (param_init uri sequence clip_id) with
      | error rc2 =>
        rw [hr] at h
        simp [scan_outcome, with_stripped] at h
      | ok o =>
        rw [hr] at h
        simp only [scan_outcome, with_stripped, Except.ok.injEq, Prod.mk.injEq, List.nil_append] at h
        simp only [h.1, h.2, spec_stripped_uri]

theorem no_key_segments (env : Env) (segs : List Bytes)
    (h : ∀ seg ∈ segs, lookup env seg = none) :
    spec_params env segs = [] ∧
      strip_pairs env segs = (segs.map (fun s => SLASH :: s)).flatten := by
  induction segs with
  | nil => simp [spec_params, strip_pairs]
  | cons k tl ih =>
    cases tl with
    | nil => simp [spec_params, strip_pairs]
    | cons v rest =>
      have hk : lookup env k = none := h k (by simp)
      have ih' := ih (fun seg hseg => h seg (List.mem_cons_of_mem _ hseg))
      simp only [spec_params, strip_pairs, hk]
      refine ⟨ih'.1, ?_⟩
      rw [ih'.2]
      simp

theorem mask_bit_clear_iff (m i : Nat) : m &&& (1 <<< i) = 0 ↔ m.testBit i = false := by
  rw [Nat.one_shiftLeft]
  constructor
  · intro h
    have h1 : (m &&& 2 ^ i).testBit i = false := by rw [h]; simp
    simpa [Nat.testBit_two_pow_self] using h1
  · intro h
    apply Nat.eq_of_testBit_eq
    intro j
    simp only [Nat.testBit_and, Nat.testBit_two_pow, Nat.zero_testBit]
    by_cases hij : i = j
    · subst hij; simp [h]
    · simp [hij]

theorem mask_bit_set (m i j : Nat) :
    (m ||| (1 <<< i)).testBit j = (m.testBit j || decide (i = j)) := by
  rw [Nat.one_shiftLeft, Nat.testBit_or, Nat.testBit_two_pow]

theorem index_injective (d d' : ParamDef) (h : d.index = d'.index) : d = d' := by
  cases d <;> cases d' <;> simp [ParamDef.index] at h <;> rfl

theorem store_param_mask (env : Env) (d : ParamDef) (v : Bytes) (o o1 : ParamState)
    (h : store_param env d v o = .ok o1) : o1.parsed_params_mask = o.parsed_params_mask := by
  unfold store_param at h
  split at h
  · split at h
    · cases h
    · cases h; rfl
  · split at h
    · cases h
    · cases h; rfl

theorem run_params_eq_store_all (env : Env) (ps : List (ParamDef × Bytes)) :
    ∀ (seen : List ParamDef) (o : ParamState),
      (∀ d : ParamDef, d ∈ seen ↔ o.parsed_params_mask.testBit d.index = true) →
      run_params env ps o = store_all env (first_occurrences seen ps) o := by
  induction ps with
  | nil => intro seen o _; simp [run_params, first_occurrences, store_all]
  | cons q ps ih =>
    intro seen o hseen
    obtain ⟨d, v⟩ := q
    simp only [run_params, value_step, first_occurrences]
    by_cases hd : d ∈ seen
    · have hb : ¬ (o.parsed_params_mask &&& (1 <<< d.index) = 0) := by
        rw [mask_bit_clear_iff]
        simpa using (hseen d).1 hd
      simp only [hd, hb, if_true, if_false]
      exact ih seen o hseen
    · have hb : o.parsed_params_mask &&& (1 <<< d.index) = 0 := by
        rw [mask_bit_clear_iff]
        simpa using fun h => hd ((hseen d).2 h)
      simp only [hd, hb, if_true, if_false, store_all]
      cases hs : store_param env d v
          { o with parsed_params_mask := o.parsed_params_mask ||| (1 <<< d.index) } with
      | error rc => rfl
      | ok o1 =>
        simp only []
        apply ih
        intro d'
        rw [store_param_mask env d v _ o1 hs]
        simp only [mask_bit_set, List.mem_cons, Bool.or_eq_true, decide_eq_true_eq]
        rw [← hseen d']
        constructor
        · rintro (h | h)
          · right; rw [h]
          · left; exact h
        · rintro (h | h)
          · right; exact h
          · left; exact (index_injective _ _ h).symm

theorem parser_other_field (env : Env) (d d' : ParamDef) (v : Bytes) (s s' : media_clip_source_t)
    (h : d'.parser env v s = .ok s') (hne : d' ≠ d) : d.field s' = d.field s := by
  cases d' with
  | clip_to =>
    simp only [ParamDef.parser] at h
    split at h
    · cases h
    · cases h
      cases d <;> first | rfl | exact absurd rfl hne
  | clip_from =>
    simp only [ParamDef.parser] at h
    split at h
    · cases h
    · cases h
      cases d <;> first | rfl | exact absurd rfl hne
  | tracks =>
    simp only [ParamDef.parser, ngx_http_vod_parse_tracks_param] at h
    split at h
    · cases h
    · cases h
      cases d <;> first | rfl | exact absurd rfl hne
  | speed =>
    simp only [ParamDef.parser] at h
    cases h
    rfl

theorem parser_field_indep (env : Env) (d : ParamDef) (v : Bytes) (s s' t : media_clip_source_t)
    (h : d.parser env v s = .ok s') :
    ∃ t', d.parser env v t = .ok t' ∧ d.field t' = d.field s' := by
  cases d with
  | clip_to =>
    simp only [ParamDef.parser] at h ⊢
    split at h
    · cases h
    · cases h
      exact ⟨_, rfl, rfl⟩
  | clip_from =>
    simp only [ParamDef.parser] at h ⊢
    split at h
    · cases h
    · cases h
      exact ⟨_, rfl, rfl⟩
  | tracks =>
    simp only [ParamDef.parser, ngx_http_vod_parse_tracks_param] at h ⊢
    split at h
    · cases h
    · rename_i hlen
      cases h
      rw [if_neg hlen]
      exact ⟨_, rfl, rfl⟩
  | speed =>
    exact ⟨t, rfl, rfl⟩

theorem store_param_other_field (env : Env) (d d' : ParamDef) (v : Bytes) (o o1 : ParamState)
    (h : store_param env d' v o = .ok o1) (hne : d' ≠ d) :
    d.field o1.source_clip = d.field o.source_clip := by
  unfold store_param at h
  split at h
  · split at h
    · cases h
    · cases h; rfl
  · split at h
    · cases h
    · rename_i src hp
      cases h
      exact parser_other_field env d d' v _ _ hp hne

theorem run_params_field_kept (env : Env) (d : ParamDef) (ps : List (ParamDef × Bytes)) :
    ∀ (o o' : ParamState), run_params env ps o = .ok o' →
      o.parsed_params_mask.testBit d.index = true →
      d.field o'.source_clip = d.field o.source_clip := by
  induction ps with
  | nil =>
    intro o o' h _
    simp only [run_params] at h
    cases h
    rfl
  | cons q ps ih =>
    intro o o' h hbit
    obtain ⟨d', v⟩ := q
    simp only [run_params, value_step] at h
    split at h
    · cases h
    · rename_i o1 hs
      split at hs
      · rename_i hclear
        have hne : d' ≠ d := by
          intro hdd
          subst hdd
          rw [mask_bit_clear_iff] at hclear
          rw [hclear] at hbit
          cases hbit
        have hm := store_param_mask env d' v _ o1 hs
        have hf := store_param_other_field env d d' v _ o1 hs hne
        rw [ih o1 o' h (by rw [hm, mask_bit_set, hbit]; rfl), hf]
      · cases hs
        exact ih _ o' h hbit

theorem run_params_first_value (env : Env) (d : ParamDef) (v : Bytes) (hd : d ≠ .speed)
    (ps : List (ParamDef × Bytes)) :
    ∀ (o o' : ParamState), run_params env ps o = .ok o' →
      o.parsed_params_mask.testBit d.index = false →
      ps.find? (fun q => decide (q.1 = d)) = some (d, v) →
      ∀ s : media_clip_source_t,
        ∃ s', d.parser env v s = .ok s' ∧ d.field s' = d.field o'.source_clip := by
  induction ps with
  | nil =>
    intro o o' _ _ hfind
    simp at hfind
  | cons q ps ih =>
    intro o o' h hbit hfind s
    obtain ⟨d', v'⟩ := q
    simp only [run_params, value_step] at h
    by_cases hdd : d' = d
    · subst hdd
      simp only [List.find?_cons, decide_True, Option.some.injEq, Prod.mk.injEq, true_and] at hfind
      subst hfind
      have hclear := (mask_bit_clear_iff o.parsed_params_mask d'.index).2 hbit
      rw [if_pos hclear] at h
      split at h
      · cases h
      · rename_i o1 hs
        have hm := store_param_mask env d' v' _ o1 hs
        have hk := run_params_field_kept env d' ps o1 o' h (by rw [hm, mask_bit_set]; simp)
        unfold store_param at hs
        rw [if_neg hd] at hs
        split at hs
        · cases hs
        · rename_i src hp
          cases hs
          obtain ⟨t', ht1, ht2⟩ := parser_field_indep env d' v' _ src s hp
          exact ⟨t', ht1, by rw [ht2, hk]⟩
    · have hfind' : ps.find? (fun q => decide (q.1 = d)) = some (d, v) := by
        simpa [List.find?_cons, hdd] using hfind
      split at h
      · cases h
      · rename_i o1 hs
        split at hs
        · have hm := store_param_mask env d' v' _ o1 hs
          refine ih o1 o' h ?_ hfind' s
          rw [hm, mask_bit_set, hbit]
          simp only [Bool.false_or, decide_eq_false_iff_not]
          intro hi
          exact hdd (index_injective _ _ hi)
        · cases hs
          exact ih _ o' h hbit hfind' s

/-- C1. On every URI on which `ngx_http_vod_extract_uri_params` succeeds, the
stripped URI is the URI without its recognised `/key/value` pairs
(`spec_stripped_uri`, read over the segments of the URI, which joined by `'/'`
give the URI back); with `clipfrom` and `clipto` configured,
`"/video.mp4/clipfrom/1000/clipto/5000/"` gives `clip_from = 1000`,
`clip_to = 5000` and the stripped URI `"/video.mp4/"`; and a URI none of whose
segments is a key gives the URI itself with the default clip range and track
masks. -/
theorem extract_uri_params_stripped_uri :
    (∀ (env : Env) (uri : Bytes) (sequence clip_id : Nat) (r : ExtractResult),
      ngx_http_vod_extract_uri_params env uri sequence clip_id = .ok r →
      r.source_clip.stripped_uri = spec_stripped_uri env uri ∧
      (split_on SLASH uri).1 ++ ((split_on SLASH uri).2.map (fun s => SLASH :: s)).flatten = uri) ∧
    (∃ r, ngx_http_vod_extract_uri_params example_env
        (bytes "/video.mp4/clipfrom/1000/clipto/5000/") 0 1 = .ok r ∧
      r.source_clip.clip_from = 1000 ∧ r.source_clip.clip_to = 5000 ∧
      r.source_clip.stripped_uri = bytes "/video.mp4/") ∧
    (∀ (env : Env) (uri : Bytes) (sequence clip_id : Nat),
      env.ngx_palloc (uri.length + 1) = true →
      (∀ seg ∈ (split_on SLASH uri).2, lookup env seg = none) →
      ∃ r, ngx_http_vod_extract_uri_params env uri sequence clip_id = .ok r ∧
        r.source_clip.stripped_uri = uri ∧ r.source_clip.clip_from = 0 ∧
        r.source_clip.clip_to = UINT_MAX ∧
        r.source_clip.tracks_mask_audio = 0xffffffff ∧
        r.source_clip.tracks_mask_video = 0xffffffff) := by
  refine ⟨?_, ?_, ?_⟩
  · intro env uri sequence clip_id r h
    refine ⟨?_, split_on_join SLASH uri⟩
    rw [extract_uri_params_eq_spec] at h
    unfold spec_extract_uri_params at h
    split at h
    · cases h
    · split at h
      · cases h
      · unfold extract_finish at h
        split at h
        · cases h
        · cases h
          rfl
  · refine ⟨_, (by decide : ngx_http_vod_extract_uri_params example_env
        (bytes "/video.mp4/clipfrom/1000/clipto/5000/") 0 1 = .ok
          { source_clip :=
              { id := 1, clip_from := 1000, clip_to := 5000, tracks_mask_audio := 0xffffffff,
                tracks_mask_video := 0xffffffff,
                uri := bytes "/video.mp4/clipfrom/1000/clipto/5000/",
                stripped_uri := bytes "/video.mp4/", mapped_uri := bytes "/video.mp4/",
                sequence := 0 },
            result := .source, clip_id := 2 }), rfl, rfl, rfl⟩
  · intro env uri sequence clip_id hp hno
    obtain ⟨h1, h2⟩ := no_key_segments env _ hno
    rw [extract_uri_params_eq_spec]
    unfold spec_extract_uri_params
    rw [hp, h1]
    simp only [run_params, spec_stripped_uri, h2, split_on_join]
    refine ⟨_, by simp [extract_finish, param_init, source_defaults, UINT_MAX]; rfl, ?_⟩
    simp [param_init, source_defaults, UINT_MAX]

/-- A witness of C1: the table of the example has no key on `"/a/b"`, which
comes back unchanged. -/
theorem extract_uri_params_stripped_uri_witness :
    ∃ r, ngx_http_vod_extract_uri_params example_env (bytes "/a/b") 0 1 = .ok r ∧
      r.source_clip.stripped_uri = bytes "/a/b" ∧ r.source_clip.clip_from = 0 ∧
      r.source_clip.clip_to = UINT_MAX ∧
      r.source_clip.tracks_mask_audio = 0xffffffff ∧
      r.source_clip.tracks_mask_video = 0xffffffff :=
  extract_uri_params_stripped_uri.2.2 example_env (bytes "/a/b") 0 1 (by decide) (by decide)

/-- C2. When a keyword is recognised more than once, the field of the source
record holds what the parser gives for the value of the first recognised pair
of that keyword, whatever the values of the later pairs; every recognised pair
is removed from the stripped URI;
`"/clipfrom/1000/x/clipfrom/2000/"` gives `clip_from = 1000` and the stripped
URI `"/x/"`. -/
theorem extract_uri_params_first_occurrence_wins :
    (∀ (env : Env) (uri : Bytes) (sequence clip_id : Nat) (r : ExtractResult) (d : ParamDef)
        (v : Bytes),
      ngx_http_vod_extract_uri_params env uri sequence clip_id = .ok r → d ≠ .speed →
      (spec_params env (split_on SLASH uri).2).find? (fun q => decide (q.1 = d)) = some (d, v) →
      ∀ s : media_clip_source_t,
        ∃ s', d.parser env v s = .ok s' ∧ d.field s' = d.field r.source_clip) ∧
    (∀ (env : Env) (uri : Bytes) (sequence clip_id : Nat) (r : ExtractResult),
      ngx_http_vod_extract_uri_params env uri sequence clip_id = .ok r →
      r.source_clip.stripped_uri = spec_stripped_uri env uri) ∧
    (spec_params example_env (split_on SLASH (bytes "/clipfrom/1000/x/clipfrom/2000/")).2 =
        [(.clip_from, bytes "1000"), (.clip_from, bytes "2000")] ∧
      ∃ r, ngx_http_vod_extract_uri_params example_env
          (bytes "/clipfrom/1000/x/clipfrom/2000/") 0 1 = .ok r ∧
        r.source_clip.clip_from = 1000 ∧ r.source_clip.stripped_uri = bytes "/x/") := by
  refine ⟨?_, ?_, ?_⟩
  · intro env uri sequence clip_id r d v h hd hfind s
    rw [extract_uri_params_eq_spec] at h
    unfold spec_extract_uri_params at h
    split at h
    · cases h
    · split at h
      · cases h
      · rename_i o hr
        obtain ⟨s', hs1, hs2⟩ :=
          run_params_first_value env d v hd _ _ o hr (by simp [param_init]) hfind s
        refine ⟨s', hs1, ?_⟩
        unfold extract_finish at h
        split at h
        · cases h
        · cases h
          rw [hs2]
          cases d <;> rfl
  · intro env uri sequence clip_id r h
    rw [extract_uri_params_eq_spec] at h
    unfold spec_extract_uri_params at h
    split at h
    · cases h
    · split at h
      · cases h
      · unfold extract_finish at h
        split at h
        · cases h
        · cases h
          rfl
  · refine ⟨by decide, _, (by decide : ngx_http_vod_extract_uri_params example_env
        (bytes "/clipfrom/1000/x/clipfrom/2000/") 0 1 = .ok
          { source_clip :=
              { id := 1, clip_from := 1000, clip_to := UINT_MAX, tracks_mask_audio := 0xffffffff,
                tracks_mask_video := 0xffffffff,
                uri := bytes "/clipfrom/1000/x/clipfrom/2000/",
                stripped_uri := bytes "/x/", mapped_uri := bytes "/x/",
                sequence := 0 },
            result := .source, clip_id := 2 }), rfl, rfl⟩

/-- A witness of C2: on `"/clipfrom/1000/x/clipfrom/2000/"` the field
`clip_from` is what the parser gives for `"1000"`. -/
theorem extract_uri_params_first_occurrence_wins_witness :
    ∃ s', ParamDef.clip_from.parser example_env (bytes "1000")
        (source_defaults [] 0 0) = .ok s' ∧
      ParamDef.clip_from.field s' = (1000, 0) :=
  extract_uri_params_first_occurrence_wins.1 example_env
    (bytes "/clipfrom/1000/x/clipfrom/2000/") 0 1
    { source_clip :=
        { id := 1, clip_from := 1000, clip_to := UINT_MAX, tracks_mask_audio := 0xffffffff,
          tracks_mask_video := 0xffffffff,
          uri := bytes "/clipfrom/1000/x/clipfrom/2000/",
          stripped_uri := bytes "/x/", mapped_uri := bytes "/x/",
          sequence := 0 },
      result := .source, clip_id := 2 }
    .clip_from (bytes "1000") (by decide) (by decide) (by decide) (source_defaults [] 0 0)

/-- C3, as stated, fails: the parser of `clipfrom` rejects `"abc"`, and the
extraction of `"/clipfrom/1000/clipfrom/abc/"` returns `NGX_OK` with
`clip_from = 1000`. -/
theorem extract_uri_params_duplicate_error_hidden :
    ParamDef.clip_from.parser example_env (bytes "abc") (source_defaults [] 0 0) =
        .error NGX_HTTP_BAD_REQUEST ∧
      ngx_http_vod_extract_uri_params example_env (bytes "/clipfrom/1000/clipfrom/abc/") 0 1 =
        .ok
          { source_clip :=
              { id := 1, clip_from := 1000, clip_to := UINT_MAX, tracks_mask_audio := 0xffffffff,
                tracks_mask_video := 0xffffffff,
                uri := bytes "/clipfrom/1000/clipfrom/abc/",
                stripped_uri := bytes "/", mapped_uri := bytes "/",
                sequence := 0 },
            result := .source, clip_id := 2 } := by
  decide

/-- C3, amended. A later duplicate of a keyword that is already consumed is
not passed to the parser: when the bit of the keyword is set in
`parsed_params_mask` the value is skipped and the state is left as it is,
whatever the value; and the whole extraction equals the one that stores the
first recognised pair of every keyword only, so a parser error comes from a
first occurrence alone. -/
theorem extract_uri_params_duplicate_skipped :
    (∀ (env : Env) (d : ParamDef) (v : Bytes) (o : ParamState),
      o.parsed_params_mask &&& (1 <<< d.index) ≠ 0 → value_step env d v o = .ok o) ∧
    (∀ (env : Env) (uri : Bytes) (sequence clip_id : Nat),
      ngx_http_vod_extract_uri_params env uri sequence clip_id =
        if env.ngx_palloc (uri.length + 1) = false then .error NGX_HTTP_INTERNAL_SERVER_ERROR
        else
          match store_all env (first_occurrences [] (spec_params env (split_on SLASH uri).2))
              (param_init uri sequence clip_id) with
          | .error rc => .error rc
          | .ok o => extract_finish o (spec_stripped_uri env uri)) := by
  refine ⟨?_, ?_⟩
  · intro env d v o h
    simp [value_step, h]
  · intro env uri sequence clip_id
    rw [extract_uri_params_eq_spec]
    unfold spec_extract_uri_params
    rw [run_params_eq_store_all env _ [] (param_init uri sequence clip_id)
      (by intro d; simp [param_init])]

/-- A witness of C3, amended: with the bit of `clip_from` set, the value
`"abc"` is skipped. -/
theorem extract_uri_params_duplicate_skipped_witness :
    value_step example_env .clip_from (bytes "abc")
        { parsed_params_mask := 2, source_clip := source_defaults [] 0 0, clip_id := 1,
          result := .source } =
      .ok { parsed_params_mask := 2, source_clip := source_defaults [] 0 0, clip_id := 1,
            result := .source } :=
  extract_uri_params_duplicate_skipped.1 example_env .clip_from (bytes "abc") _ (by decide)

/-- C4. Whenever the scan leaves `clip_from >= clip_to` the extraction returns
`NGX_HTTP_BAD_REQUEST`, so a successful extraction has `clip_from < clip_to`;
the defaults `0` and `UINT_MAX` pass the test, so a URI without a recognised
pair succeeds; a scan that leaves `clip_to = 0` fails, as `"/clipto/0/"`
does. -/
theorem extract_uri_params_clip_range :
    (∀ (env : Env) (uri : Bytes) (sequence clip_id : Nat) (st : ScanState),
      env.ngx_palloc (uri.length + 1) = true →
      scan_loop env uri uri 0 (scan_init uri sequence clip_id) = .ok st →
      st.out.source_clip.clip_from ≥ st.out.source_clip.clip_to →
      ngx_http_vod_extract_uri_params env uri sequence clip_id = .error NGX_HTTP_BAD_REQUEST) ∧
    (∀ (env : Env) (uri : Bytes) (sequence clip_id : Nat) (r : ExtractResult),
      ngx_http_vod_extract_uri_params env uri sequence clip_id = .ok r →
      r.source_clip.clip_from < r.source_clip.clip_to) ∧
    (∀ (env : Env) (uri : Bytes) (sequence clip_id : Nat),
      env.ngx_palloc (uri.length + 1) = true →
      spec_params env (split_on SLASH uri).2 = [] →
      ∃ r, ngx_http_vod_extract_uri_params env uri sequence clip_id = .ok r ∧
        r.source_clip.clip_from = 0 ∧ r.source_clip.clip_to = UINT_MAX) ∧
    (∀ (env : Env) (uri : Bytes) (sequence clip_id : Nat) (st : ScanState),
      env.ngx_palloc (uri.length + 1) = true →
      scan_loop env uri uri 0 (scan_init uri sequence clip_id) = .ok st →
      st.out.source_clip.clip_to = 0 →
      ngx_http_vod_extract_uri_params env uri sequence clip_id = .error NGX_HTTP_BAD_REQUEST) ∧
    ngx_http_vod_extract_uri_params example_env (bytes "/clipto/0/") 0 1 =
      .error NGX_HTTP_BAD_REQUEST := by
  have hbad : ∀ (env : Env) (uri : Bytes) (sequence clip_id : Nat) (st : ScanState),
      env.ngx_palloc (uri.length + 1) = true →
      scan_loop env uri uri 0 (scan_init uri sequence clip_id) = .ok st →
      st.out.source_clip.clip_from ≥ st.out.source_clip.clip_to →
      ngx_http_vod_extract_uri_params env uri sequence clip_id =
        .error NGX_HTTP_BAD_REQUEST := by
    intro env uri sequence clip_id st hp hs hge
    unfold ngx_http_vod_extract_uri_params
    rw [hp, hs]
    simp [extract_finish, hge]
  refine ⟨hbad, ?_, ?_, ?_, by decide⟩
  · intro env uri sequence clip_id r h
    unfold ngx_http_vod_extract_uri_params at h
    split at h
    · cases h
    · split at h
      · cases h
      · unfold extract_finish at h
        split at h
        · cases h
        · rename_i hlt
          cases h
          simpa using hlt
  · intro env uri sequence clip_id hp hnil
    rw [extract_uri_params_eq_spec]
    unfold spec_extract_uri_params
    rw [hp, hnil]
    simp [run_params, extract_finish, param_init, source_defaults, UINT_MAX]
  · intro env uri sequence clip_id st hp hs hz
    exact hbad env uri sequence clip_id st hp hs (by rw [hz]; exact Nat.zero_le _)

/-- A witness of C4: `"/clipfrom/5000/clipto/1000/"` leaves
`clip_from = 5000` and `clip_to = 1000` and is refused. -/
theorem extract_uri_params_clip_range_witness :
    ngx_http_vod_extract_uri_params example_env (bytes "/clipfrom/5000/clipto/1000/") 0 1 =
      .error NGX_HTTP_BAD_REQUEST :=
  extract_uri_params_clip_range.1 example_env (bytes "/clipfrom/5000/clipto/1000/") 0 1
    { param_def := none, cur_key_hash := 0, param_name := [], copy_start := 26,
      last_slash := some 27, p := [],
      out :=
        { parsed_params_mask := 3,
          source_clip :=
            { id := 1, clip_from := 5000, clip_to := 1000, tracks_mask_audio := 0xffffffff,
              tracks_mask_video := 0xffffffff, uri := bytes "/clipfrom/5000/clipto/1000/",
              stripped_uri := [], mapped_uri := [], sequence := 0 },
          clip_id := 2, result := .source } }
    (by decide) (by decide) (by decide)

theorem init_fields_snoc (f g : Bytes) (gs : List Bytes) :
    f :: init_fields g gs = init_fields f (g :: gs) := rfl

theorem multi_loop_after_comma (env : Env) (uri marker : Bytes) : ∀ (rest A cur : Bytes)
    (st : MultiState) (cur_pos : Nat),
    uri = A ++ cur ++ rest ++ marker → cur_pos = (A ++ cur).length →
    st.last_comma_pos = some A.length → st.part_index ≤ env.MAX_SUB_URIS →
    (st.part_index + (split_on COMMA rest).2.length ≤ env.MAX_SUB_URIS →
      ∃ st' lc, multi_loop env rest cur_pos st = .ok st' ∧
        st'.prefix_len = st.prefix_len ∧
        st'.part_index = st.part_index + (split_on COMMA rest).2.length ∧
        st'.middle_parts.map (ngx_str_t.bytes uri) =
          st.middle_parts.map (ngx_str_t.bytes uri) ++
            init_fields (cur ++ (split_on COMMA rest).1) (split_on COMMA rest).2 ∧
        st'.last_comma_pos = some lc ∧
        (uri.drop lc).take ((A ++ cur ++ rest).length - lc) =
          last_field (cur ++ (split_on COMMA rest).1) (split_on COMMA rest).2) ∧
    (env.MAX_SUB_URIS < st.part_index + (split_on COMMA rest).2.length →
      multi_loop env rest cur_pos st = .error NGX_HTTP_BAD_REQUEST) := by
  intro rest
  induction rest with
  | nil =>
    intro A cur st cur_pos huri hpos hlc hle
    refine ⟨?_, ?_⟩
    · intro _
      refine ⟨st, A.length, rfl, rfl, by simp [split_on], by simp [split_on, init_fields], hlc, ?_⟩
      simp only [split_on, last_field, List.append_nil]
      rw [huri]
      have h : A ++ cur ++ [] ++ marker = A ++ cur ++ marker := by simp
      rw [h]
      exact drop_take_mid A cur marker _ _ rfl (by simp)
    · intro h
      simp [split_on] at h
      omega
  | cons c rest ih =>
    intro A cur st cur_pos huri hpos hlc hle
    by_cases hc : c = COMMA
    · subst hc
      rw [split_on_cons_eq]
      simp only [multi_loop, ne_eq, not_true_eq_false, if_false, hlc, List.length_cons,
        List.append_nil, ge_iff_le]
      by_cases hfull : env.MAX_SUB_URIS ≤ st.part_index
      · rw [if_pos hfull]
        exact ⟨fun h => by omega, fun _ => rfl⟩
      · rw [if_neg hfull]
        obtain ⟨ih1, ih2⟩ := ih (A ++ cur ++ [COMMA]) []
          { st with
            middle_parts :=
              st.middle_parts ++ [{ data := some A.length, len := cur_pos - A.length }]
            part_index := st.part_index + 1
            last_comma_pos := some (cur_pos + 1) }
          (cur_pos + 1) (by simpa using huri) (by simp [hpos]; omega) (by simp [hpos]; omega)
          (by simp; omega)
        have hpart : ngx_str_t.bytes uri { data := some A.length, len := cur_pos - A.length } = cur := by
          simp only [ngx_str_t.bytes]
          rw [huri, hpos]
          have h : A ++ cur ++ COMMA :: rest ++ marker = A ++ cur ++ (COMMA :: rest ++ marker) := by
            simp
          rw [h]
          exact drop_take_mid A cur _ _ _ rfl (by simp)
        refine ⟨?_, ?_⟩
        · intro hfit
          obtain ⟨st', lc, h1, h2, h3, h4, h5, h6⟩ := ih1 (by simp only []; omega)
          refine ⟨st', lc, h1, h2, by rw [h3]; simp only []; omega, ?_, h5, ?_⟩
          · rw [h4]
            simp [hpart, init_fields]
          · simp only [last_field]
            rw [List.nil_append] at h6
            rw [← h6]
            simp
        · intro hover
          exact ih2 (by simp only []; omega)
    · rw [split_on_cons_ne _ _ _ hc]
      simp only [multi_loop, ne_eq, hc, not_false_eq_true, if_true]
      obtain ⟨ih1, ih2⟩ := ih A (cur ++ [c]) st (cur_pos + 1) (by simpa using huri)
        (by simp [hpos]; omega) hlc hle
      refine ⟨?_, ?_⟩
      · intro hfit
        obtain ⟨st', lc, h1, h2, h3, h4, h5, h6⟩ := ih1 hfit
        have e : cur ++ [c] ++ (split_on COMMA rest).1 = cur ++ c :: (split_on COMMA rest).1 := by
          simp
        rw [e] at h4 h6
        refine ⟨st', lc, h1, h2, h3, h4, h5, ?_⟩
        rw [← h6]
        simp
      · intro hover
        exact ih2 hover

theorem multi_loop_start (env : Env) (uri marker : Bytes) : ∀ (rest pre : Bytes)
    (st : MultiState) (cur_pos : Nat),
    uri = pre ++ rest ++ marker → cur_pos = pre.length →
    st.last_comma_pos = none → st.part_index = 0 → st.middle_parts = [] →
    ((split_on COMMA rest).2 = [] → multi_loop env rest cur_pos st = .ok st) ∧
    (∀ (g : Bytes) (gs : List Bytes), (split_on COMMA rest).2 = g :: gs →
      (gs.length ≤ env.MAX_SUB_URIS →
        ∃ st' lc, multi_loop env rest cur_pos st = .ok st' ∧
          st'.prefix_len = pre.length + (split_on COMMA rest).1.length ∧
          st'.part_index = gs.length ∧
          st'.middle_parts.map (ngx_str_t.bytes uri) = init_fields g gs ∧
          st'.last_comma_pos = some lc ∧
          (uri.drop lc).take ((pre ++ rest).length - lc) = last_field g gs) ∧
      (env.MAX_SUB_URIS < gs.length →
        multi_loop env rest cur_pos st = .error NGX_HTTP_BAD_REQUEST)) := by
  intro rest
  induction rest with
  | nil =>
    intro pre st cur_pos _ _ _ _ _
    exact ⟨fun _ => rfl, fun g gs h => by simp [split_on] at h⟩
  | cons c rest ih =>
    intro pre st cur_pos huri hpos hlc hpi hmp
    by_cases hc : c = COMMA
    · subst hc
      rw [split_on_cons_eq]
      refine ⟨fun h => by simp at h, ?_⟩
      intro g gs hg
      simp only [List.cons.injEq] at hg
      obtain ⟨hg1, hg2⟩ := hg
      simp only [multi_loop, ne_eq, not_true_eq_false, if_false, hlc]
      rw [hpi, hmp]
      obtain ⟨h1, h2⟩ := multi_loop_after_comma env uri marker rest (pre ++ [COMMA]) []
        { st with prefix_len := cur_pos, last_comma_pos := some (cur_pos + 1) } (cur_pos + 1)
        (by simpa using huri) (by simp [hpos]) (by simp [hpos]) (by simp [hpi])
      simp only [hpi, hmp, hg1, hg2, Nat.zero_add, List.map_nil, List.nil_append] at h1 h2
      refine ⟨?_, h2⟩
      intro hfit
      obtain ⟨st', lc, k1, k2, k3, k4, k5, k6⟩ := h1 hfit
      refine ⟨st', lc, k1, by simp [k2, hpos], k3, k4, k5, ?_⟩
      rw [← k6]
      simp
    · rw [split_on_cons_ne _ _ _ hc]
      simp only [multi_loop, ne_eq, hc, not_false_eq_true, if_true]
      obtain ⟨h1, h2⟩ := ih (pre ++ [c]) st (cur_pos + 1) (by simpa using huri) (by simp [hpos])
        hlc hpi hmp
      refine ⟨h1, ?_⟩
      intro g gs hg
      obtain ⟨k1, k2⟩ := h2 g gs hg
      refine ⟨?_, k2⟩
      intro hfit
      obtain ⟨st', lc, j1, j2, j3, j4, j5, j6⟩ := k1 hfit
      refine ⟨st', lc, j1, by simp [j2]; omega, j3, j4, j5, ?_⟩
      rw [← j6]
      simp

theorem split_on_length (sep : Nat) (l : Bytes) : (split_on sep l).2.length = l.count sep := by
  induction l with
  | nil => simp [split_on]
  | cons c cs ih =>
    by_cases h : c = sep
    · subst h
      rw [split_on_cons_eq]
      simp [ih]
    · rw [split_on_cons_ne _ _ _ h, List.count_cons_of_ne (fun e => h e.symm)]
      exact ih

theorem split_on_not_mem (sep : Nat) (l : Bytes) :
    sep ∉ (split_on sep l).1 ∧ ∀ f ∈ (split_on sep l).2, sep ∉ f := by
  induction l with
  | nil => simp [split_on]
  | cons c cs ih =>
    by_cases h : c = sep
    · subst h
      rw [split_on_cons_eq]
      refine ⟨by simp, ?_⟩
      intro f hf
      simp only [List.mem_cons] at hf
      rcases hf with hf | hf
      · rw [hf]; exact ih.1
      · exact ih.2 f hf
    · rw [split_on_cons_ne _ _ _ h]
      refine ⟨?_, ih.2⟩
      simp only [List.mem_cons, not_or]
      exact ⟨fun e => h e.symm, ih.1⟩

theorem suffix_test_iff (uri marker : Bytes) :
    (uri.length < marker.length ∨ uri.drop (uri.length - marker.length) ≠ marker) ↔
      ¬ marker <:+ uri := by
  rw [List.suffix_iff_eq_drop]
  constructor
  · rintro (h | h) e
    · have := congrArg List.length e
      simp at this
      omega
    · exact h e.symm
  · intro h
    right
    exact fun e => h e.symm

theorem parse_multi_uri_of_suffix (env : Env) (body marker : Bytes) :
    ngx_http_vod_parse_multi_uri env (body ++ marker) marker =
      match multi_loop env body 0
          { prefix_len := (body ++ marker).length, middle_parts := [], last_comma_pos := none,
            part_index := 0 } with
      | .error rc => .error rc
      | .ok st =>
        if st.part_index = 0 then
          .ok
            ({ prefix_ := { data := some 0, len := st.prefix_len }
               middle_parts := [{ data := none, len := 0 }]
               postfix_ :=
                match st.last_comma_pos with
                | none => { data := none, len := 0 }
                | some last_comma_pos =>
                  { data := some last_comma_pos, len := body.length - last_comma_pos }
               parts_count := 1 }, body.length)
        else
          .ok
            ({ prefix_ := { data := some 0, len := st.prefix_len }
               middle_parts := st.middle_parts
               postfix_ :=
                match st.last_comma_pos with
                | none => { data := none, len := 0 }
                | some last_comma_pos =>
                  { data := some last_comma_pos, len := body.length - last_comma_pos }
               parts_count := st.part_index }, body.length) := by
  unfold ngx_http_vod_parse_multi_uri
  have hs : ¬ ((body ++ marker).length < marker.length ∨
      (body ++ marker).drop ((body ++ marker).length - marker.length) ≠ marker) := by
    rw [suffix_test_iff]
    exact fun h => h (List.suffix_append body marker)
  rw [if_neg hs]
  have hl : (body ++ marker).length - marker.length = body.length := by simp
  simp only [hl, List.take_left']

theorem parse_multi_uri_commas (env : Env) (body marker : Bytes) (g : Bytes) (gs : List Bytes)
    (hg : (split_on COMMA body).2 = g :: gs) :
    (gs.length ≤ env.MAX_SUB_URIS →
      ∃ m, ngx_http_vod_parse_multi_uri env (body ++ marker) marker = .ok (m, body.length) ∧
        m.prefix_.bytes (body ++ marker) = (split_on COMMA body).1 ∧
        (gs ≠ [] → m.middle_parts.map (ngx_str_t.bytes (body ++ marker)) = init_fields g gs) ∧
        (gs = [] → m.middle_parts = [{ data := none, len := 0 }]) ∧
        m.postfix_.bytes (body ++ marker) = last_field g gs ∧
        m.parts_count = max 1 gs.length) ∧
    (env.MAX_SUB_URIS < gs.length →
      ngx_http_vod_parse_multi_uri env (body ++ marker) marker = .error NGX_HTTP_BAD_REQUEST) := by
  obtain ⟨_, h⟩ := multi_loop_start env (body ++ marker) marker body []
    { prefix_len := (body ++ marker).length, middle_parts := [], last_comma_pos := none,
      part_index := 0 } 0 (by simp) rfl rfl rfl rfl
  obtain ⟨h1, h2⟩ := h g gs hg
  rw [parse_multi_uri_of_suffix]
  refine ⟨?_, ?_⟩
  · intro hfit
    obtain ⟨st', lc, k1, k2, k3, k4, k5, k6⟩ := h1 hfit
    rw [k1]
    have hpre : ngx_str_t.bytes (body ++ marker) { data := some 0, len := st'.prefix_len } =
        (split_on COMMA body).1 := by
      simp only [ngx_str_t.bytes, List.drop_zero, k2, List.length_nil, Nat.zero_add]
      have hj : body ++ marker = (split_on COMMA body).1 ++
          (((split_on COMMA body).2.map (fun s => COMMA :: s)).flatten ++ marker) := by
        rw [← List.append_assoc, split_on_join]
      rw [hj]
      exact List.take_left' rfl
    have hpost : ngx_str_t.bytes (body ++ marker)
        { data := some lc, len := body.length - lc } = last_field g gs := by
      simp only [ngx_str_t.bytes]
      simpa using k6
    simp only [k5]
    by_cases hz : st'.part_index = 0
    · rw [if_pos hz]
      have hgs : gs = [] := by
        rw [k3] at hz
        exact List.length_eq_zero.mp hz
      refine ⟨_, rfl, hpre, fun hne => absurd hgs hne, fun _ => rfl, hpost, ?_⟩
      simp [hgs]
    · rw [if_neg hz]
      have hgs : gs ≠ [] := by
        intro e
        rw [k3, e] at hz
        exact hz rfl
      refine ⟨_, rfl, hpre, fun _ => k4, fun e => absurd e hgs, hpost, ?_⟩
      simp only [k3]
      have : 0 < gs.length := List.length_pos.mpr hgs
      omega
  · intro hover
    rw [h2 hover]

theorem parse_multi_uri_no_comma (env : Env) (body marker : Bytes)
    (hno : (split_on COMMA body).2 = []) :
    ngx_http_vod_parse_multi_uri env (body ++ marker) marker =
      .ok
        ({ prefix_ := { data := some 0, len := (body ++ marker).length }
           middle_parts := [{ data := none, len := 0 }]
           postfix_ := { data := none, len := 0 }
           parts_count := 1 }, body.length) := by
  obtain ⟨h, _⟩ := multi_loop_start env (body ++ marker) marker body []
    { prefix_len := (body ++ marker).length, middle_parts := [], last_comma_pos := none,
      part_index := 0 } 0 (by simp) rfl rfl rfl rfl
  rw [parse_multi_uri_of_suffix, h hno]
  rfl

theorem parse_multi_uri_not_suffix (env : Env) (uri marker : Bytes) (h : ¬ marker <:+ uri) :
    ngx_http_vod_parse_multi_uri env uri marker =
      .ok
        ({ prefix_ := { data := some 0, len := uri.length }
           middle_parts := [{ data := none, len := 0 }]
           postfix_ := { data := none, len := 0 }
           parts_count := 1 }, uri.length) := by
  unfold ngx_http_vod_parse_multi_uri
  rw [if_pos ((suffix_test_iff uri marker).2 h)]

/-- C5. For a URI `body ++ marker` whose `body` has `N >= 1` commas, that is
fields `f, g, gs...` with `N = 1 + length gs`, and `N - 1 <= MAX_SUB_URIS`,
`ngx_http_vod_parse_multi_uri` returns OK with `prefix = f`, the middle parts
the fields between consecutive commas in order, `postfix` the last field and
`parts_count = max(1, N - 1)`; with one comma the only entry of
`middle_parts` is the null string. The fields have no comma and their number
is the number of commas. `"pre,mid1,mid2,postMARKER"` gives `"pre"`,
`["mid1", "mid2"]`, `"post"` and 2. -/
theorem parse_multi_uri_fields :
    (∀ (env : Env) (body marker : Bytes) (g : Bytes) (gs : List Bytes),
      (split_on COMMA body).2 = g :: gs → gs.length ≤ env.MAX_SUB_URIS →
      ∃ m, ngx_http_vod_parse_multi_uri env (body ++ marker) marker = .ok (m, body.length) ∧
        m.prefix_.bytes (body ++ marker) = (split_on COMMA body).1 ∧
        (gs ≠ [] → m.middle_parts.map (ngx_str_t.bytes (body ++ marker)) = init_fields g gs) ∧
        (gs = [] → m.middle_parts = [{ data := none, len := 0 }]) ∧
        m.postfix_.bytes (body ++ marker) = last_field g gs ∧
        m.parts_count = max 1 gs.length) ∧
    (∀ body : Bytes,
      (split_on COMMA body).2.length = body.count COMMA ∧
      COMMA ∉ (split_on COMMA body).1 ∧ (∀ f ∈ (split_on COMMA body).2, COMMA ∉ f) ∧
      (split_on COMMA body).1 ++
        ((split_on COMMA body).2.map (fun s => COMMA :: s)).flatten = body) ∧
    (∃ m, ngx_http_vod_parse_multi_uri example_env (bytes "pre,mid1,mid2,postMARKER")
        (bytes "MARKER") = .ok (m, 18) ∧
      m.prefix_.bytes (bytes "pre,mid1,mid2,postMARKER") = bytes "pre" ∧
      m.middle_parts.map (ngx_str_t.bytes (bytes "pre,mid1,mid2,postMARKER")) =
        [bytes "mid1", bytes "mid2"] ∧
      m.postfix_.bytes (bytes "pre,mid1,mid2,postMARKER") = bytes "post" ∧
      m.parts_count = 2) ∧
    (∃ m, ngx_http_vod_parse_multi_uri example_env (bytes "a,bMARKER") (bytes "MARKER") =
        .ok (m, 3) ∧
      m.prefix_.bytes (bytes "a,bMARKER") = bytes "a" ∧
      m.middle_parts = [{ data := none, len := 0 }] ∧
      m.postfix_.bytes (bytes "a,bMARKER") = bytes "b" ∧
      m.parts_count = 1) := by
  refine ⟨?_, ?_, ?_, ?_⟩
  · intro env body marker g gs hg hfit
    exact (parse_multi_uri_commas env body marker g gs hg).1 hfit
  · intro body
    exact ⟨split_on_length COMMA body, (split_on_not_mem COMMA body).1,
      (split_on_not_mem COMMA body).2, split_on_join COMMA body⟩
  · exact ⟨_, (by decide : ngx_http_vod_parse_multi_uri example_env
        (bytes "pre,mid1,mid2,postMARKER") (bytes "MARKER") =
        .ok ({ prefix_ := { data := some 0, len := 3 },
               middle_parts := [{ data := some 4, len := 4 }, { data := some 9, len := 4 }],
               postfix_ := { data := some 14, len := 4 },
               parts_count := 2 }, 18)), by decide, by decide, by decide, rfl⟩
  · exact ⟨_, (by decide : ngx_http_vod_parse_multi_uri example_env
        (bytes "a,bMARKER") (bytes "MARKER") =
        .ok ({ prefix_ := { data := some 0, len := 1 },
               middle_parts := [{ data := none, len := 0 }],
               postfix_ := { data := some 2, len := 1 },
               parts_count := 1 }, 3)), by decide, rfl, by decide, rfl⟩

/-- A witness of C5: `"x,y,zM"` with the marker `"M"` has the fields
`"x"`, `"y"`, `"z"`. -/
theorem parse_multi_uri_fields_witness :
    ∃ m, ngx_http_vod_parse_multi_uri example_env (bytes "x,y,z" ++ bytes "M") (bytes "M") =
        .ok (m, (bytes "x,y,z").length) ∧
      m.prefix_.bytes (bytes "x,y,z" ++ bytes "M") = (split_on COMMA (bytes "x,y,z")).1 ∧
      (([bytes "z"] : List Bytes) ≠ [] →
        m.middle_parts.map (ngx_str_t.bytes (bytes "x,y,z" ++ bytes "M")) =
          init_fields (bytes "y") [bytes "z"]) ∧
      (([bytes "z"] : List Bytes) = [] → m.middle_parts = [{ data := none, len := 0 }]) ∧
      m.postfix_.bytes (bytes "x,y,z" ++ bytes "M") = last_field (bytes "y") [bytes "z"] ∧
      m.parts_count = max 1 ([bytes "z"] : List Bytes).length :=
  parse_multi_uri_fields.1 example_env (bytes "x,y,z") (bytes "M") (bytes "y") [bytes "z"]
    (by decide) (by decide)

/-- C6 on the code: on `"abMARKER"` with the marker `"MARKER"`, which has no
comma, `parts_count` is 1 and the postfix is empty, and the prefix keeps the
length of the whole URI, marker included: its bytes are `"abMARKER"`, not
`"ab"`, while `uri->len` is 2 on return. -/
theorem parse_multi_uri_no_comma_keeps_marker :
    ngx_http_vod_parse_multi_uri example_env (bytes "abMARKER") (bytes "MARKER") =
        .ok ({ prefix_ := { data := some 0, len := 8 },
               middle_parts := [{ data := none, len := 0 }],
               postfix_ := { data := none, len := 0 },
               parts_count := 1 }, 2) ∧
      ngx_str_t.bytes (bytes "abMARKER") { data := some 0, len := 8 } = bytes "abMARKER" ∧
      bytes "abMARKER" ≠ bytes "ab" := by
  decide

/-- C7. `ngx_http_vod_parse_multi_uri` returns `NGX_HTTP_BAD_REQUEST` exactly
when the URI ends with the marker and the URI without the marker has at least
`MAX_SUB_URIS + 2` commas; it returns no other error; a URI that does not end
with the marker succeeds; and a URI ending with the marker with
`MAX_SUB_URIS + 1` commas succeeds with `parts_count = MAX_SUB_URIS` (the
array `middle_parts[MAX_SUB_URIS]` has at least one entry). -/
theorem parse_multi_uri_bad_request :
    (∀ (env : Env) (uri marker : Bytes),
      ngx_http_vod_parse_multi_uri env uri marker = .error NGX_HTTP_BAD_REQUEST ↔
        marker <:+ uri ∧
          env.MAX_SUB_URIS + 2 ≤ (uri.take (uri.length - marker.length)).count COMMA) ∧
    (∀ (env : Env) (uri marker : Bytes) (rc : Int),
      ngx_http_vod_parse_multi_uri env uri marker = .error rc → rc = NGX_HTTP_BAD_REQUEST) ∧
    (∀ (env : Env) (uri marker : Bytes), ¬ marker <:+ uri →
      ∃ r, ngx_http_vod_parse_multi_uri env uri marker = .ok r) ∧
    (∀ (env : Env) (uri marker : Bytes), 0 < env.MAX_SUB_URIS → marker <:+ uri →
      (uri.take (uri.length - marker.length)).count COMMA = env.MAX_SUB_URIS + 1 →
      ∃ m n, ngx_http_vod_parse_multi_uri env uri marker = .ok (m, n) ∧
        m.parts_count = env.MAX_SUB_URIS) := by
  have key : ∀ (env : Env) (body marker : Bytes),
      (ngx_http_vod_parse_multi_uri env (body ++ marker) marker = .error NGX_HTTP_BAD_REQUEST ↔
        env.MAX_SUB_URIS + 2 ≤ body.count COMMA) ∧
      (∀ rc, ngx_http_vod_parse_multi_uri env (body ++ marker) marker = .error rc →
        rc = NGX_HTTP_BAD_REQUEST) ∧
      (0 < env.MAX_SUB_URIS → body.count COMMA = env.MAX_SUB_URIS + 1 →
        ∃ m n, ngx_http_vod_parse_multi_uri env (body ++ marker) marker = .ok (m, n) ∧
          m.parts_count = env.MAX_SUB_URIS) := by
    intro env body marker
    have hlen := split_on_length COMMA body
    cases hfs : (split_on COMMA body).2 with
    | nil =>
      rw [hfs] at hlen
      simp only [List.length_nil] at hlen
      rw [parse_multi_uri_no_comma env body marker hfs, ← hlen]
      refine ⟨⟨(fun h => by cases h), (fun h => by omega)⟩, (fun rc h => by cases h), (fun _ h => by omega)⟩
    | cons g gs =>
      rw [hfs] at hlen
      simp only [List.length_cons] at hlen
      obtain ⟨h1, h2⟩ := parse_multi_uri_commas env body marker g gs hfs
      rw [← hlen]
      by_cases hfit : gs.length ≤ env.MAX_SUB_URIS
      · obtain ⟨m, k1, _, _, _, _, k6⟩ := h1 hfit
        rw [k1]
        refine ⟨⟨(fun h => by cases h), (fun h => by omega)⟩, (fun rc h => by cases h), ?_⟩
        intro hpos hcount
        refine ⟨m, _, rfl, ?_⟩
        rw [k6]
        omega
      · rw [h2 (by omega)]
        refine ⟨⟨(fun _ => by omega), (fun _ => rfl)⟩, (fun rc h => by cases h; rfl), ?_⟩
        intro _ hcount
        omega
  have body_of : ∀ (uri marker : Bytes), marker <:+ uri →
      uri = uri.take (uri.length - marker.length) ++ marker := by
    intro uri marker h
    obtain ⟨t, ht⟩ := h
    subst ht
    simp
  refine ⟨?_, ?_, ?_, ?_⟩
  · intro env uri marker
    by_cases hs : marker <:+ uri
    · have hb := body_of uri marker hs
      have hk := (key env (uri.take (uri.length - marker.length)) marker).1
      rw [← hb] at hk
      rw [hk]
      exact ⟨fun h => ⟨hs, h⟩, fun h => h.2⟩
    · rw [parse_multi_uri_not_suffix env uri marker hs]
      exact ⟨(fun h => by cases h), (fun h => absurd h.1 hs)⟩
  · intro env uri marker rc h
    by_cases hs : marker <:+ uri
    · have hb := body_of uri marker hs
      have hk := (key env (uri.take (uri.length - marker.length)) marker).2.1
      rw [← hb] at hk
      exact hk rc h
    · rw [parse_multi_uri_not_suffix env uri marker hs] at h
      cases h
  · intro env uri marker hs
    exact ⟨_, parse_multi_uri_not_suffix env uri marker hs⟩
  · intro env uri marker hpos hs hcount
    have hb := body_of uri marker hs
    have hk := (key env (uri.take (uri.length - marker.length)) marker).2.2
    rw [← hb] at hk
    exact hk hpos hcount

/-- A witness of C7: with `MAX_SUB_URIS = 32`, a URI of 33 commas followed by
the marker `"M"` gives `parts_count = 32`. -/
theorem parse_multi_uri_bad_request_witness :
    ∃ m n, ngx_http_vod_parse_multi_uri example_env (List.replicate 33 COMMA ++ bytes "M")
        (bytes "M") = .ok (m, n) ∧ m.parts_count = example_env.MAX_SUB_URIS :=
  parse_multi_uri_bad_request.2.2.2 example_env (List.replicate 33 COMMA ++ bytes "M")
    (bytes "M") (by decide) (by decide) (by decide)

theorem split_uri_loop_spec (uri : Bytes) : ∀ (n : Nat) (components : Int),
    n ≤ uri.length → 1 ≤ components →
    ((split_uri_loop uri n components).isSome ↔ components ≤ ((uri.take n).count SLASH : Int)) ∧
    (∀ path file_name, split_uri_loop uri n components = some (path, file_name) →
      ∃ m, m < n ∧ uri[m]? = some SLASH ∧
        path = { data := some 0, len := m } ∧
        file_name = { data := some (m + 1), len := uri.length - (m + 1) } ∧
        ((((uri.take n).drop (m + 1)).count SLASH : Nat) : Int) = components - 1) := by
  intro n
  induction n with
  | zero =>
    intro components _ hc
    simp only [split_uri_loop, List.take_zero, List.count_nil]
    refine ⟨⟨(fun h => by cases h), (fun h => ?_)⟩, (fun _ _ h => by cases h)⟩
    simp at h
    omega
  | succ n ih =>
    intro components hn hc
    have hlt : n < uri.length := by omega
    have htake : uri.take (n + 1) = uri.take n ++ [uri[n]] := by
      rw [List.take_succ, List.getElem?_eq_getElem hlt]
      rfl
    have hget : uri[n]? = some uri[n] := List.getElem?_eq_getElem hlt
    simp only [split_uri_loop]
    by_cases hs : uri[n] = SLASH
    · have hs' : uri[n]? = some SLASH := by rw [hget, hs]
      rw [if_neg (by simp [hs'])]
      have hcount : (uri.take (n + 1)).count SLASH = (uri.take n).count SLASH + 1 := by
        rw [htake, hs]
        simp
      by_cases hcomp : components - 1 > 0
      · rw [if_pos hcomp]
        obtain ⟨ih1, ih2⟩ := ih (components - 1) (by omega) (by omega)
        refine ⟨?_, ?_⟩
        · rw [ih1, hcount]
          push_cast
          omega
        · intro path file_name h
          obtain ⟨m, hm1, hm2, hm3, hm4, hm5⟩ := ih2 path file_name h
          refine ⟨m, by omega, hm2, hm3, hm4, ?_⟩
          rw [htake, hs, List.drop_append_of_le_length (by simp; omega)]
          simp only [List.count_append, List.count_singleton_self]
          push_cast
          omega
      · rw [if_neg hcomp]
        refine ⟨?_, ?_⟩
        · simp only [Option.isSome_some, true_iff]
          rw [hcount]
          push_cast
          omega
        · intro path file_name h
          simp only [Option.some.injEq, Prod.mk.injEq] at h
          refine ⟨n, by omega, hs', h.1.symm, h.2.symm, ?_⟩
          rw [List.drop_of_length_le (by simp)]
          simp only [List.count_nil]
          push_cast
          omega
    · have hs' : uri[n]? ≠ some SLASH := by
        rw [hget]
        simpa using hs
      rw [if_pos hs']
      have hone : List.count SLASH [uri[n]] = 0 := by
        simp [List.count_cons, hs]
      have hcount : (uri.take (n + 1)).count SLASH = (uri.take n).count SLASH := by
        rw [htake, List.count_append, hone, Nat.add_zero]
      obtain ⟨ih1, ih2⟩ := ih components (by omega) hc
      refine ⟨by rw [ih1, hcount], ?_⟩
      intro path file_name h
      obtain ⟨m, hm1, hm2, hm3, hm4, hm5⟩ := ih2 path file_name h
      refine ⟨m, by omega, hm2, hm3, hm4, ?_⟩
      rw [htake, List.drop_append_of_le_length (by simp; omega), List.count_append, hone,
        Nat.add_zero]
      exact hm5

/-- C8. For a component count `k >= 1`, `ngx_http_vod_split_uri_file_name`
succeeds exactly when the URI has at least `k` bytes `'/'`; on success
`path ++ "/" ++ file_name` is the URI and `file_name` has `k - 1` bytes `'/'`,
so the cut is at the `k`-th `'/'` from the end; `"/a/b/c.mp4"` with `k = 1`
gives `"/a/b"` and `"c.mp4"`, and `k = 4` fails. -/
theorem split_uri_file_name_spec :
    (∀ (uri : Bytes) (k : Int), 1 ≤ k →
      ((ngx_http_vod_split_uri_file_name uri k).isSome ↔ k ≤ (uri.count SLASH : Int)) ∧
      (∀ path file_name, ngx_http_vod_split_uri_file_name uri k = some (path, file_name) →
        path.bytes uri ++ SLASH :: file_name.bytes uri = uri ∧
        (((file_name.bytes uri).count SLASH : Nat) : Int) = k - 1)) ∧
    (∃ path file_name,
      ngx_http_vod_split_uri_file_name (bytes "/a/b/c.mp4") 1 = some (path, file_name) ∧
      path.bytes (bytes "/a/b/c.mp4") = bytes "/a/b" ∧
      file_name.bytes (bytes "/a/b/c.mp4") = bytes "c.mp4") ∧
    ngx_http_vod_split_uri_file_name (bytes "/a/b/c.mp4") 4 = none := by
  refine ⟨?_, ?_, by decide⟩
  · intro uri k hk
    obtain ⟨h1, h2⟩ := split_uri_loop_spec uri uri.length k (Nat.le_refl _) hk
    rw [List.take_length] at h1 h2
    refine ⟨h1, ?_⟩
    intro path file_name h
    obtain ⟨m, hm1, hm2, hm3, hm4, hm5⟩ := h2 path file_name h
    subst hm3 hm4
    have hfile : ngx_str_t.bytes uri { data := some (m + 1), len := uri.length - (m + 1) } =
        uri.drop (m + 1) := by
      simp only [ngx_str_t.bytes]
      exact List.take_of_length_le (by simp)
    have hpath : ngx_str_t.bytes uri { data := some 0, len := m } = uri.take m := by
      simp [ngx_str_t.bytes]
    rw [hfile, hpath]
    refine ⟨?_, hm5⟩
    have hm : uri[m] = SLASH := by
      rw [List.getElem?_eq_getElem hm1] at hm2
      exact Option.some.inj hm2
    rw [← hm, ← List.drop_eq_getElem_cons hm1]
    exact List.take_append_drop m uri
  · exact ⟨{ data := some 0, len := 4 }, { data := some 5, len := 5 }, by decide, by decide,
      by decide⟩

/-- A witness of C8: `"/a/b/c.mp4"` has three bytes `'/'`, so two components
can be split off. -/
theorem split_uri_file_name_spec_witness :
    ((ngx_http_vod_split_uri_file_name (bytes "/a/b/c.mp4") 2).isSome ↔
        (2 : Int) ≤ ((bytes "/a/b/c.mp4").count SLASH : Int)) ∧
      (∀ path file_name,
        ngx_http_vod_split_uri_file_name (bytes "/a/b/c.mp4") 2 = some (path, file_name) →
        path.bytes (bytes "/a/b/c.mp4") ++ SLASH :: file_name.bytes (bytes "/a/b/c.mp4") =
          bytes "/a/b/c.mp4" ∧
        (((file_name.bytes (bytes "/a/b/c.mp4")).count SLASH : Nat) : Int) = 2 - 1) :=
  split_uri_file_name_spec.1 (bytes "/a/b/c.mp4") 2 (by decide)

theorem testBit_of_lt_word (m i : Nat) (hm : m < 2 ^ 32) (hi : 32 ≤ i) : m.testBit i = false := by
  apply Nat.testBit_lt_two_pow
  exact Nat.lt_of_lt_of_le hm (Nat.pow_le_pow_right (by decide) hi)

theorem selected_iff (m i : Nat) (hm : m < 2 ^ 32) :
    m &&& ((1 <<< i) % 2 ^ 32) = 0 ↔ m.testBit i = false := by
  by_cases hi : i < 32
  · have h : (1 <<< i) % 2 ^ 32 = 1 <<< i := by
      rw [Nat.one_shiftLeft]
      exact Nat.mod_eq_of_lt (Nat.pow_lt_pow_right (by decide) hi)
    rw [h]
    exact mask_bit_clear_iff m i
  · have h : (1 <<< i) % 2 ^ 32 = 0 := by
      rw [Nat.one_shiftLeft]
      have : i = 32 + (i - 32) := by omega
      rw [this, Nat.pow_add]
      exact Nat.mul_mod_right _ _
    rw [h]
    simp [testBit_of_lt_word m i hm (by omega)]

theorem parts_mask_eq (m parts_count : Nat) (hm : m < 2 ^ 32) :
    m &&& (((1 <<< parts_count) % 2 ^ 32 + 2 ^ 32 - 1) % 2 ^ 32) = m &&& (2 ^ parts_count - 1) := by
  by_cases hp : parts_count < 32
  · have h : (1 <<< parts_count) % 2 ^ 32 = 2 ^ parts_count := by
      rw [Nat.one_shiftLeft]
      exact Nat.mod_eq_of_lt (Nat.pow_lt_pow_right (by decide) hp)
    have hlt : 2 ^ parts_count < 2 ^ 32 := Nat.pow_lt_pow_right (by decide) hp
    have hpos : 0 < 2 ^ parts_count := Nat.two_pow_pos parts_count
    rw [h]
    have e : (2 ^ parts_count + 2 ^ 32 - 1) % 2 ^ 32 = 2 ^ parts_count - 1 := by
      have : 2 ^ parts_count + 2 ^ 32 - 1 = (2 ^ parts_count - 1) + 2 ^ 32 := by omega
      rw [this, Nat.add_mod_right]
      exact Nat.mod_eq_of_lt (by omega)
    rw [e]
  · have h : (1 <<< parts_count) % 2 ^ 32 = 0 := by
      rw [Nat.one_shiftLeft]
      have : parts_count = 32 + (parts_count - 32) := by omega
      rw [this, Nat.pow_add]
      exact Nat.mul_mod_right _ _
    rw [h]
    apply Nat.eq_of_testBit_eq
    intro j
    have e : (0 + 2 ^ 32 - 1) % 2 ^ 32 = 2 ^ 32 - 1 := by decide
    rw [e]
    simp only [Nat.testBit_and, Nat.testBit_two_pow_sub_one]
    by_cases hj : j < 32
    · have : j < parts_count := by omega
      simp [hj, this]
    · simp [testBit_of_lt_word m j hm (by omega)]

theorem filter_range_eq (a b : Nat) (p q : Nat → Bool)
    (h : ∀ i, (i < a ∧ q i = true) ↔ (i < b ∧ p i = true)) :
    (List.range a).filter q = (List.range b).filter p := by
  apply List.eq_of_perm_of_sorted (r := (· < ·))
  · rw [List.perm_ext_iff_of_nodup ((List.nodup_range a).filter _) ((List.nodup_range b).filter _)]
    intro i
    simp only [List.mem_filter, List.mem_range]
    exact h i
  · exact (List.sorted_lt_range a).filter _
  · exact (List.sorted_lt_range b).filter _

theorem popcount_mask (m parts_count : Nat) (hm : m < 2 ^ 32) :
    vod_get_number_of_set_bits (m &&& (2 ^ parts_count - 1)) =
      ((List.range parts_count).filter (fun i => m.testBit i)).length := by
  unfold vod_get_number_of_set_bits
  rw [filter_range_eq 32 parts_count (fun i => m.testBit i)
    (fun b => (m &&& (2 ^ parts_count - 1)).testBit b)]
  intro i
  simp only [Nat.testBit_and, Nat.testBit_two_pow_sub_one, Bool.and_eq_true, decide_eq_true_eq]
  constructor
  · rintro ⟨_, h1, h2⟩
    exact ⟨h2, h1⟩
  · rintro ⟨h1, h2⟩
    refine ⟨?_, h2, h1⟩
    by_contra hge
    rw [testBit_of_lt_word m i hm (by omega)] at h2
    cases h2

theorem store_param_same (env : Env) (d : ParamDef) (v : Bytes) (o o' : ParamState)
    (h : same_params o o') :
    (∀ rc, store_param env d v o = .error rc → store_param env d v o' = .error rc) ∧
    (∀ a, store_param env d v o = .ok a →
      ∃ b, store_param env d v o' = .ok b ∧ same_params a b) := by
  obtain ⟨h1, h2, h3, h4, h5⟩ := h
  unfold store_param
  by_cases hd : d = .speed
  · simp only [hd, if_true]
    cases env.rate_filter_create_from_string v with
    | error e => exact ⟨fun rc hrc => hrc, fun a ha => by cases ha⟩
    | ok f =>
      refine ⟨(fun rc hrc => by cases hrc), (fun a ha => ?_)⟩
      cases ha
      exact ⟨_, rfl, h1, h2, h3, h4, h5⟩
  · simp only [hd, if_false]
    cases d with
    | speed => exact absurd rfl hd
    | clip_to =>
      simp only [ParamDef.parser]
      cases ngx_http_vod_parse_uint32_param v with
      | error e => exact ⟨fun rc hrc => hrc, fun a ha => by cases ha⟩
      | ok x =>
        refine ⟨(fun rc hrc => by cases hrc), (fun a ha => ?_)⟩
        cases ha
        exact ⟨_, rfl, h1, h2, rfl, h4, h5⟩
    | clip_from =>
      simp only [ParamDef.parser]
      cases ngx_http_vod_parse_uint32_param v with
      | error e => exact ⟨fun rc hrc => hrc, fun a ha => by cases ha⟩
      | ok x =>
        refine ⟨(fun rc hrc => by cases hrc), (fun a ha => ?_)⟩
        cases ha
        exact ⟨_, rfl, h1, rfl, h3, h4, h5⟩
    | tracks =>
      simp only [ParamDef.parser, ngx_http_vod_parse_tracks_param]
      by_cases hl : (env.parse_utils_extract_track_tokens v (0, 0)).1 ≠ v.length
      · rw [if_pos hl, if_pos hl]
        exact ⟨fun rc hrc => hrc, fun a ha => by cases ha⟩
      · rw [if_neg hl, if_neg hl]
        refine ⟨(fun rc hrc => by cases hrc), (fun a ha => ?_)⟩
        cases ha
        exact ⟨_, rfl, h1, h2, h3, rfl, rfl⟩

theorem value_step_same (env : Env) (d : ParamDef) (v : Bytes) (o o' : ParamState)
    (h : same_params o o') :
    (∀ rc, value_step env d v o = .error rc → value_step env d v o' = .error rc) ∧
    (∀ a, value_step env d v o = .ok a →
      ∃ b, value_step env d v o' = .ok b ∧ same_params a b) := by
  unfold value_step
  rw [← h.1]
  by_cases hb : o.parsed_params_mask &&& (1 <<< d.index) = 0
  · simp only [hb, if_true]
    apply store_param_same
    obtain ⟨h1, h2, h3, h4, h5⟩ := h
    exact ⟨by simp only [h1], h2, h3, h4, h5⟩
  · simp only [hb, if_false]
    refine ⟨(fun rc hrc => by cases hrc), (fun a ha => ?_)⟩
    cases ha
    exact ⟨_, rfl, h⟩

theorem run_params_same (env : Env) (ps : List (ParamDef × Bytes)) :
    ∀ (o o' : ParamState), same_params o o' →
      (∀ rc, run_params env ps o = .error rc → run_params env ps o' = .error rc) ∧
      (∀ a, run_params env ps o = .ok a →
        ∃ b, run_params env ps o' = .ok b ∧ same_params a b) := by
  induction ps with
  | nil =>
    intro o o' h
    simp only [run_params]
    refine ⟨(fun rc hrc => by cases hrc), (fun a ha => ?_)⟩
    cases ha
    exact ⟨_, rfl, h⟩
  | cons q ps ih =>
    intro o o' h
    obtain ⟨d, v⟩ := q
    obtain ⟨s1, s2⟩ := value_step_same env d v o o' h
    simp only [run_params]
    cases hv : value_step env d v o with
    | error e =>
      rw [s1 e hv]
      exact ⟨fun rc hrc => hrc, fun a ha => by cases ha⟩
    | ok o1 =>
      obtain ⟨b, hb1, hb2⟩ := s2 o1 hv
      rw [hb1]
      exact ih o1 b hb2

theorem extract_uri_params_same (env : Env) (uri : Bytes) (sequence clip_id sequence' clip_id' : Nat) :
    (∀ rc, ngx_http_vod_extract_uri_params env uri sequence clip_id = .error rc →
      ngx_http_vod_extract_uri_params env uri sequence' clip_id' = .error rc) ∧
    (∀ r, ngx_http_vod_extract_uri_params env uri sequence clip_id = .ok r →
      ∃ r', ngx_http_vod_extract_uri_params env uri sequence' clip_id' = .ok r' ∧
        r'.source_clip.tracks_mask_audio = r.source_clip.tracks_mask_audio ∧
        r'.source_clip.tracks_mask_video = r.source_clip.tracks_mask_video ∧
        r'.source_clip.stripped_uri = r.source_clip.stripped_uri) := by
  rw [extract_uri_params_eq_spec, extract_uri_params_eq_spec]
  unfold spec_extract_uri_params
  by_cases hp : env.ngx_palloc (uri.length + 1) = false
  · simp only [hp, if_true]
    exact ⟨fun rc hrc => hrc, fun a ha => by cases ha⟩
  · simp only [hp, if_false]
    obtain ⟨s1, s2⟩ := run_params_same env (spec_params env (split_on SLASH uri).2)
      (param_init uri sequence clip_id) (param_init uri sequence' clip_id')
      ⟨rfl, rfl, rfl, rfl, rfl⟩
    cases hr : run_params env (spec_params env (split_on SLASH uri).2)
        (param_init uri sequence clip_id) with
    | error e =>
      rw [s1 e hr]
      exact ⟨fun rc hrc => hrc, fun a ha => by cases ha⟩
    | ok o =>
      obtain ⟨b, hb1, _, hb3, hb4, hb5, hb6⟩ := s2 o hr
      rw [hb1]
      simp only [extract_finish, hb3, hb4]
      by_cases hc : b.source_clip.clip_from ≥ b.source_clip.clip_to
      · simp only [hc, if_true]
        exact ⟨fun rc hrc => hrc, fun a ha => by cases ha⟩
      · simp only [hc, if_false]
        refine ⟨(fun rc hrc => by cases hrc), (fun a ha => ?_)⟩
        cases ha
        exact ⟨_, rfl, hb5.symm, hb6.symm, rfl⟩

theorem part_kept_of_ok (env : Env) (rp : request_params_t) (cur_uri : Bytes)
    (sequence clip_id : Nat) (r : ExtractResult)
    (h : ngx_http_vod_extract_uri_params env cur_uri sequence clip_id = .ok r) :
    part_kept env rp cur_uri =
        decide (¬ (r.source_clip.tracks_mask_audio &&& rp.tracks_mask_audio = 0 ∧
          r.source_clip.tracks_mask_video &&& rp.tracks_mask_video = 0)) ∧
      part_dropped env rp cur_uri =
        decide (r.source_clip.tracks_mask_audio &&& rp.tracks_mask_audio = 0 ∧
          r.source_clip.tracks_mask_video &&& rp.tracks_mask_video = 0) := by
  obtain ⟨r', h1, h2, h3, _⟩ :=
    (extract_uri_params_same env cur_uri sequence clip_id 0 0).2 r h
  simp [part_kept, part_dropped, h1, h2, h3]

theorem part_kept_of_error (env : Env) (rp : request_params_t) (cur_uri : Bytes)
    (sequence clip_id : Nat) (rc : Int)
    (h : ngx_http_vod_extract_uri_params env cur_uri sequence clip_id = .error rc) :
    part_kept env rp cur_uri = false ∧ part_dropped env rp cur_uri = false := by
  have h1 := (extract_uri_params_same env cur_uri sequence clip_id 0 0).1 rc h
  simp [part_kept, part_dropped, h1]

theorem part_kept_congr (env : Env) (rp rp' : request_params_t) (cur_uri : Bytes)
    (ha : rp'.tracks_mask_audio = rp.tracks_mask_audio)
    (hv : rp'.tracks_mask_video = rp.tracks_mask_video) :
    part_kept env rp' cur_uri = part_kept env rp cur_uri ∧
      part_dropped env rp' cur_uri = part_dropped env rp cur_uri := by
  simp [part_kept, part_dropped, ha, hv]

theorem path_loop_ok (env : Env) (uri : Bytes) (m : ngx_http_vod_multi_uri_t) (mask : Nat)
    (rp : request_params_t) : ∀ (n i : Nat) (st st' : PathState),
    path_loop env uri m mask rp n i st = .ok st' →
    st'.sequences.map (fun s => s.index) =
        st.sequences.map (fun s => s.index) ++
          (List.range' i n).filter
            (fun j => part_selected mask j && part_kept env rp (part_uri uri m j)) ∧
      (st.sources.length = st.sequences.length → st'.sources.length = st'.sequences.length) ∧
      (∀ j, i ≤ j → j < i + n → part_selected mask j = true →
        part_kept env rp (part_uri uri m j) = true ∨
          part_dropped env rp (part_uri uri m j) = true) := by
  intro n
  induction n with
  | zero =>
    intro i st st' h
    simp only [path_loop] at h
    cases h
    exact ⟨by simp, fun h => h, fun j h1 h2 => by omega⟩
  | succ n ih =>
    intro i st st' h
    simp only [path_loop] at h
    rw [List.range'_succ, List.filter_cons]
    by_cases hsel : mask &&& ((1 <<< i) % 2 ^ 32) = 0
    · rw [if_pos hsel] at h
      have hps : part_selected mask i = false := decide_eq_false (not_not.mpr hsel)
      obtain ⟨k1, k2, k3⟩ := ih (i + 1) st st' h
      refine ⟨by simpa [hps] using k1, k2, ?_⟩
      intro j hj1 hj2 hj3
      by_cases hji : j = i
      · subst hji
        rw [hps] at hj3
        cases hj3
      · exact k3 j (by omega) (by omega) hj3
    · rw [if_neg hsel] at h
      have hps : part_selected mask i = true := decide_eq_true hsel
      have hm : ngx_http_vod_merge_string_parts
          [m.prefix_.bytes uri, (m.middle_parts.getD i { data := none, len := 0 }).bytes uri,
            m.postfix_.bytes uri] = .ok (part_uri uri m i) := rfl
      rw [hm] at h
      simp only [] at h
      cases hx : ngx_http_vod_extract_uri_params env (part_uri uri m i) st.sequences.length
          st.clip_id with
      | error rc =>
        rw [hx] at h
        cases h
      | ok r =>
        rw [hx] at h
        simp only [] at h
        obtain ⟨pk, pd⟩ := part_kept_of_ok env rp (part_uri uri m i) _ _ r hx
        by_cases hz : r.source_clip.tracks_mask_audio &&& rp.tracks_mask_audio = 0 ∧
            r.source_clip.tracks_mask_video &&& rp.tracks_mask_video = 0
        · rw [if_pos hz] at h
          have pk' : part_kept env rp (part_uri uri m i) = false := by
            rw [pk]; simp only [hz, and_self, not_true_eq_false, decide_False]
          have pd' : part_dropped env rp (part_uri uri m i) = true := by
            rw [pd]; simp only [hz, and_self, decide_True]
          obtain ⟨k1, k2, k3⟩ := ih (i + 1) _ st' h
          refine ⟨by simpa [hps, pk'] using k1, k2, ?_⟩
          intro j hj1 hj2 hj3
          by_cases hji : j = i
          · subst hji
            exact Or.inr pd'
          · exact k3 j (by omega) (by omega) hj3
        · rw [if_neg hz] at h
          have pk' : part_kept env rp (part_uri uri m i) = true := by
            rw [pk]; simp only [hz, not_false_eq_true, decide_True]
          obtain ⟨k1, k2, k3⟩ := ih (i + 1) _ st' h
          refine ⟨by simpa [hps, pk'] using k1, ?_, ?_⟩
          · intro hlen
            apply k2
            simp [hlen]
          · intro j hj1 hj2 hj3
            by_cases hji : j = i
            · subst hji
              exact Or.inl pk'
            · exact k3 j (by omega) (by omega) hj3

theorem path_loop_total (env : Env) (uri : Bytes) (m : ngx_http_vod_multi_uri_t) (mask : Nat)
    (rp : request_params_t) : ∀ (n i : Nat) (st : PathState),
    (∀ j, i ≤ j → j < i + n → part_selected mask j = true →
      part_kept env rp (part_uri uri m j) = true ∨
        part_dropped env rp (part_uri uri m j) = true) →
    ∃ st', path_loop env uri m mask rp n i st = .ok st' := by
  intro n
  induction n with
  | zero =>
    intro i st _
    exact ⟨st, rfl⟩
  | succ n ih =>
    intro i st hall
    have hrest : ∀ j, i + 1 ≤ j → j < i + 1 + n → part_selected mask j = true →
        part_kept env rp (part_uri uri m j) = true ∨
          part_dropped env rp (part_uri uri m j) = true :=
      fun j h1 h2 h3 => hall j (by omega) (by omega) h3
    simp only [path_loop]
    by_cases hsel : mask &&& ((1 <<< i) % 2 ^ 32) = 0
    · rw [if_pos hsel]
      exact ih (i + 1) st hrest
    · rw [if_neg hsel]
      have hps : part_selected mask i = true := decide_eq_true hsel
      have hm : ngx_http_vod_merge_string_parts
          [m.prefix_.bytes uri, (m.middle_parts.getD i { data := none, len := 0 }).bytes uri,
            m.postfix_.bytes uri] = .ok (part_uri uri m i) := rfl
      rw [hm]
      simp only []
      cases hx : ngx_http_vod_extract_uri_params env (part_uri uri m i) st.sequences.length
          st.clip_id with
      | error rc =>
        obtain ⟨e1, e2⟩ := part_kept_of_error env rp (part_uri uri m i) _ _ rc hx
        rcases hall i (Nat.le_refl _) (by omega) hps with h | h
        · rw [e1] at h; cases h
        · rw [e2] at h; cases h
      | ok r =>
        simp only []
        split
        · exact ih (i + 1) _ hrest
        · exact ih (i + 1) _ hrest

theorem popcount_zero : vod_get_number_of_set_bits 0 = 0 := by
  simp [vod_get_number_of_set_bits]

theorem popcount_ne_zero (x : Nat) (hx : x < 2 ^ 32) (hne : x ≠ 0) :
    vod_get_number_of_set_bits x ≠ 0 := by
  obtain ⟨i, hi⟩ := Nat.ne_zero_implies_bit_true hne
  have hlt : i < 32 := by
    by_contra hge
    rw [testBit_of_lt_word x i hx (by omega)] at hi
    cases hi
  unfold vod_get_number_of_set_bits
  intro hz
  have hmem : i ∈ (List.range 32).filter (fun b => x.testBit b) := by
    simp only [List.mem_filter, List.mem_range]
    exact ⟨hlt, hi⟩
  rw [List.length_eq_zero.mp hz] at hmem
  cases hmem

theorem part_selected_eq (M i : Nat) (hM : M < 2 ^ 32) : part_selected M i = M.testBit i := by
  unfold part_selected
  have h := selected_iff M i hM
  cases hb : M.testBit i with
  | false => exact decide_eq_false (not_not.mpr (h.mpr hb))
  | true =>
    apply decide_eq_true
    intro hz
    rw [h.mp hz] at hb
    cases hb

theorem selected_count (M P : Nat) (hM : M < 2 ^ 32) :
    ((List.range P).filter (fun i => part_selected M i)).length =
      vod_get_number_of_set_bits (M &&& (((1 <<< P) % 2 ^ 32 + 2 ^ 32 - 1) % 2 ^ 32)) := by
  rw [parts_mask_eq M P hM, popcount_mask M P hM]
  congr 1
  apply List.filter_congr
  intro i _
  exact part_selected_eq M i hM

theorem filter_and_length_le (l : List Nat) (p q : Nat → Bool) :
    (l.filter (fun i => p i && q i)).length ≤ (l.filter p).length := by
  have h : l.filter (fun i => p i && q i) = (l.filter q).filter p := by
    rw [List.filter_filter]
  rw [h]
  exact ((List.filter_sublist l).filter p).length_le

theorem filter_range_length_mono (p : Nat → Bool) (n P : Nat) (h : n ≤ P) :
    ((List.range n).filter p).length ≤ ((List.range P).filter p).length := by
  apply List.Sublist.length_le
  apply List.Sublist.filter
  exact List.range_sublist.mpr h

theorem shift_mask_eq (parts_count : Nat) (h : parts_count < 32) :
    (1 <<< parts_count) - 1 = ((1 <<< parts_count) % 2 ^ 32 + 2 ^ 32 - 1) % 2 ^ 32 := by
  have hlt : 1 <<< parts_count < 2 ^ 32 := by
    rw [Nat.one_shiftLeft]
    exact Nat.pow_lt_pow_right (by decide) h
  have hpos : 0 < 1 <<< parts_count := by
    rw [Nat.one_shiftLeft]
    exact Nat.two_pow_pos parts_count
  omega

theorem parse_uri_path_of_multi (env : Env) (marker uri : Bytes) (rp rp1 : request_params_t)
    (m : ngx_http_vod_multi_uri_t) (n0 mask : Nat)
    (hm : ngx_http_vod_parse_multi_uri env uri marker = .ok (m, n0))
    (hmask : mask = if m.parts_count > 1 then rp.sequences_mask else 0xffffffff)
    (hrp : rp1 = if m.parts_count > 1 then { rp with sequences_mask := 0xffffffff } else rp)
    (hP : m.parts_count < 32) :
    ngx_http_vod_parse_uri_path env marker uri rp =
      some
        (if vod_get_number_of_set_bits
            (mask &&& (((1 <<< m.parts_count) % 2 ^ 32 + 2 ^ 32 - 1) % 2 ^ 32)) = 0 then
          .error NGX_HTTP_BAD_REQUEST
        else if env.ngx_palloc (env.SLOT_SIZE * vod_get_number_of_set_bits
            (mask &&& (((1 <<< m.parts_count) % 2 ^ 32 + 2 ^ 32 - 1) % 2 ^ 32))) = false then
          .error NGX_HTTP_INTERNAL_SERVER_ERROR
        else
          match path_loop env uri m mask rp1 m.parts_count 0
              { sequences := [], sources := [], clip_id := 1 } with
          | .error rc => .error rc
          | .ok st =>
            if st.sequences.length ≤ 0 then .error NGX_HTTP_BAD_REQUEST
            else
              .ok
                ({ sequences := st.sequences
                   sources := st.sources
                   sequence_count := st.sequences.length
                   has_multi_sequences := decide (m.parts_count > 1)
                   total_clip_count := 1
                   clip_count := 1 }, rp1, n0)) := by
  unfold ngx_http_vod_parse_uri_path
  rw [hm, hmask, hrp]
  simp only []
  rw [if_neg (by omega), shift_mask_eq _ hP]

theorem parse_uri_path_undefined (env : Env) (marker uri : Bytes) (rp : request_params_t)
    (m : ngx_http_vod_multi_uri_t) (n0 : Nat)
    (hm : ngx_http_vod_parse_multi_uri env uri marker = .ok (m, n0))
    (hP : 32 ≤ m.parts_count) :
    ngx_http_vod_parse_uri_path env marker uri rp = none := by
  unfold ngx_http_vod_parse_uri_path
  rw [hm]
  simp only []
  rw [if_pos hP]

theorem parse_uri_path_defined (env : Env) (marker uri : Bytes) (rp : request_params_t)
    (m : ngx_http_vod_multi_uri_t) (n0 : Nat)
    (hm : ngx_http_vod_parse_multi_uri env uri marker = .ok (m, n0))
    (x : Except Int (media_set_t × request_params_t × Nat))
    (h : ngx_http_vod_parse_uri_path env marker uri rp = some x) : m.parts_count < 32 := by
  by_contra hP
  rw [parse_uri_path_undefined env marker uri rp m n0 hm (by omega)] at h
  cases h

/-- C9. For a multi URI of `P` parts with `1 < P < 32` and a requested mask
`M` (a 32-bit word): when `M & (2^P - 1)` is 0 `ngx_http_vod_parse_uri_path`
returns `NGX_HTTP_BAD_REQUEST`; otherwise, when the slots are allocated and
the extraction of every part with bit `i` of `M` set succeeds and leaves a
requested track, the call emits one sequence per such `i < P` in increasing
order with `index = i`, `sequence_count` is the number of bits set in
`M & (2^P - 1)` and `has_multi_sequences` is true. A URI of 3 parts with
`M = 0b101` gives 2 sequences, of index 0 and 2. For `P ≥ 32` the property
fails on the code: `(1 << parts_count) - 1` is an undefined shift and the call
has no defined result, whatever the mask. A URI of 33 commas with the marker
has `P = 32`, which `MAX_SUB_URIS = 32` admits. -/
theorem parse_uri_path_sequence_mask :
    (∀ (env : Env) (marker uri : Bytes) (rp : request_params_t)
        (m : ngx_http_vod_multi_uri_t) (n0 : Nat),
      rp.sequences_mask < 2 ^ 32 →
      ngx_http_vod_parse_multi_uri env uri marker = .ok (m, n0) → 1 < m.parts_count →
      m.parts_count < 32 →
      (rp.sequences_mask &&& (2 ^ m.parts_count - 1) = 0 →
        ngx_http_vod_parse_uri_path env marker uri rp = some (.error NGX_HTTP_BAD_REQUEST)) ∧
      (rp.sequences_mask &&& (2 ^ m.parts_count - 1) ≠ 0 →
        env.ngx_palloc (env.SLOT_SIZE *
          vod_get_number_of_set_bits (rp.sequences_mask &&& (2 ^ m.parts_count - 1))) = true →
        (∀ i, i < m.parts_count → rp.sequences_mask.testBit i = true →
          part_kept env rp (part_uri uri m i) = true) →
        ∃ ms, ngx_http_vod_parse_uri_path env marker uri rp =
            some (.ok (ms, { rp with sequences_mask := 0xffffffff }, n0)) ∧
          ms.sequences.map (fun s => s.index) =
            (List.range m.parts_count).filter (fun i => rp.sequences_mask.testBit i) ∧
          ms.sequence_count =
            vod_get_number_of_set_bits (rp.sequences_mask &&& (2 ^ m.parts_count - 1)) ∧
          ms.has_multi_sequences = true)) ∧
    (∀ (env : Env) (marker uri : Bytes) (rp : request_params_t)
        (m : ngx_http_vod_multi_uri_t) (n0 : Nat),
      ngx_http_vod_parse_multi_uri env uri marker = .ok (m, n0) → 32 ≤ m.parts_count →
      ngx_http_vod_parse_uri_path env marker uri rp = none) ∧
    (∃ ms rp1 n1,
      ngx_http_vod_parse_uri_path example_env (bytes "M") (bytes "/pre,a,b,c,/postM")
          { segment_index := 0, clip_index := 0, sequences_mask := 5,
            tracks_mask_audio := 0xffffffff, tracks_mask_video := 0xffffffff } =
        some (.ok (ms, rp1, n1)) ∧
      ms.sequences.map (fun s => s.index) = [0, 2] ∧ ms.sequence_count = 2 ∧
      ms.sequences.map (fun s => s.stripped_uri) = [bytes "/prea/post", bytes "/prec/post"]) ∧
    (ngx_http_vod_parse_multi_uri example_env
        (bytes "p,a,a,a,a,a,a,a,a,a,a,a,a,a,a,a,a,a,a,a,a,a,a,a,a,a,a,a,a,a,a,a,a,aM") (bytes "M") =
      .ok
        ({ prefix_ := { data := some 0, len := 1 }
           middle_parts := (List.range 32).map (fun i => { data := some (2 * i + 2), len := 1 })
           postfix_ := { data := some 66, len := 1 }
           parts_count := 32 }, 67) ∧
      example_env.MAX_SUB_URIS = 32 ∧
      ngx_http_vod_parse_uri_path example_env (bytes "M")
          (bytes "p,a,a,a,a,a,a,a,a,a,a,a,a,a,a,a,a,a,a,a,a,a,a,a,a,a,a,a,a,a,a,a,a,aM")
          { segment_index := 0, clip_index := 0, sequences_mask := 1,
            tracks_mask_audio := 0xffffffff, tracks_mask_video := 0xffffffff } = none) := by
  refine ⟨?_, ?_, ?_, by decide, rfl, by decide⟩
  · intro env marker uri rp m n0 hM hm hP hP32
    have hunf := parse_uri_path_of_multi env marker uri rp
      { rp with sequences_mask := 0xffffffff } m n0 rp.sequences_mask hm
      (by rw [if_pos hP]) (by rw [if_pos hP]) hP32
    rw [parts_mask_eq _ _ hM] at hunf
    refine ⟨?_, ?_⟩
    · intro hz
      rw [hunf, hz, popcount_zero]
      rfl
    · intro hnz hpalloc hkept
      have hlt : rp.sequences_mask &&& (2 ^ m.parts_count - 1) < 2 ^ 32 :=
        Nat.lt_of_le_of_lt Nat.and_le_left hM
      have hcount := popcount_ne_zero _ hlt hnz
      rw [hunf, if_neg hcount, hpalloc]
      simp only [Bool.true_eq_false, if_false]
      have hsel : ∀ j, part_selected rp.sequences_mask j = rp.sequences_mask.testBit j := by
        intro j
        unfold part_selected
        cases hb : rp.sequences_mask.testBit j
        · exact decide_eq_false (not_not.mpr ((selected_iff _ j hM).2 hb))
        · exact decide_eq_true (fun h => by rw [(selected_iff _ j hM).1 h] at hb; cases hb)
      have hall : ∀ j, 0 ≤ j → j < 0 + m.parts_count →
          part_selected rp.sequences_mask j = true →
          part_kept env { rp with sequences_mask := 0xffffffff } (part_uri uri m j) = true ∨
            part_dropped env { rp with sequences_mask := 0xffffffff } (part_uri uri m j) = true := by
        intro j _ hj hs
        left
        rw [(part_kept_congr env rp { rp with sequences_mask := 0xffffffff } _ rfl rfl).1]
        exact hkept j (by omega) (by rw [← hsel]; exact hs)
      obtain ⟨st', hst⟩ := path_loop_total env uri m rp.sequences_mask
        { rp with sequences_mask := 0xffffffff } m.parts_count 0
        { sequences := [], sources := [], clip_id := 1 } hall
      obtain ⟨k1, _, _⟩ := path_loop_ok env uri m rp.sequences_mask
        { rp with sequences_mask := 0xffffffff } m.parts_count 0 _ st' hst
      have hidx : st'.sequences.map (fun s => s.index) =
          (List.range m.parts_count).filter (fun i => rp.sequences_mask.testBit i) := by
        rw [k1, List.range_eq_range']
        simp only [List.map_nil, List.nil_append]
        apply List.filter_congr
        intro j hj
        have hjlt : j < m.parts_count := by simpa using hj
        rw [hsel j]
        cases hb : rp.sequences_mask.testBit j
        · rfl
        · rw [(part_kept_congr env rp { rp with sequences_mask := 0xffffffff } _ rfl rfl).1,
            hkept j hjlt hb]
          rfl
      have hlen : st'.sequences.length =
          vod_get_number_of_set_bits (rp.sequences_mask &&& (2 ^ m.parts_count - 1)) := by
        rw [popcount_mask _ _ hM, ← hidx, List.length_map]
      rw [hst]
      simp only []
      rw [if_neg (by omega)]
      exact ⟨_, rfl, hidx, hlen, by simp only [decide_eq_true hP]⟩
  · intro env marker uri rp m n0 hm hP
    exact parse_uri_path_undefined env marker uri rp m n0 hm hP
  · exact ⟨_, _, _, (by decide : ngx_http_vod_parse_uri_path example_env (bytes "M")
        (bytes "/pre,a,b,c,/postM")
        { segment_index := 0, clip_index := 0, sequences_mask := 5,
          tracks_mask_audio := 0xffffffff, tracks_mask_video := 0xffffffff } =
        some (.ok
          ({ sequences :=
               [{ index := 0, clips := .source, stripped_uri := bytes "/prea/post",
                  mapped_uri := bytes "/prea/post" },
                { index := 2, clips := .source, stripped_uri := bytes "/prec/post",
                  mapped_uri := bytes "/prec/post" }],
             sources :=
               [{ id := 1, clip_from := 0, clip_to := 4294967295,
                  tracks_mask_audio := 4294967295, tracks_mask_video := 4294967295,
                  uri := bytes "/prea/post", stripped_uri := bytes "/prea/post",
                  mapped_uri := bytes "/prea/post", sequence := 0 },
                { id := 2, clip_from := 0, clip_to := 4294967295,
                  tracks_mask_audio := 4294967295, tracks_mask_video := 4294967295,
                  uri := bytes "/prec/post", stripped_uri := bytes "/prec/post",
                  mapped_uri := bytes "/prec/post", sequence := 1 }],
             sequence_count := 2, has_multi_sequences := true, total_clip_count := 1,
             clip_count := 1 },
           { segment_index := 0, clip_index := 0, sequences_mask := 4294967295,
             tracks_mask_audio := 4294967295, tracks_mask_video := 4294967295 }, 16))),
      by decide, rfl, by decide⟩

/-- A witness of C9: the three parts of `"/pre,a,b,c,/postM"` with the mask
`0b110`. -/
theorem parse_uri_path_sequence_mask_witness :
    ∃ ms, ngx_http_vod_parse_uri_path example_env (bytes "M") (bytes "/pre,a,b,c,/postM")
        { segment_index := 0, clip_index := 0, sequences_mask := 6,
          tracks_mask_audio := 0xffffffff, tracks_mask_video := 0xffffffff } =
        some (.ok (ms, { segment_index := 0, clip_index := 0, sequences_mask := 0xffffffff,
                         tracks_mask_audio := 0xffffffff, tracks_mask_video := 0xffffffff },
          16)) ∧
      ms.sequences.map (fun s => s.index) =
        (List.range 3).filter (fun i => (6 : Nat).testBit i) ∧
      ms.sequence_count = vod_get_number_of_set_bits (6 &&& (2 ^ 3 - 1)) ∧
      ms.has_multi_sequences = true :=
  (parse_uri_path_sequence_mask.1 example_env (bytes "M") (bytes "/pre,a,b,c,/postM")
    { segment_index := 0, clip_index := 0, sequences_mask := 6,
      tracks_mask_audio := 0xffffffff, tracks_mask_video := 0xffffffff }
    { prefix_ := { data := some 0, len := 4 },
      middle_parts := [{ data := some 5, len := 1 }, { data := some 7, len := 1 },
        { data := some 9, len := 1 }],
      postfix_ := { data := some 11, len := 5 },
      parts_count := 3 } 16 (by decide) (by decide) (by decide) (by decide)).2
    (by decide) (by decide) (by decide)

theorem parse_uri_path_ok_parts (env : Env) (marker uri : Bytes)
    (rp rp1 : request_params_t) (m : ngx_http_vod_multi_uri_t) (n0 mask : Nat)
    (hm : ngx_http_vod_parse_multi_uri env uri marker = .ok (m, n0))
    (hmask : mask = if m.parts_count > 1 then rp.sequences_mask else 0xffffffff)
    (hrp : rp1 = if m.parts_count > 1 then { rp with sequences_mask := 0xffffffff } else rp)
    (ms : media_set_t) (rp' : request_params_t) (n' : Nat)
    (h : ngx_http_vod_parse_uri_path env marker uri rp = some (.ok (ms, rp', n'))) :
    n' = n0 ∧
      ms.sequences.map (fun s => s.index) =
        (List.range m.parts_count).filter
          (fun i => part_selected mask i && part_kept env rp (part_uri uri m i)) ∧
      (∀ i, i < m.parts_count → part_selected mask i = true →
        part_kept env rp (part_uri uri m i) = true ∨
          part_dropped env rp (part_uri uri m i) = true) ∧
      ms.sources.length = ms.sequences.length ∧
      ms.sequence_count = ms.sequences.length ∧ 0 < ms.sequence_count := by
  have ht : rp1.tracks_mask_audio = rp.tracks_mask_audio ∧
      rp1.tracks_mask_video = rp.tracks_mask_video := by
    rw [hrp]
    split <;> exact ⟨rfl, rfl⟩
  have hk : ∀ j, part_kept env rp1 (part_uri uri m j) = part_kept env rp (part_uri uri m j) :=
    fun j => (part_kept_congr env rp rp1 _ ht.1 ht.2).1
  have hd : ∀ j, part_dropped env rp1 (part_uri uri m j) =
      part_dropped env rp (part_uri uri m j) :=
    fun j => (part_kept_congr env rp rp1 _ ht.1 ht.2).2
  have hP := parse_uri_path_defined env marker uri rp m n0 hm _ h
  rw [parse_uri_path_of_multi env marker uri rp rp1 m n0 mask hm hmask hrp hP] at h
  replace h := Option.some.inj h
  by_cases hc : vod_get_number_of_set_bits
      (mask &&& (((1 <<< m.parts_count) % 2 ^ 32 + 2 ^ 32 - 1) % 2 ^ 32)) = 0
  · rw [if_pos hc] at h
    cases h
  · rw [if_neg hc] at h
    by_cases hp : env.ngx_palloc (env.SLOT_SIZE * vod_get_number_of_set_bits
        (mask &&& (((1 <<< m.parts_count) % 2 ^ 32 + 2 ^ 32 - 1) % 2 ^ 32))) = false
    · rw [if_pos hp] at h
      cases h
    · rw [if_neg hp] at h
      cases hst : path_loop env uri m mask rp1 m.parts_count 0
          { sequences := [], sources := [], clip_id := 1 } with
      | error rc =>
        rw [hst] at h
        cases h
      | ok st =>
        rw [hst] at h
        simp only [] at h
        by_cases hlen : st.sequences.length ≤ 0
        · rw [if_pos hlen] at h
          cases h
        · rw [if_neg hlen] at h
          simp only [Except.ok.injEq, Prod.mk.injEq] at h
          obtain ⟨h1, _, h3⟩ := h
          subst h1 h3
          obtain ⟨k1, k2, k3⟩ := path_loop_ok env uri m mask rp1 m.parts_count 0 _ st hst
          refine ⟨rfl, ?_, ?_, k2 rfl, rfl, by simp only []; omega⟩
          · rw [k1, List.range_eq_range']
            simp only [List.map_nil, List.nil_append, hk]
          · intro i hi hs
            have := k3 i (Nat.zero_le _) (by omega) hs
            rw [hk, hd] at this
            exact this

theorem parse_uri_path_single (env : Env) (marker uri : Bytes) (rp : request_params_t)
    (h : ¬ marker <:+ uri) (ms : media_set_t) (rp' : request_params_t) (n' : Nat)
    (hok : ngx_http_vod_parse_uri_path env marker uri rp = some (.ok (ms, rp', n'))) :
    rp' = rp ∧ n' = uri.length := by
  have hm := parse_multi_uri_not_suffix env uri marker h
  rw [parse_uri_path_of_multi env marker uri rp rp _ uri.length 0xffffffff hm (by simp)
    (by simp) (by simp)] at hok
  replace hok := Option.some.inj hok
  split at hok
  · cases hok
  · split at hok
    · cases hok
    · split at hok
      · cases hok
      · split at hok
        · cases hok
        · simp only [Except.ok.injEq, Prod.mk.injEq] at hok
          exact ⟨hok.2.1.symm, hok.2.2.symm⟩

/-- C11, as stated, fails: the first call on `"pre,a,b,postMARKER"` gives the
two sequences `"preapost"` and `"prebpost"` and leaves `uri->len = 12`; the
second call, on the URI of 12 bytes that the first call left, no longer finds
the marker and gives the single sequence `"pre,a,b,post"`. -/
theorem parse_uri_path_second_call_differs :
    ∃ ms1 rp1 ms2 rp2 n2,
      ngx_http_vod_parse_uri_path example_env (bytes "MARKER") (bytes "pre,a,b,postMARKER")
          { segment_index := 0, clip_index := 0, sequences_mask := 0xffffffff,
            tracks_mask_audio := 0xffffffff, tracks_mask_video := 0xffffffff } =
        some (.ok (ms1, rp1, 12)) ∧
      ngx_http_vod_parse_uri_path example_env (bytes "MARKER")
          ((bytes "pre,a,b,postMARKER").take 12) rp1 = some (.ok (ms2, rp2, n2)) ∧
      ms1.sequences.map (fun s => s.stripped_uri) = [bytes "preapost", bytes "prebpost"] ∧
      ms2.sequences.map (fun s => s.stripped_uri) = [bytes "pre,a,b,post"] ∧
      ms1.sequence_count = 2 ∧ ms2.sequence_count = 1 := by
  refine ⟨_, _, _, _, _, (by decide : ngx_http_vod_parse_uri_path example_env (bytes "MARKER")
      (bytes "pre,a,b,postMARKER")
      { segment_index := 0, clip_index := 0, sequences_mask := 0xffffffff,
        tracks_mask_audio := 0xffffffff, tracks_mask_video := 0xffffffff } =
      some (.ok
        ({ sequences :=
             [{ index := 0, clips := .source, stripped_uri := bytes "preapost",
                mapped_uri := bytes "preapost" },
              { index := 1, clips := .source, stripped_uri := bytes "prebpost",
                mapped_uri := bytes "prebpost" }],
           sources :=
             [{ id := 1, clip_from := 0, clip_to := 4294967295,
                tracks_mask_audio := 4294967295, tracks_mask_video := 4294967295,
                uri := bytes "preapost", stripped_uri := bytes "preapost",
                mapped_uri := bytes "preapost", sequence := 0 },
              { id := 2, clip_from := 0, clip_to := 4294967295,
                tracks_mask_audio := 4294967295, tracks_mask_video := 4294967295,
                uri := bytes "prebpost", stripped_uri := bytes "prebpost",
                mapped_uri := bytes "prebpost", sequence := 1 }],
           sequence_count := 2, has_multi_sequences := true, total_clip_count := 1,
           clip_count := 1 },
         { segment_index := 0, clip_index := 0, sequences_mask := 4294967295,
           tracks_mask_audio := 4294967295, tracks_mask_video := 4294967295 }, 12))),
    (by decide : ngx_http_vod_parse_uri_path example_env (bytes "MARKER")
      ((bytes "pre,a,b,postMARKER").take 12)
      { segment_index := 0, clip_index := 0, sequences_mask := 4294967295,
        tracks_mask_audio := 4294967295, tracks_mask_video := 4294967295 } =
      some (.ok
        ({ sequences :=
             [{ index := 0, clips := .source, stripped_uri := bytes "pre,a,b,post",
                mapped_uri := bytes "pre,a,b,post" }],
           sources :=
             [{ id := 1, clip_from := 0, clip_to := 4294967295,
                tracks_mask_audio := 4294967295, tracks_mask_video := 4294967295,
                uri := bytes "pre,a,b,post", stripped_uri := bytes "pre,a,b,post",
                mapped_uri := bytes "pre,a,b,post", sequence := 0 }],
           sequence_count := 1, has_multi_sequences := false, total_clip_count := 1,
           clip_count := 1 },
         { segment_index := 0, clip_index := 0, sequences_mask := 4294967295,
           tracks_mask_audio := 4294967295, tracks_mask_video := 4294967295 }, 12))),
    by decide, by decide, rfl, rfl⟩

/-- C11, amended. For a URI that does not end with the marker, a successful
call of `ngx_http_vod_parse_uri_path` leaves `uri->len` and the request
parameters as they were, so a second call on the records as the first call
left them succeeds with the same media set (sequences, index values, stripped
URIs and source fields). -/
theorem parse_uri_path_idempotent_single :
    ∀ (env : Env) (marker uri : Bytes) (rp rp' : request_params_t) (ms : media_set_t)
      (n' : Nat),
      ¬ marker <:+ uri →
      ngx_http_vod_parse_uri_path env marker uri rp = some (.ok (ms, rp', n')) →
      rp' = rp ∧ n' = uri.length ∧
        ngx_http_vod_parse_uri_path env marker (uri.take n') rp' = some (.ok (ms, rp', n')) := by
  intro env marker uri rp rp' ms n' h hok
  obtain ⟨h1, h2⟩ := parse_uri_path_single env marker uri rp h ms rp' n' hok
  subst h1 h2
  refine ⟨rfl, rfl, ?_⟩
  rw [List.take_length]
  exact hok

/-- A witness of C11, amended: `"/a/b"` does not end with `"MARKER"` and is
parsed twice with the same result. -/
theorem parse_uri_path_idempotent_single_witness :
    ({ segment_index := 0, clip_index := 0, sequences_mask := 5,
       tracks_mask_audio := 1, tracks_mask_video := 1 } : request_params_t) =
        { segment_index := 0, clip_index := 0, sequences_mask := 5,
          tracks_mask_audio := 1, tracks_mask_video := 1 } ∧
      4 = (bytes "/a/b").length ∧
      ngx_http_vod_parse_uri_path example_env (bytes "MARKER") ((bytes "/a/b").take 4)
          { segment_index := 0, clip_index := 0, sequences_mask := 5,
            tracks_mask_audio := 1, tracks_mask_video := 1 } =
        some (.ok
          ({ sequences :=
               [{ index := 0, clips := .source, stripped_uri := bytes "/a/b",
                  mapped_uri := bytes "/a/b" }],
             sources :=
               [{ id := 1, clip_from := 0, clip_to := 4294967295,
                  tracks_mask_audio := 4294967295, tracks_mask_video := 4294967295,
                  uri := bytes "/a/b", stripped_uri := bytes "/a/b",
                  mapped_uri := bytes "/a/b", sequence := 0 }],
             sequence_count := 1, has_multi_sequences := false, total_clip_count := 1,
             clip_count := 1 },
           { segment_index := 0, clip_index := 0, sequences_mask := 5,
             tracks_mask_audio := 1, tracks_mask_video := 1 }, 4)) :=
  parse_uri_path_idempotent_single example_env (bytes "MARKER") (bytes "/a/b") _ _ _ _
    (by decide) (by decide)

theorem decimal_fold_mod (modulus : Nat) (digits : Bytes) :
    ∀ (v v' : Nat), (∀ c ∈ digits, is_digit c = true) → v = v' % modulus →
      digits.foldl (fun value c => (value * 10 + c - 48) % modulus) v =
        (digits.foldl (fun value c => value * 10 + (c - 48)) v') % modulus := by
  induction digits with
  | nil => intro v v' _ h; simpa using h
  | cons c cs ih =>
    intro v v' hd h
    simp only [List.foldl_cons]
    apply ih
    · intro x hx
      exact hd x (List.mem_cons_of_mem _ hx)
    · have hc : 48 ≤ c := by
        have := hd c (List.mem_cons_self _ _)
        simp only [is_digit, decide_eq_true_eq] at this
        exact this.1
      rw [h, Nat.add_sub_assoc hc, Nat.add_mod, Nat.mul_mod, Nat.mod_mod,
        ← Nat.mul_mod, ← Nat.add_mod]

theorem decimal_loop_spec (modulus : Nat) : ∀ (range : Bytes) (start_pos value : Nat),
    decimal_loop modulus range start_pos value =
      ((range.takeWhile is_digit).foldl (fun value c => (value * 10 + c - 48) % modulus) value,
        start_pos + (range.takeWhile is_digit).length, range.dropWhile is_digit) := by
  intro range
  induction range with
  | nil => intro start_pos value; simp [decimal_loop]
  | cons c cs ih =>
    intro start_pos value
    by_cases hc : 48 ≤ c ∧ c ≤ 57
    · have hd : is_digit c = true := by simp [is_digit, hc]
      simp only [decimal_loop, hc, and_self, if_true, ih, List.takeWhile_cons, hd,
        List.dropWhile_cons, List.foldl_cons, List.length_cons]
      simp only [Prod.mk.injEq, true_and, and_true]
      omega
    · have hd : is_digit c = false := by simp [is_digit, hc]
      simp [decimal_loop, hc, List.takeWhile_cons, hd, List.dropWhile_cons]

theorem decimal_loop_value (modulus : Nat) (range : Bytes) (start_pos : Nat) :
    decimal_loop modulus range start_pos 0 =
      (decimal_value (range.takeWhile is_digit) % modulus,
        start_pos + (range.takeWhile is_digit).length, range.dropWhile is_digit) := by
  rw [decimal_loop_spec]
  rw [decimal_fold_mod modulus _ 0 0 (fun c hc => (List.mem_takeWhile_imp hc))
    (Nat.zero_mod _).symm]
  rfl

theorem memchr_append (body rest : Bytes) (d : Nat) (h : d ∉ body) :
    memchr (body ++ d :: rest) d = some body.length := by
  induction body with
  | nil => simp [memchr]
  | cons b bs ih =>
    have hb : b ≠ d := fun e => h (by simp [e])
    have hbs : d ∉ bs := fun e => h (List.mem_cons_of_mem _ e)
    simp [memchr, hb, ih hbs]

theorem memchr_none (range : Bytes) (d : Nat) (h : d ∉ range) : memchr range d = none := by
  induction range with
  | nil => rfl
  | cons b bs ih =>
    have hb : b ≠ d := fun e => h (by simp [e])
    have hbs : d ∉ bs := fun e => h (List.mem_cons_of_mem _ e)
    simp [memchr, hb, ih hbs]

theorem mem_split_first (range : Bytes) (d : Nat) (h : d ∈ range) :
    ∃ body rest, range = body ++ d :: rest ∧ d ∉ body := by
  induction range with
  | nil => cases h
  | cons b bs ih =>
    by_cases hb : b = d
    · exact ⟨[], bs, by simp [hb], by simp⟩
    · have hbs : d ∈ bs := by
        rcases List.mem_cons.mp h with e | e
        · exact absurd e.symm hb
        · exact e
      obtain ⟨body, rest, h1, h2⟩ := ih hbs
      refine ⟨b :: body, rest, by simp [h1], ?_⟩
      simp only [List.mem_cons, not_or]
      exact ⟨fun e => hb e.symm, h2⟩

theorem fixed_string_test (range string : Bytes) :
    ¬ (range.length < string.length ∨ range.take string.length ≠ string) ↔
      ∃ rest, range = string ++ rest := by
  constructor
  · intro h
    simp only [not_or, not_lt, ne_eq, not_not] at h
    refine ⟨range.drop string.length, ?_⟩
    conv_lhs => rw [← List.take_append_drop string.length range]
    rw [h.2]
  · rintro ⟨rest, rfl⟩
    simp

theorem parse_string_number_step (target_offset : Nat)
    (match_def : List ngx_http_vod_match_definition_t) (range : Bytes) (start_pos : Nat)
    (output : match_output) :
    ngx_http_vod_parse_string (.MATCH_NUMBER target_offset :: match_def) range start_pos output =
      ngx_http_vod_parse_string match_def (range.dropWhile is_digit)
        (start_pos + (range.takeWhile is_digit).length)
        ((target_offset, .number (decimal_value (range.takeWhile is_digit) % 2 ^ 64)) :: output) := by
  simp only [ngx_http_vod_parse_string, decimal_loop_value]

theorem dropWhile_head_not_digit (range : Bytes) :
    ∀ c ∈ (range.dropWhile is_digit).head?, is_digit c = false := by
  induction range with
  | nil => simp
  | cons b bs ih =>
    by_cases hb : is_digit b = true
    · simpa [List.dropWhile_cons, hb] using ih
    · simp [List.dropWhile_cons, hb]

/-- C15. In `ngx_http_vod_parse_string` a rule `MATCH_NUMBER` hands over to
the rules after it, whatever the input: the cursor moves over the maximal run
of ASCII decimal digits (the bytes consumed are digits, the byte left under
the cursor, if any, is not), and the destination field receives the decimal
value of the run modulo `2 ^ 64`; on a run of no digit the field receives 0
and the cursor does not move. -/
theorem parse_string_number :
    (∀ (target_offset : Nat) (match_def : List ngx_http_vod_match_definition_t)
        (range : Bytes) (start_pos : Nat) (output : match_output),
      ngx_http_vod_parse_string (.MATCH_NUMBER target_offset :: match_def) range start_pos
          output =
        ngx_http_vod_parse_string match_def (range.dropWhile is_digit)
          (start_pos + (range.takeWhile is_digit).length)
          ((target_offset, .number (decimal_value (range.takeWhile is_digit) % 2 ^ 64)) ::
            output)) ∧
    (∀ range : Bytes,
      range.takeWhile is_digit ++ range.dropWhile is_digit = range ∧
      (∀ c ∈ range.takeWhile is_digit, is_digit c = true) ∧
      (∀ c ∈ (range.dropWhile is_digit).head?, is_digit c = false)) ∧
    (∀ (target_offset : Nat) (match_def : List ngx_http_vod_match_definition_t)
        (range : Bytes) (start_pos : Nat) (output : match_output),
      (∀ c ∈ range.head?, is_digit c = false) →
      ngx_http_vod_parse_string (.MATCH_NUMBER target_offset :: match_def) range start_pos
          output =
        ngx_http_vod_parse_string match_def range start_pos
          ((target_offset, .number 0) :: output)) ∧
    ngx_http_vod_parse_string [.MATCH_NUMBER 0, .MATCH_END] (bytes "18446744073709551617") 0 [] =
      some (true, [(0, .number 1)]) ∧
    ngx_http_vod_parse_string [.MATCH_NUMBER 0, .MATCH_FIXED_STRING (bytes "ab"), .MATCH_END]
        (bytes "042ab") 0 [] =
      some (true, [(0, .number 42)]) := by
  refine ⟨parse_string_number_step, ?_, ?_, by decide, by decide⟩
  · intro range
    exact ⟨List.takeWhile_append_dropWhile _ _, fun c hc => List.mem_takeWhile_imp hc,
      dropWhile_head_not_digit range⟩
  · intro target_offset match_def range start_pos output h
    rw [parse_string_number_step]
    cases range with
    | nil => rfl
    | cons b bs =>
      have hb : is_digit b = false := h b (by simp)
      simp [List.takeWhile_cons, List.dropWhile_cons, hb, decimal_value]

/-- A witness of C15: on `"x1"` the number rule stores 0 and the cursor
stays on `'x'`. -/
theorem parse_string_number_witness :
    ngx_http_vod_parse_string [.MATCH_NUMBER 0, .MATCH_END] (bytes "x1") 0 [] =
      ngx_http_vod_parse_string [.MATCH_END] (bytes "x1") 0 [(0, .number 0)] :=
  parse_string_number.2.2.1 0 [.MATCH_END] (bytes "x1") 0 [] (by decide)

theorem parse_string_grammar (p : Bytes) (d s_offset n_offset : Nat) (input : Bytes)
    (start_pos : Nat) (output : match_output) :
    (∀ body rest, input = p ++ body ++ d :: rest → d ∉ body →
      ngx_http_vod_parse_string
          [.MATCH_FIXED_STRING p, .MATCH_DELIM_STRING s_offset d, .MATCH_NUMBER n_offset,
            .MATCH_END] input start_pos output =
        some (decide (rest.dropWhile is_digit = []),
          (n_offset, .number (decimal_value (rest.takeWhile is_digit) % 2 ^ 64)) ::
            (s_offset, .string { data := some (start_pos + p.length), len := body.length }) ::
            output)) ∧
    ((¬ ∃ body rest, input = p ++ body ++ d :: rest ∧ d ∉ body) →
      ∃ output', ngx_http_vod_parse_string
          [.MATCH_FIXED_STRING p, .MATCH_DELIM_STRING s_offset d, .MATCH_NUMBER n_offset,
            .MATCH_END] input start_pos output = some (false, output')) := by
  refine ⟨?_, ?_⟩
  · intro body rest hin hd
    have hfix : ¬ (input.length < p.length ∨ input.take p.length ≠ p) :=
      (fixed_string_test input p).2 ⟨body ++ d :: rest, by simp [hin]⟩
    have hdrop : input.drop p.length = body ++ d :: rest := by
      rw [hin, List.append_assoc]
      exact List.drop_left' rfl
    simp only [ngx_http_vod_parse_string]
    rw [if_neg hfix, hdrop, memchr_append body rest d hd]
    simp only [decimal_loop_value]
    have hrest : (body ++ d :: rest).drop (body.length + 1) = rest := by
      have : body ++ d :: rest = (body ++ [d]) ++ rest := by simp
      rw [this]
      exact List.drop_left' (by simp)
    rw [hrest]
  · intro hno
    simp only [ngx_http_vod_parse_string]
    by_cases hfix : input.length < p.length ∨ input.take p.length ≠ p
    · rw [if_pos hfix]
      exact ⟨_, rfl⟩
    · rw [if_neg hfix]
      obtain ⟨r, hr⟩ := (fixed_string_test input p).1 hfix
      have hdrop : input.drop p.length = r := by
        rw [hr]
        exact List.drop_left' rfl
      rw [hdrop]
      have hnd : d ∉ r := by
        intro hmem
        obtain ⟨body, rest, h1, h2⟩ := mem_split_first r d hmem
        exact hno ⟨body, rest, by rw [hr, h1, List.append_assoc], h2⟩
      rw [memchr_none r d hnd]
      exact ⟨_, rfl⟩

/-- C16, as stated, fails: with the grammar `FixedString "p"`,
`DelimitedString '/'`, `Number`, `End`, the input `"pab/18446744073709551616"`
matches and the number stored is 0, while the value of the digits is
`2 ^ 64`. -/
theorem parse_string_number_wraps :
    ngx_http_vod_parse_string
        [.MATCH_FIXED_STRING (bytes "p"), .MATCH_DELIM_STRING 8 47, .MATCH_NUMBER 0, .MATCH_END]
        (bytes "pab/18446744073709551616") 0 [] =
      some (true, [(0, .number 0), (8, .string { data := some 1, len := 2 })]) ∧
      decimal_value (bytes "18446744073709551616") = 18446744073709551616 := by
  decide

/-- C16, amended. `ngx_http_vod_parse_string` runs a grammar as a strict
sequence over one cursor and accepts only when the whole range is consumed:
for the grammar `FixedString p`, `DelimitedString d -> s`, `Number -> n`,
`End` the match returns a value on every input, and it returns true exactly
when the input is `p ++ body ++ [d] ++ digits` with no byte `d` in `body` and
only ASCII decimal digits in `digits`; then `s` is `body` (the offset after
`p` and the length of `body`) and `n` is the value of `digits` modulo
`2 ^ 64`. For the grammar `FixedString p`, `End` the match is true exactly
when the input is `p`. -/
theorem parse_string_sequence :
    (∀ (p : Bytes) (d s_offset n_offset : Nat) (input : Bytes) (start_pos : Nat)
        (output output' : match_output),
      ngx_http_vod_parse_string
          [.MATCH_FIXED_STRING p, .MATCH_DELIM_STRING s_offset d, .MATCH_NUMBER n_offset,
            .MATCH_END] input start_pos output = some (true, output') ↔
        ∃ body digits, input = p ++ body ++ [d] ++ digits ∧ d ∉ body ∧
          (∀ c ∈ digits, is_digit c = true) ∧
          output' =
            (n_offset, .number (decimal_value digits % 2 ^ 64)) ::
              (s_offset, .string { data := some (start_pos + p.length), len := body.length }) ::
              output) ∧
    (∀ (p : Bytes) (d s_offset n_offset : Nat) (input : Bytes) (start_pos : Nat)
        (output : match_output),
      ∃ b output', ngx_http_vod_parse_string
          [.MATCH_FIXED_STRING p, .MATCH_DELIM_STRING s_offset d, .MATCH_NUMBER n_offset,
            .MATCH_END] input start_pos output = some (b, output')) ∧
    (∀ (p input : Bytes) (start_pos : Nat) (output : match_output),
      ngx_http_vod_parse_string [.MATCH_FIXED_STRING p, .MATCH_END] input start_pos output =
        some (decide (input = p), output)) := by
  refine ⟨?_, ?_, ?_⟩
  · intro p d s_offset n_offset input start_pos output output'
    obtain ⟨h1, h2⟩ := parse_string_grammar p d s_offset n_offset input start_pos output
    constructor
    · intro h
      by_cases hex : ∃ body rest, input = p ++ body ++ d :: rest ∧ d ∉ body
      · obtain ⟨body, rest, hin, hd⟩ := hex
        rw [h1 body rest hin hd] at h
        simp only [Option.some.injEq, Prod.mk.injEq, decide_eq_true_eq] at h
        obtain ⟨hall, hout⟩ := h
        have htake : rest.takeWhile is_digit = rest := by
          have := List.takeWhile_append_dropWhile is_digit rest
          rw [hall, List.append_nil] at this
          exact this
        rw [htake] at hout
        refine ⟨body, rest, by simp [hin], hd, ?_, hout.symm⟩
        intro c hc
        rw [← htake] at hc
        exact List.mem_takeWhile_imp hc
      · obtain ⟨o, ho⟩ := h2 hex
        rw [ho] at h
        cases h
    · rintro ⟨body, digits, hin, hd, hall, hout⟩
      have hin' : input = p ++ body ++ d :: digits := by simp [hin]
      rw [h1 body digits hin' hd, hout]
      have hdrop : digits.dropWhile is_digit = [] := by
        rw [List.dropWhile_eq_nil_iff]
        exact hall
      have htake : digits.takeWhile is_digit = digits := by
        have := List.takeWhile_append_dropWhile is_digit digits
        rw [hdrop, List.append_nil] at this
        exact this
      rw [hdrop, htake]
      rfl
  · intro p d s_offset n_offset input start_pos output
    obtain ⟨h1, h2⟩ := parse_string_grammar p d s_offset n_offset input start_pos output
    by_cases hex : ∃ body rest, input = p ++ body ++ d :: rest ∧ d ∉ body
    · obtain ⟨body, rest, hin, hd⟩ := hex
      exact ⟨_, _, h1 body rest hin hd⟩
    · obtain ⟨o, ho⟩ := h2 hex
      exact ⟨_, _, ho⟩
  · intro p input start_pos output
    simp only [ngx_http_vod_parse_string]
    by_cases hfix : input.length < p.length ∨ input.take p.length ≠ p
    · rw [if_pos hfix]
      have hne : input ≠ p := by
        intro e
        subst e
        simp at hfix
      simp [hne]
    · rw [if_neg hfix]
      obtain ⟨r, hr⟩ := (fixed_string_test input p).1 hfix
      have hdrop : input.drop p.length = r := by
        rw [hr]
        exact List.drop_left' rfl
      rw [hdrop, hr]
      cases r with
      | nil => simp
      | cons b bs => simp

/-- A witness of C16, amended: `"pab/42"` matches with `s = "ab"` and
`n = 42`. -/
theorem parse_string_sequence_witness :
    ngx_http_vod_parse_string
        [.MATCH_FIXED_STRING (bytes "p"), .MATCH_DELIM_STRING 8 47, .MATCH_NUMBER 0, .MATCH_END]
        (bytes "pab/42") 0 [] =
      some (true, [(0, .number (decimal_value (bytes "42") % 2 ^ 64)),
        (8, .string { data := some (0 + (bytes "p").length), len := (bytes "ab").length })]) :=
  (parse_string_sequence.1 (bytes "p") 47 8 0 (bytes "pab/42") 0 [] _).2
    ⟨bytes "ab", bytes "42", by decide, by decide, by decide, rfl⟩

theorem extract_uint32_token_spec (range : Bytes) :
    parse_utils_extract_uint32_token range =
      (decimal_value (range.takeWhile is_digit) % 2 ^ 32, range.dropWhile is_digit) := by
  simp only [parse_utils_extract_uint32_token, decimal_loop_value]

theorem takeWhile_digits_append (digits rest : Bytes) (hd : ∀ c ∈ digits, is_digit c = true)
    (hr : ∀ c ∈ rest.head?, is_digit c = false) :
    (digits ++ rest).takeWhile is_digit = digits ∧ (digits ++ rest).dropWhile is_digit = rest := by
  induction digits with
  | nil =>
    cases rest with
    | nil => simp
    | cons b bs =>
      have hb : is_digit b = false := hr b (by simp)
      simp [List.takeWhile_cons, List.dropWhile_cons, hb]
  | cons c cs ih =>
    have hc : is_digit c = true := hd c (List.mem_cons_self _ _)
    have ih' := ih (fun x hx => hd x (List.mem_cons_of_mem _ hx))
    simp [List.takeWhile_cons, List.dropWhile_cons, hc, ih'.1, ih'.2]

theorem extract_uint32_token_append (digits rest : Bytes)
    (hd : ∀ c ∈ digits, is_digit c = true) (hr : ∀ c ∈ rest.head?, is_digit c = false) :
    parse_utils_extract_uint32_token (digits ++ rest) = (decimal_value digits % 2 ^ 32, rest) := by
  obtain ⟨h1, h2⟩ := takeWhile_digits_append digits rest hd hr
  rw [extract_uint32_token_spec, h1, h2]

/-- C12. With `expect_segment_index` set, `ngx_http_vod_parse_uri_file_name`
reads, after one optional leading `'-'`, the run of decimal digits as a
32-bit number: when that number is 0 (in particular when the run is empty)
the call returns `NGX_HTTP_BAD_REQUEST`; otherwise the call goes on after the
run as a call with `expect_segment_index` clear does, with `segment_index`
set to the number minus 1, which a successful call returns. With
`expect_segment_index` clear no segment index is parsed: the clip token is
read right after the optional `'-'`, `segment_index` is never written, and a
name that starts with a digit has no clip and no sequence token, its digits
being left to the track token reader; so `"12-f1"` is refused when no segment
index is expected and accepted, with segment 11, when one is. -/
theorem parse_uri_file_name_segment_index :
    (∀ (env : Env) (range : Bytes) (rp : request_params_t),
      decimal_value ((skip_dash range).takeWhile is_digit) % 2 ^ 32 = 0 →
      ngx_http_vod_parse_uri_file_name env range true rp = some (.error NGX_HTTP_BAD_REQUEST)) ∧
    (∀ (env : Env) (range : Bytes) (rp r : request_params_t),
      ngx_http_vod_parse_uri_file_name env range true rp = some (.ok r) →
      decimal_value ((skip_dash range).takeWhile is_digit) % 2 ^ 32 ≠ 0 ∧
      r.segment_index = decimal_value ((skip_dash range).takeWhile is_digit) % 2 ^ 32 - 1) ∧
    (∀ (env : Env) (range : Bytes) (rp : request_params_t),
      decimal_value ((skip_dash range).takeWhile is_digit) % 2 ^ 32 ≠ 0 →
      ngx_http_vod_parse_uri_file_name env range true rp =
        ngx_http_vod_parse_uri_file_name env ((skip_dash range).dropWhile is_digit) false
          { rp with
            segment_index :=
              decimal_value ((skip_dash range).takeWhile is_digit) % 2 ^ 32 - 1 }) ∧
    (∀ (env : Env) (range : Bytes) (rp r : request_params_t),
      ngx_http_vod_parse_uri_file_name env range false rp = some (.ok r) →
      r.segment_index = rp.segment_index) ∧
    (∀ (env : Env) (range : Bytes) (rp : request_params_t),
      ngx_http_vod_parse_uri_file_name env range false rp =
        match ngx_http_vod_extract_sequence_tokens
            (ngx_http_vod_extract_clip_token env (skip_dash range)).2 rp.sequences_mask with
        | none => none
        | some (sequences_mask, rest) =>
          if (env.parse_utils_extract_track_tokens rest
              (rp.tracks_mask_audio, rp.tracks_mask_video)).1 ≠ rest.length then
            some (.error NGX_HTTP_BAD_REQUEST)
          else
            some (.ok
              { rp with
                clip_index := (ngx_http_vod_extract_clip_token env (skip_dash range)).1
                sequences_mask := sequences_mask
                tracks_mask_audio :=
                  (env.parse_utils_extract_track_tokens rest
                    (rp.tracks_mask_audio, rp.tracks_mask_video)).2.1
                tracks_mask_video :=
                  (env.parse_utils_extract_track_tokens rest
                    (rp.tracks_mask_audio, rp.tracks_mask_video)).2.2 })) ∧
    (∀ (env : Env) (c : Nat) (cs : Bytes) (rp : request_params_t), is_digit c = true →
      ngx_http_vod_parse_uri_file_name env (c :: cs) false rp =
        if (env.parse_utils_extract_track_tokens (c :: cs)
            (rp.tracks_mask_audio, rp.tracks_mask_video)).1 ≠ (c :: cs).length then
          some (.error NGX_HTTP_BAD_REQUEST)
        else
          some (.ok
            { rp with
              clip_index := env.INVALID_CLIP_INDEX
              sequences_mask := 0xffffffff
              tracks_mask_audio :=
                (env.parse_utils_extract_track_tokens (c :: cs)
                  (rp.tracks_mask_audio, rp.tracks_mask_video)).2.1
              tracks_mask_video :=
                (env.parse_utils_extract_track_tokens (c :: cs)
                  (rp.tracks_mask_audio, rp.tracks_mask_video)).2.2 })) ∧
    decimal_value [] = 0 ∧
    ngx_http_vod_parse_uri_file_name example_env (bytes "-12-c3-f1-f3") true
        { segment_index := 0, clip_index := 0, sequences_mask := 0, tracks_mask_audio := 0,
          tracks_mask_video := 0 } =
      some (.ok { segment_index := 11, clip_index := 2, sequences_mask := 5,
                  tracks_mask_audio := 0, tracks_mask_video := 0 }) ∧
    ngx_http_vod_parse_uri_file_name example_env (bytes "0-f1") true
        { segment_index := 7, clip_index := 0, sequences_mask := 0, tracks_mask_audio := 0,
          tracks_mask_video := 0 } =
      some (.error NGX_HTTP_BAD_REQUEST) ∧
    ngx_http_vod_parse_uri_file_name example_env (bytes "12-f1") false
        { segment_index := 7, clip_index := 0, sequences_mask := 0, tracks_mask_audio := 0,
          tracks_mask_video := 0 } =
      some (.error NGX_HTTP_BAD_REQUEST) ∧
    ngx_http_vod_parse_uri_file_name example_env (bytes "12-f1") true
        { segment_index := 7, clip_index := 0, sequences_mask := 0, tracks_mask_audio := 0,
          tracks_mask_video := 0 } =
      some (.ok { segment_index := 11, clip_index := 0xffffffff, sequences_mask := 1,
                  tracks_mask_audio := 0, tracks_mask_video := 0 }) ∧
    ngx_http_vod_parse_uri_file_name example_env (bytes "-f1") false
        { segment_index := 7, clip_index := 0, sequences_mask := 0, tracks_mask_audio := 0,
          tracks_mask_video := 0 } =
      some (.ok { segment_index := 7, clip_index := 0xffffffff, sequences_mask := 1,
                  tracks_mask_audio := 0, tracks_mask_video := 0 }) := by
  refine ⟨?_, ?_, ?_, ?_, ?_, ?_, rfl, by decide, by decide, by decide, by decide, by decide⟩
  · intro env range rp hz
    simp only [ngx_http_vod_parse_uri_file_name, extract_uint32_token_spec, hz, if_true,
      Nat.le_refl]
  · intro env range rp r h
    simp only [ngx_http_vod_parse_uri_file_name, extract_uint32_token_spec, if_true] at h
    by_cases hz : decimal_value ((skip_dash range).takeWhile is_digit) % 2 ^ 32 ≤ 0
    · rw [if_pos hz] at h
      cases h
    · rw [if_neg hz] at h
      refine ⟨by omega, ?_⟩
      simp only [] at h
      split at h
      · cases h
      · split at h
        · cases h
        · cases h
          rfl
  · intro env range rp hnz
    have hz : ¬ decimal_value ((skip_dash range).takeWhile is_digit) % 2 ^ 32 ≤ 0 := by omega
    simp only [ngx_http_vod_parse_uri_file_name, extract_uint32_token_spec, if_true, if_neg hz,
      Bool.false_eq_true, if_false]
  · intro env range rp r h
    simp only [ngx_http_vod_parse_uri_file_name, Bool.false_eq_true, if_false] at h
    split at h
    · cases h
    · split at h
      · cases h
      · cases h
        rfl
  · intro env range rp
    simp only [ngx_http_vod_parse_uri_file_name, Bool.false_eq_true, if_false]
  · intro env c cs rp hc
    have hc2 : 48 ≤ c ∧ c ≤ 57 := by simpa [is_digit] using hc
    have h45 : c ≠ 45 := by omega
    have h99 : c ≠ 99 := by omega
    have h102 : c ≠ 102 := by omega
    simp only [ngx_http_vod_parse_uri_file_name, Bool.false_eq_true, if_false, skip_dash, h45,
      ngx_http_vod_extract_clip_token, ne_eq, h99, not_false_eq_true, if_true,
      ngx_http_vod_extract_sequence_tokens, h102]

/-- A witness of C12: `"0-f1"` has the segment number 0 and is refused. -/
theorem parse_uri_file_name_segment_index_witness :
    ngx_http_vod_parse_uri_file_name example_env (bytes "0-f1") true
        { segment_index := 7, clip_index := 0, sequences_mask := 0, tracks_mask_audio := 0,
          tracks_mask_video := 0 } =
      some (.error NGX_HTTP_BAD_REQUEST) :=
  parse_uri_file_name_segment_index.1 example_env (bytes "0-f1") _ (by decide)

theorem token_ok_iff (t : Bytes × Bool) :
    token_ok t = true ↔
      (∀ c ∈ t.1, is_digit c = true) ∧ 1 ≤ decimal_value t.1 ∧ decimal_value t.1 ≤ 32 := by
  simp [token_ok, List.all_eq_true, and_assoc]

theorem sequence_tokens_text_cons (t : Bytes × Bool) (ts : List (Bytes × Bool)) (tail : Bytes) :
    sequence_tokens_text (t :: ts) ++ tail =
      102 :: (t.1 ++ ((if t.2 then [45] else []) ++ (sequence_tokens_text ts ++ tail))) := by
  simp [sequence_tokens_text, sequence_token]

theorem sequence_loop_tokens (toks : List (Bytes × Bool)) :
    ∀ (tail : Bytes) (fuel m : Nat), tokens_ok toks tail = true →
      (sequence_tokens_text toks ++ tail).length < fuel →
      sequence_loop fuel (sequence_tokens_text toks ++ tail) m =
        some (sequence_tokens_mask m toks, tail) := by
  induction toks with
  | nil =>
    intro tail fuel m hok hfuel
    cases fuel with
    | zero => omega
    | succ fuel =>
      cases tail with
      | nil => rfl
      | cons c cs =>
        have hc : c ≠ 102 := by simpa [tokens_ok] using hok
        simp [sequence_tokens_text, sequence_loop, hc, sequence_tokens_mask]
  | cons t ts ih =>
    intro tail fuel m hok hfuel
    simp only [tokens_ok, Bool.and_eq_true] at hok
    obtain ⟨⟨htok, hend⟩, hrest⟩ := hok
    obtain ⟨hdig, hlo, hhi⟩ := (token_ok_iff t).1 htok
    rw [sequence_tokens_text_cons] at hfuel ⊢
    cases fuel with
    | zero => omega
    | succ fuel =>
      have hnd : ∀ c ∈ ((if t.2 then [45] else []) ++ (sequence_tokens_text ts ++ tail)).head?,
          is_digit c = false := by
        intro c hc
        cases hd : t.2
        · rw [hd] at hc hend
          simp only [Bool.false_eq_true, if_false, List.nil_append] at hc
          cases hx : sequence_tokens_text ts ++ tail with
          | nil => rw [hx] at hc; cases hc
          | cons b bs =>
            rw [hx] at hc hend
            simp only [List.head?_cons, Option.mem_def, Option.some.injEq] at hc
            subst hc
            have : is_digit b = false ∧ b ≠ 45 := by simpa [token_end_ok] using hend
            exact this.1
        · rw [hd] at hc
          simp only [if_true, List.singleton_append, List.head?_cons, Option.mem_def,
            Option.some.injEq] at hc
          subst hc
          decide
      have hskip : skip_dash ((if t.2 then [45] else []) ++ (sequence_tokens_text ts ++ tail)) =
          sequence_tokens_text ts ++ tail := by
        cases hd : t.2
        · rw [hd] at hend
          simp only [Bool.false_eq_true, if_false, List.nil_append]
          cases hx : sequence_tokens_text ts ++ tail with
          | nil => rfl
          | cons b bs =>
            rw [hx] at hend
            have hb : b ≠ 45 := by
              have : is_digit b = false ∧ b ≠ 45 := by simpa [token_end_ok] using hend
              exact this.2
            simp [skip_dash, hb]
        · simp [skip_dash]
      have hval : decimal_value t.1 % 2 ^ 32 = decimal_value t.1 :=
        Nat.mod_eq_of_lt (by omega)
      simp only [sequence_loop, ne_eq, not_true_eq_false, if_false,
        extract_uint32_token_append t.1 _ hdig hnd, hval, hskip]
      rw [if_neg (by omega), if_neg (by omega)]
      rw [ih tail fuel _ hrest (by
        simp only [List.length_cons, List.length_append] at hfuel ⊢
        omega)]
      rfl

theorem extract_sequence_tokens_text (toks : List (Bytes × Bool)) (tail : Bytes) (m : Nat)
    (hne : toks ≠ []) (hok : tokens_ok toks tail = true) :
    ngx_http_vod_extract_sequence_tokens (sequence_tokens_text toks ++ tail) m =
      some (sequence_tokens_mask m toks, tail) := by
  cases toks with
  | nil => exact absurd rfl hne
  | cons t ts =>
    have h := sequence_loop_tokens (t :: ts) tail
      ((sequence_tokens_text (t :: ts) ++ tail).length + 1) m hok (Nat.lt_succ_self _)
    rw [sequence_tokens_text_cons] at h ⊢
    simp only [ngx_http_vod_extract_sequence_tokens, ne_eq, not_true_eq_false, if_false]
    exact h

theorem sequence_tokens_mask_bit (toks : List (Bytes × Bool)) :
    ∀ (m i : Nat), (sequence_tokens_mask m toks).testBit i =
      (m.testBit i || toks.any (fun t => decide (decimal_value t.1 - 1 = i))) := by
  induction toks with
  | nil => intro m i; simp [sequence_tokens_mask]
  | cons t ts ih =>
    intro m i
    have h := ih (m ||| (1 <<< (decimal_value t.1 - 1))) i
    simp only [sequence_tokens_mask, List.foldl_cons] at h ⊢
    rw [h, mask_bit_set]
    simp [Bool.or_assoc]

theorem extract_sequence_tokens_none (range : Bytes) (m : Nat) (h : range.head? ≠ some 102) :
    ngx_http_vod_extract_sequence_tokens range m = some (0xffffffff, range) := by
  cases range with
  | nil => rfl
  | cons c cs =>
    have hc : c ≠ 102 := by simpa using h
    simp [ngx_http_vod_extract_sequence_tokens, hc]

theorem parse_uri_file_name_sequence (env : Env) (range : Bytes) (expect : Bool)
    (rp r : request_params_t)
    (h : ngx_http_vod_parse_uri_file_name env range expect rp = some (.ok r)) :
    ∃ rest, ngx_http_vod_extract_sequence_tokens (sequence_cursor env range expect)
        rp.sequences_mask = some (r.sequences_mask, rest) := by
  cases expect with
  | true =>
    simp only [ngx_http_vod_parse_uri_file_name, if_true] at h
    simp only [sequence_cursor, if_true]
    split at h
    · cases h
    · rename_i r1 s1 hseg
      split at hseg
      · cases hseg
      · simp only [Except.ok.injEq, Prod.mk.injEq] at hseg
        obtain ⟨hr1, hs1⟩ := hseg
        subst hr1 hs1
        split at h
        · cases h
        · rename_i mask s2 hseq
          split at h
          · cases h
          · cases h
            exact ⟨s2, hseq⟩
  | false =>
    simp only [ngx_http_vod_parse_uri_file_name, Bool.false_eq_true, if_false] at h
    simp only [sequence_cursor, Bool.false_eq_true, if_false]
    split at h
    · cases h
    · rename_i mask s2 hseq
      split at h
      · cases h
      · cases h
        exact ⟨s2, hseq⟩

/-- C13, as stated, fails: the record holds `sequences_mask = 4` before the
call, the file name is `"f1"`, and the mask decoded is 5, not 1. -/
theorem parse_uri_file_name_mask_not_reset :
    ngx_http_vod_parse_uri_file_name example_env (bytes "f1") false
        { segment_index := 0, clip_index := 0, sequences_mask := 4, tracks_mask_audio := 0,
          tracks_mask_video := 0 } =
      some (.ok { segment_index := 0, clip_index := 0xffffffff, sequences_mask := 5,
                  tracks_mask_audio := 0, tracks_mask_video := 0 }) := by
  decide

/-- C13, amended. The sequence mask that
`ngx_http_vod_parse_uri_file_name` decodes is the one that
`ngx_http_vod_extract_sequence_tokens` gives at the cursor after the segment
index and the clip token, from the mask that the record held before the call.
For sequence tokens `f<v1>`, ..., `f<vk>` (`k >= 1`) with every value from 1
to 32 that mask is the OR of the mask held before with the bits `vi - 1`; from
a mask of 0 bit `i` is set exactly when some token `f<i+1>` is present. With
no `f` token the mask is `0xffffffff`, whatever the record held. -/
theorem parse_uri_file_name_sequences_mask :
    (∀ (env : Env) (range : Bytes) (expect : Bool) (rp r : request_params_t),
      ngx_http_vod_parse_uri_file_name env range expect rp = some (.ok r) →
      ∃ rest, ngx_http_vod_extract_sequence_tokens (sequence_cursor env range expect)
          rp.sequences_mask = some (r.sequences_mask, rest)) ∧
    (∀ (toks : List (Bytes × Bool)) (tail : Bytes) (m : Nat),
      toks ≠ [] → tokens_ok toks tail = true →
      ngx_http_vod_extract_sequence_tokens (sequence_tokens_text toks ++ tail) m =
          some (sequence_tokens_mask m toks, tail) ∧
        (∀ i, (sequence_tokens_mask m toks).testBit i =
          (m.testBit i || toks.any (fun t => decide (decimal_value t.1 = i + 1)))) ∧
        (∀ i, (sequence_tokens_mask 0 toks).testBit i = true ↔
          ∃ t ∈ toks, decimal_value t.1 = i + 1)) ∧
    (∀ (range : Bytes) (m : Nat), range.head? ≠ some 102 →
      ngx_http_vod_extract_sequence_tokens range m = some (0xffffffff, range)) := by
  refine ⟨parse_uri_file_name_sequence, ?_, extract_sequence_tokens_none⟩
  intro toks tail m hne hok
  have hany : ∀ i, toks.any (fun t => decide (decimal_value t.1 - 1 = i)) =
      toks.any (fun t => decide (decimal_value t.1 = i + 1)) := by
    intro i
    have hall : ∀ ts : List (Bytes × Bool), ∀ tl, tokens_ok ts tl = true →
        ts.any (fun t => decide (decimal_value t.1 - 1 = i)) =
          ts.any (fun t => decide (decimal_value t.1 = i + 1)) := by
      intro ts
      induction ts with
      | nil => intro _ _; rfl
      | cons t ts ih =>
        intro tl h
        simp only [tokens_ok, Bool.and_eq_true] at h
        obtain ⟨⟨htok, _⟩, hrest⟩ := h
        obtain ⟨_, hlo, _⟩ := (token_ok_iff t).1 htok
        simp only [List.any_cons, ih tl hrest]
        congr 1
        apply decide_eq_decide.mpr
        omega
    exact hall toks tail hok
  refine ⟨extract_sequence_tokens_text toks tail m hne hok, ?_, ?_⟩
  · intro i
    rw [sequence_tokens_mask_bit, hany]
  · intro i
    rw [sequence_tokens_mask_bit, hany]
    simp

/-- A witness of C13, amended: the tokens `"f1-"` and `"f3"` from the mask 0
give the mask with the bits 0 and 2. -/
theorem parse_uri_file_name_sequences_mask_witness :
    ngx_http_vod_extract_sequence_tokens
        (sequence_tokens_text [(bytes "1", true), (bytes "3", false)] ++ bytes "v1") 0 =
      some (sequence_tokens_mask 0 [(bytes "1", true), (bytes "3", false)], bytes "v1") :=
  (parse_uri_file_name_sequences_mask.2.1 [(bytes "1", true), (bytes "3", false)] (bytes "v1") 0
    (by decide) (by decide)).1

theorem to_decimal_loop_digits : ∀ (fuel n : Nat) (acc : Bytes),
    (∀ c ∈ acc, is_digit c = true) → ∀ c ∈ to_decimal_loop fuel n acc, is_digit c = true := by
  intro fuel
  induction fuel with
  | zero => intro n acc h; simpa [to_decimal_loop] using h
  | succ fuel ih =>
    intro n acc h
    simp only [to_decimal_loop]
    split
    · rename_i hn
      intro c hc
      rcases List.mem_cons.mp hc with e | e
      · subst e
        simp only [is_digit, decide_eq_true_eq]
        omega
      · exact h c e
    · apply ih
      intro c hc
      rcases List.mem_cons.mp hc with e | e
      · subst e
        simp only [is_digit, decide_eq_true_eq]
        omega
      · exact h c e

theorem to_decimal_loop_value : ∀ (fuel n : Nat) (acc : Bytes), n < 10 ^ fuel →
    (to_decimal_loop fuel n acc).foldl (fun value c => value * 10 + (c - 48)) 0 =
      acc.foldl (fun value c => value * 10 + (c - 48)) n := by
  intro fuel
  induction fuel with
  | zero =>
    intro n acc h
    have : n = 0 := by simpa using h
    subst this
    rfl
  | succ fuel ih =>
    intro n acc h
    simp only [to_decimal_loop]
    split
    · simp
    · rename_i hn
      rw [ih (n / 10) _ (by rw [Nat.pow_succ] at h; omega)]
      simp only [List.foldl_cons]
      congr 1
      omega

theorem to_decimal_digits (n : Nat) : ∀ c ∈ to_decimal n, is_digit c = true :=
  to_decimal_loop_digits (n + 1) n [] (fun _ h => by cases h)

theorem to_decimal_value (n : Nat) : decimal_value (to_decimal n) = n := by
  have h : n < 10 ^ (n + 1) :=
    Nat.lt_of_lt_of_le (Nat.lt_pow_self (by decide) n) (Nat.pow_le_pow_right (by decide) (by omega))
  exact to_decimal_loop_value (n + 1) n [] h

theorem to_decimal_loop_ne_nil : ∀ (fuel n : Nat) (acc : Bytes), 0 < fuel →
    to_decimal_loop fuel n acc ≠ [] := by
  intro fuel
  induction fuel with
  | zero => intro n acc h; omega
  | succ fuel ih =>
    intro n acc _
    simp only [to_decimal_loop]
    split
    · simp
    · cases fuel with
      | zero => simp [to_decimal_loop]
      | succ fuel => exact ih _ _ (by omega)

theorem to_decimal_head (n : Nat) (rest : Bytes) :
    ∃ c cs, to_decimal n ++ rest = c :: cs ∧ is_digit c = true := by
  have hne := to_decimal_loop_ne_nil (n + 1) n [] (by omega)
  cases h : to_decimal n with
  | nil => exact absurd h hne
  | cons c cs =>
    exact ⟨c, cs ++ rest, rfl, to_decimal_digits n c (by rw [h]; exact List.mem_cons_self _ _)⟩

theorem extract_uint32_to_decimal (n : Nat) (rest : Bytes) (hn : n < 2 ^ 32) :
    parse_utils_extract_uint32_token (to_decimal n ++ 45 :: rest) = (n, 45 :: rest) := by
  rw [extract_uint32_token_append _ _ (to_decimal_digits n)
    (by intro c hc; simp at hc; subst hc; decide), to_decimal_value, Nat.mod_eq_of_lt hn]

theorem sequence_loop_mask_bound : ∀ (fuel : Nat) (range : Bytes) (m m' : Nat) (rest : Bytes),
    sequence_loop fuel range m = some (m', rest) → m ≠ 0 → m < 2 ^ 32 →
    m' ≠ 0 ∧ m' < 2 ^ 32 := by
  intro fuel
  induction fuel with
  | zero => intro range m m' rest h; simp [sequence_loop] at h
  | succ fuel ih =>
    intro range m m' rest h hne hlt
    cases range with
    | nil =>
      simp only [sequence_loop, Option.some.injEq, Prod.mk.injEq] at h
      rw [← h.1]
      exact ⟨hne, hlt⟩
    | cons c cs =>
      simp only [sequence_loop] at h
      split at h
      · simp only [Option.some.injEq, Prod.mk.injEq] at h
        rw [← h.1]
        exact ⟨hne, hlt⟩
      · split at h
        · exact ih _ _ _ _ h (by decide) (by decide)
        · split at h
          · cases h
          · rename_i hidx
            refine ih _ _ _ _ h ?_ ?_
            · intro hz
              have hb : (m ||| 1 <<< ((parse_utils_extract_uint32_token cs).1 - 1)).testBit
                  ((parse_utils_extract_uint32_token cs).1 - 1) = true := by
                rw [mask_bit_set]
                simp
              rw [hz] at hb
              simp at hb
            · apply Nat.or_lt_two_pow hlt
              rw [Nat.one_shiftLeft]
              exact Nat.pow_lt_pow_right (by decide) (by omega)

theorem extract_sequence_tokens_mask_bound (range : Bytes) (m' : Nat) (rest : Bytes)
    (h : ngx_http_vod_extract_sequence_tokens range 0 = some (m', rest)) :
    m' ≠ 0 ∧ m' < 2 ^ 32 := by
  cases range with
  | nil =>
    simp only [ngx_http_vod_extract_sequence_tokens, Option.some.injEq, Prod.mk.injEq] at h
    rw [← h.1]
    decide
  | cons c cs =>
    simp only [ngx_http_vod_extract_sequence_tokens] at h
    split at h
    · simp only [Option.some.injEq, Prod.mk.injEq] at h
      rw [← h.1]
      decide
    · rename_i hc
      have hc' : c = 102 := by simpa using hc
      subst hc'
      simp only [sequence_loop, ne_eq, not_true_eq_false, if_false] at h
      split at h
      · exact sequence_loop_mask_bound _ _ _ _ _ h (by decide) (by decide)
      · split at h
        · cases h
        · rename_i hidx
          refine sequence_loop_mask_bound _ _ _ _ _ h ?_ ?_
          · intro hz
            have hb : (0 ||| 1 <<< ((parse_utils_extract_uint32_token cs).1 - 1)).testBit
                ((parse_utils_extract_uint32_token cs).1 - 1) = true := by
              rw [mask_bit_set]
              simp
            rw [hz] at hb
            simp at hb
          · apply Nat.or_lt_two_pow (by decide)
            rw [Nat.one_shiftLeft]
            exact Nat.pow_lt_pow_right (by decide) (by omega)

theorem token_then_split (t rest : Bytes) :
    ∃ sep, token_then t rest = t ++ sep ∧ skip_dash sep = rest ∧
      (∀ c ∈ sep.head?, is_digit c = false) ∧ rest.length ≤ sep.length := by
  by_cases h : rest = []
  · subst h
    exact ⟨[], by simp [token_then], rfl, by simp, by simp⟩
  · refine ⟨45 :: rest, by simp [token_then, h], by simp [skip_dash], ?_, by simp⟩
    intro c hc
    simp only [List.head?_cons, Option.mem_def, Option.some.injEq] at hc
    subst hc
    decide

theorem token_then_head (c : Nat) (cs rest : Bytes) :
    (token_then (c :: cs) rest).head? = some c := by
  unfold token_then
  split <;> rfl

theorem skip_dash_of_head (range : Bytes) (h : range.head? ≠ some 45) : skip_dash range = range := by
  cases range with
  | nil => rfl
  | cons c cs =>
    have hc : c ≠ 45 := by simpa using h
    simp [skip_dash, hc]

theorem sequence_loop_canonical (ds : List Nat) :
    ∀ (tail : Bytes) (fuel m : Nat), (∀ i ∈ ds, i < 32) → tail.head? ≠ some 102 →
      ((ds.map (fun i => 102 :: to_decimal (i + 1))).foldr token_then tail).length < fuel →
      sequence_loop fuel ((ds.map (fun i => 102 :: to_decimal (i + 1))).foldr token_then tail) m =
        some (ds.foldl (fun m i => m ||| (1 <<< i)) m, tail) := by
  induction ds with
  | nil =>
    intro tail fuel m _ htail hfuel
    cases fuel with
    | zero => omega
    | succ fuel =>
      cases tail with
      | nil => rfl
      | cons c cs =>
        have hc : c ≠ 102 := by simpa using htail
        simp [sequence_loop, hc]
  | cons i ds ih =>
    intro tail fuel m hds htail hfuel
    have hi : i < 32 := hds i (List.mem_cons_self _ _)
    simp only [List.map_cons, List.foldr_cons, List.foldl_cons] at hfuel ⊢
    obtain ⟨sep, hsplit, hskip, hsep, hlen⟩ :=
      token_then_split (102 :: to_decimal (i + 1))
        ((ds.map (fun i => 102 :: to_decimal (i + 1))).foldr token_then tail)
    rw [hsplit] at hfuel ⊢
    cases fuel with
    | zero => omega
    | succ fuel =>
      have htok : parse_utils_extract_uint32_token (to_decimal (i + 1) ++ sep) = (i + 1, sep) := by
        rw [extract_uint32_token_append _ _ (to_decimal_digits (i + 1)) hsep, to_decimal_value,
          Nat.mod_eq_of_lt (by omega)]
      have hunfold : ∀ (x : Bytes), sequence_loop (fuel + 1) (102 :: x) m =
          if (parse_utils_extract_uint32_token x).1 = 0 then
            sequence_loop fuel (skip_dash (parse_utils_extract_uint32_token x).2) 0xffffffff
          else if (parse_utils_extract_uint32_token x).1 - 1 ≥ 32 then none
          else sequence_loop fuel (skip_dash (parse_utils_extract_uint32_token x).2)
            (m ||| (1 <<< ((parse_utils_extract_uint32_token x).1 - 1))) := by
        intro x
        simp [sequence_loop]
      rw [List.cons_append, hunfold, htok]
      simp only [Nat.add_one_ne_zero, if_false, Nat.add_sub_cancel, ge_iff_le, Nat.not_le.mpr hi,
        hskip]
      apply ih tail fuel _ (fun j hj => hds j (List.mem_cons_of_mem _ hj)) htail
      simp only [List.cons_append, List.length_cons, List.length_append] at hfuel
      omega

theorem mask_of_bits (ds : List Nat) :
    ∀ (m j : Nat), (ds.foldl (fun m i => m ||| (1 <<< i)) m).testBit j =
      (m.testBit j || decide (j ∈ ds)) := by
  induction ds with
  | nil => intro m j; simp
  | cons i ds ih =>
    intro m j
    simp only [List.foldl_cons]
    rw [ih, mask_bit_set]
    by_cases h : i = j
    · subst h; simp
    · have h2 : j ≠ i := fun e => h e.symm
      simp [h, h2]

theorem mask_of_set_bits (mask : Nat) (hm : mask < 2 ^ 32) :
    ((List.range 32).filter (fun i => mask.testBit i)).foldl (fun m i => m ||| (1 <<< i)) 0 =
      mask := by
  apply Nat.eq_of_testBit_eq
  intro j
  rw [mask_of_bits]
  by_cases hj : j < 32
  · by_cases hb : mask.testBit j = true
    · simp [hb, hj]
    · simp [hb]
  · rw [testBit_of_lt_word mask j hm (by omega)]
    simp [hj]

theorem set_bits_ne_nil (mask : Nat) (hne : mask ≠ 0) (hm : mask < 2 ^ 32) :
    (List.range 32).filter (fun i => mask.testBit i) ≠ [] := by
  obtain ⟨i, hi⟩ := Nat.ne_zero_implies_bit_true hne
  have h32 : i < 32 := by
    by_contra hge
    rw [testBit_of_lt_word mask i hm (by omega)] at hi
    cases hi
  intro hnil
  have hmem : i ∈ (List.range 32).filter (fun i => mask.testBit i) := by
    simp [h32, hi]
  rw [hnil] at hmem
  cases hmem

theorem encode_sequences_head (mask : Nat) (tail : Bytes) (c : Nat) (hc : c ≠ 102)
    (htail : tail.head? ≠ some c) : (encode_sequences mask tail).head? ≠ some c := by
  unfold encode_sequences
  split
  · exact htail
  · cases (List.range 32).filter (fun i => mask.testBit i) with
    | nil => exact htail
    | cons i ds =>
      simp only [List.map_cons, List.foldr_cons, token_then_head, ne_eq, Option.some.injEq]
      exact fun e => hc e.symm

theorem extract_sequence_tokens_canonical (mask : Nat) (tail : Bytes) (hne : mask ≠ 0)
    (hm : mask < 2 ^ 32) (htail : tail.head? ≠ some 102) :
    ngx_http_vod_extract_sequence_tokens (encode_sequences mask tail) 0 = some (mask, tail) := by
  unfold encode_sequences
  split
  · rename_i hall
    rw [extract_sequence_tokens_none tail 0 htail, hall]
  · have hbits := set_bits_ne_nil mask hne hm
    have hlt : ∀ i ∈ (List.range 32).filter (fun i => mask.testBit i), i < 32 := by
      intro i hi
      exact List.mem_range.mp (List.mem_filter.mp hi).1
    have hloop := sequence_loop_canonical _ tail
      ((((List.range 32).filter (fun i => mask.testBit i)).map
        (fun i => 102 :: to_decimal (i + 1))).foldr token_then tail).length.succ 0 hlt htail
      (Nat.lt_succ_self _)
    rw [mask_of_set_bits mask hm] at hloop
    cases hds : (List.range 32).filter (fun i => mask.testBit i) with
    | nil => exact absurd hds hbits
    | cons i ds =>
      rw [hds] at hloop
      simp only [List.map_cons, List.foldr_cons] at hloop ⊢
      obtain ⟨sep, hsplit, -, -, -⟩ := token_then_split (102 :: to_decimal (i + 1))
        ((ds.map (fun i => 102 :: to_decimal (i + 1))).foldr token_then tail)
      rw [hsplit, List.cons_append] at hloop ⊢
      simp only [ngx_http_vod_extract_sequence_tokens, ne_eq, not_true_eq_false, if_false]
      exact hloop

theorem encode_clip_head (env : Env) (clip_index : Nat) (rest : Bytes) (c : Nat) (hc : c ≠ 99)
    (hrest : rest.head? ≠ some c) : (encode_clip env clip_index rest).head? ≠ some c := by
  unfold encode_clip
  split
  · exact hrest
  · simp only [token_then_head, ne_eq, Option.some.injEq]
    exact fun e => hc e.symm

theorem extract_clip_token_canonical (env : Env) (clip_index : Nat) (rest : Bytes)
    (hclip : clip_index = env.INVALID_CLIP_INDEX ∨ clip_index + 1 < 2 ^ 32)
    (hrest : rest.head? ≠ some 99) :
    ngx_http_vod_extract_clip_token env (encode_clip env clip_index rest) = (clip_index, rest) := by
  unfold encode_clip
  split
  · rename_i hinv
    cases rest with
    | nil => simp [ngx_http_vod_extract_clip_token, hinv]
    | cons c cs =>
      have hc : c ≠ 99 := by simpa using hrest
      simp [ngx_http_vod_extract_clip_token, hc, hinv]
  · rename_i hinv
    have hlt : clip_index + 1 < 2 ^ 32 := hclip.resolve_left hinv
    obtain ⟨sep, hsplit, hskip, hsep, -⟩ := token_then_split (99 :: to_decimal (clip_index + 1)) rest
    have htok : parse_utils_extract_uint32_token (to_decimal (clip_index + 1) ++ sep) =
        (clip_index + 1, sep) := by
      rw [extract_uint32_token_append _ _ (to_decimal_digits (clip_index + 1)) hsep,
        to_decimal_value, Nat.mod_eq_of_lt hlt]
    rw [hsplit, List.cons_append]
    simp only [ngx_http_vod_extract_clip_token, ne_eq, not_true_eq_false, if_false, htok,
      Nat.add_one_ne_zero, Nat.add_sub_cancel, hskip]

theorem extract_uint32_token_lt (range : Bytes) :
    (parse_utils_extract_uint32_token range).1 < 2 ^ 32 := by
  rw [extract_uint32_token_spec]
  exact Nat.mod_lt _ (by decide)

theorem extract_clip_token_range (env : Env) (range : Bytes) :
    (ngx_http_vod_extract_clip_token env range).1 = env.INVALID_CLIP_INDEX ∨
      (ngx_http_vod_extract_clip_token env range).1 + 1 < 2 ^ 32 := by
  cases range with
  | nil => left; rfl
  | cons c cs =>
    simp only [ngx_http_vod_extract_clip_token]
    split
    · left; rfl
    · split
      · left; rfl
      · right
        have h := extract_uint32_token_lt cs
        omega

theorem parse_uri_file_name_fields (env : Env) (range : Bytes) (expect : Bool)
    (rp r : request_params_t) (hzero : rp.sequences_mask = 0)
    (h : ngx_http_vod_parse_uri_file_name env range expect rp = some (.ok r)) :
    (expect = true → r.segment_index + 1 < 2 ^ 32) ∧
    (expect = false → r.segment_index = rp.segment_index) ∧
    (r.clip_index = env.INVALID_CLIP_INDEX ∨ r.clip_index + 1 < 2 ^ 32) ∧
    r.sequences_mask ≠ 0 ∧ r.sequences_mask < 2 ^ 32 := by
  cases expect with
  | true =>
    simp only [ngx_http_vod_parse_uri_file_name, if_true] at h
    split at h
    · cases h
    · rename_i r1 s1 hseg
      split at hseg
      · cases hseg
      · rename_i hpos
        simp only [Except.ok.injEq, Prod.mk.injEq] at hseg
        obtain ⟨hr1, hs1⟩ := hseg
        subst hr1
        split at h
        · cases h
        · rename_i m2 s2 hseq
          split at h
          · cases h
          · simp only [Option.some.injEq, Except.ok.injEq] at h
            subst h
            have hb := extract_sequence_tokens_mask_bound _ _ _ (hzero ▸ hseq)
            have hlt := extract_uint32_token_lt (skip_dash range)
            refine ⟨fun _ => ?_, (fun e => by cases e), extract_clip_token_range env s1, hb⟩
            simp only
            omega
  | false =>
    simp only [ngx_http_vod_parse_uri_file_name, Bool.false_eq_true, if_false] at h
    split at h
    · cases h
    · rename_i m2 s2 hseq
      split at h
      · cases h
      · simp only [Option.some.injEq, Except.ok.injEq] at h
        subst h
        have hb := extract_sequence_tokens_mask_bound _ _ _ (hzero ▸ hseq)
        exact ⟨(fun e => by cases e), fun _ => rfl, extract_clip_token_range env _, hb⟩

theorem parse_uri_file_name_canonical (env : Env) (expect : Bool) (rp r : request_params_t)
    (tt : Bytes) (hzero : rp.sequences_mask = 0)
    (hseg1 : expect = true → r.segment_index + 1 < 2 ^ 32)
    (hseg0 : expect = false → r.segment_index = rp.segment_index)
    (hclip : r.clip_index = env.INVALID_CLIP_INDEX ∨ r.clip_index + 1 < 2 ^ 32)
    (hne : r.sequences_mask ≠ 0) (hm : r.sequences_mask < 2 ^ 32)
    (htracks : env.parse_utils_extract_track_tokens tt
      (rp.tracks_mask_audio, rp.tracks_mask_video) =
        (tt.length, (r.tracks_mask_audio, r.tracks_mask_video)))
    (hhead : tt.head? ≠ some 45 ∧ tt.head? ≠ some 99 ∧ tt.head? ≠ some 102) :
    ngx_http_vod_parse_uri_file_name env (encode_file_name env expect r tt) expect rp =
      some (.ok r) := by
  have hseq := extract_sequence_tokens_canonical r.sequences_mask tt hne hm hhead.2.2
  have hclip2 := extract_clip_token_canonical env r.clip_index
    (encode_sequences r.sequences_mask tt) hclip
    (encode_sequences_head _ _ 99 (by decide) hhead.2.1)
  have hdash : (encode_clip env r.clip_index (encode_sequences r.sequences_mask tt)).head? ≠
      some 45 :=
    encode_clip_head env _ _ 45 (by decide) (encode_sequences_head _ _ 45 (by decide) hhead.1)
  cases expect with
  | true =>
    have hlt := hseg1 rfl
    obtain ⟨sep, hsplit, hskip, hsep, -⟩ := token_then_split (to_decimal (r.segment_index + 1))
      (encode_clip env r.clip_index (encode_sequences r.sequences_mask tt))
    have htok : parse_utils_extract_uint32_token (to_decimal (r.segment_index + 1) ++ sep) =
        (r.segment_index + 1, sep) := by
      rw [extract_uint32_token_append _ _ (to_decimal_digits (r.segment_index + 1)) hsep,
        to_decimal_value, Nat.mod_eq_of_lt hlt]
    have hstart : skip_dash (to_decimal (r.segment_index + 1) ++ sep) =
        to_decimal (r.segment_index + 1) ++ sep := by
      apply skip_dash_of_head
      obtain ⟨c, cs, hcs, hc⟩ := to_decimal_head (r.segment_index + 1) sep
      rw [hcs]
      simp only [List.head?_cons, ne_eq, Option.some.injEq]
      intro e
      subst e
      exact absurd hc (by decide)
    simp only [encode_file_name, if_true, hsplit, ngx_http_vod_parse_uri_file_name, hstart, htok,
      Nat.le_zero_eq, Nat.add_one_ne_zero, if_false, Nat.add_sub_cancel, hskip, hclip2, hzero,
      hseq, htracks, ne_eq, not_true_eq_false]
  | false =>
    have hseg := hseg0 rfl
    simp only [encode_file_name, Bool.false_eq_true, if_false, ngx_http_vod_parse_uri_file_name,
      skip_dash_of_head _ hdash, hclip2, hzero, hseq, htracks, ne_eq, not_true_eq_false]
    rw [← hseg]

/-- C14. The file-name grammar round-trips: when
`ngx_http_vod_parse_uri_file_name`, started from a record whose sequence mask
is zero, accepts a file name and decodes it to `r`, the canonical text of `r`
(the segment index plus one when one is expected, then `'c'` with the clip
index plus one unless there is no clip, then `'f'` with `i + 1` for each set
bit `i` unless the mask is `0xffffffff`, then the canonical track tokens, with
`'-'` between tokens) is accepted too, from the same record, and decodes to
the same `segment_index`, `clip_index`, `sequences_mask` and track masks. The
track tokens are read by `parse_utils_extract_track_tokens`: their canonical
text is any text `tt` which that reader consumes whole into the track masks of
`r` and which does not start with `'-'`, `'c'` or `'f'`. -/
theorem parse_uri_file_name_round_trip (env : Env) (range : Bytes) (expect : Bool)
    (rp r : request_params_t) (tt : Bytes) (hzero : rp.sequences_mask = 0)
    (h : ngx_http_vod_parse_uri_file_name env range expect rp = some (.ok r))
    (htracks : env.parse_utils_extract_track_tokens tt
      (rp.tracks_mask_audio, rp.tracks_mask_video) =
        (tt.length, (r.tracks_mask_audio, r.tracks_mask_video)))
    (hhead : tt.head? ≠ some 45 ∧ tt.head? ≠ some 99 ∧ tt.head? ≠ some 102) :
    ngx_http_vod_parse_uri_file_name env (encode_file_name env expect r tt) expect rp =
      some (.ok r) := by
  obtain ⟨h1, h2, h3, h4, h5⟩ := parse_uri_file_name_fields env range expect rp r hzero h
  exact parse_uri_file_name_canonical env expect rp r tt hzero h1 h2 h3 h4 h5 htracks hhead

/-- C14, at the file name `-12-c3-f3-f1` with a segment index expected: it is
decoded to segment 11, clip 2 and the mask 5, and the canonical text
`12-c3-f1-f3` of these fields is decoded to the same record. -/
theorem parse_uri_file_name_round_trip_witness :
    ngx_http_vod_parse_uri_file_name example_env (bytes "-12-c3-f3-f1") true ⟨0, 0, 0, 0, 0⟩ =
      some (.ok ⟨11, 2, 5, 0, 0⟩) ∧
    encode_file_name example_env true ⟨11, 2, 5, 0, 0⟩ [] = bytes "12-c3-f1-f3" ∧
    ngx_http_vod_parse_uri_file_name example_env
        (encode_file_name example_env true ⟨11, 2, 5, 0, 0⟩ []) true ⟨0, 0, 0, 0, 0⟩ =
      some (.ok ⟨11, 2, 5, 0, 0⟩) :=
  ⟨by decide, by decide,
    parse_uri_file_name_round_trip example_env (bytes "-12-c3-f3-f1") true ⟨0, 0, 0, 0, 0⟩
      ⟨11, 2, 5, 0, 0⟩ [] rfl (by decide) rfl (by decide)⟩

theorem join_init_last (sep : Nat) : ∀ (g : Bytes) (gs : List Bytes),
    ((init_fields g gs).map (fun s => sep :: s)).flatten ++ sep :: last_field g gs =
      (((g :: gs).map (fun s => sep :: s)).flatten) := by
  intro g gs
  induction gs generalizing g with
  | nil => simp [init_fields, last_field]
  | cons h hs ih =>
    have e := ih h
    simp only [init_fields, last_field, List.map_cons, List.flatten_cons, List.append_assoc] at e ⊢
    rw [e]

theorem init_fields_length : ∀ (g : Bytes) (gs : List Bytes),
    (init_fields g gs).length = gs.length := by
  intro g gs
  induction gs generalizing g with
  | nil => rfl
  | cons h hs ih => simp [init_fields, ih h]

theorem init_fields_mem : ∀ (g : Bytes) (gs : List Bytes), ∀ s ∈ init_fields g gs, s ∈ g :: gs := by
  intro g gs
  induction gs generalizing g with
  | nil => intro s hs; cases hs
  | cons h hs ih =>
    intro s hmem
    simp only [init_fields, List.mem_cons] at hmem
    rcases hmem with e | e
    · simp [e]
    · exact List.mem_cons_of_mem _ (ih h s e)

theorem last_field_mem : ∀ (g : Bytes) (gs : List Bytes), last_field g gs ∈ g :: gs := by
  intro g gs
  induction gs generalizing g with
  | nil => simp [last_field]
  | cons h hs ih => exact List.mem_cons_of_mem _ (ih h)

/-- C20. Joining undoes the splitting of `ngx_http_vod_parse_multi_uri`: for
a URI `body ++ marker` that is accepted and has `N ≥ 1` commas before the
marker, the prefix, then `','` and each of the first `N - 1` middle parts
returned, in order, then `','`, the postfix and the marker give the URI; the
prefix, these middle parts and the postfix have no comma; the length returned
for `uri->len` is the length of the URI minus the length of the marker, and
the bytes up to it are `body`. With two commas or more the middle parts
returned are exactly these `N - 1` (`parts_count = N - 1`). -/
theorem parse_multi_uri_join (env : Env) (body marker : Bytes)
    (m : ngx_http_vod_multi_uri_t) (n : Nat) (hN : 1 ≤ body.count COMMA)
    (h : ngx_http_vod_parse_multi_uri env (body ++ marker) marker = .ok (m, n)) :
    m.prefix_.bytes (body ++ marker) ++
        (((m.middle_parts.take (body.count COMMA - 1)).map
          (ngx_str_t.bytes (body ++ marker))).map (fun s => COMMA :: s)).flatten ++
        COMMA :: m.postfix_.bytes (body ++ marker) ++ marker = body ++ marker ∧
      COMMA ∉ m.prefix_.bytes (body ++ marker) ∧
      (∀ s ∈ (m.middle_parts.take (body.count COMMA - 1)).map (ngx_str_t.bytes (body ++ marker)),
        COMMA ∉ s) ∧
      COMMA ∉ m.postfix_.bytes (body ++ marker) ∧
      ((m.middle_parts.take (body.count COMMA - 1)).map
        (ngx_str_t.bytes (body ++ marker))).length = body.count COMMA - 1 ∧
      (2 ≤ body.count COMMA →
        m.parts_count = body.count COMMA - 1 ∧ m.middle_parts.length = body.count COMMA - 1) ∧
      n = (body ++ marker).length - marker.length ∧
      (body ++ marker).take n = body := by
  have hlen := split_on_length COMMA body
  have hjoin := split_on_join COMMA body
  obtain ⟨hpre, hfields⟩ := split_on_not_mem COMMA body
  cases hg : (split_on COMMA body).2 with
  | nil =>
    rw [hg] at hlen
    simp only [List.length_nil] at hlen
    omega
  | cons g gs =>
    rw [hg] at hlen hjoin hfields
    simp only [List.length_cons] at hlen
    obtain ⟨hfit, hover⟩ := parse_multi_uri_commas env body marker g gs hg
    by_cases hle : gs.length ≤ env.MAX_SUB_URIS
    · obtain ⟨m0, k1, k2, k3, k4, k5, k6⟩ := hfit hle
      rw [k1] at h
      simp only [Except.ok.injEq, Prod.mk.injEq] at h
      obtain ⟨hm, hn⟩ := h
      subst hm
      subst hn
      have hcount : body.count COMMA - 1 = gs.length := by omega
      rw [hcount, k2, k5]
      have hmids : (m0.middle_parts.take gs.length).map (ngx_str_t.bytes (body ++ marker)) =
          init_fields g gs := by
        by_cases hnil : gs = []
        · subst hnil
          simp [init_fields]
        · have e := k3 hnil
          have hl : m0.middle_parts.length = gs.length := by
            have := congrArg List.length e
            simpa [init_fields_length] using this
          rw [List.take_of_length_le (by omega), e]
      rw [hmids]
      refine ⟨?_, hpre, ?_, ?_, ?_, ?_, by simp, by simp⟩
      · have e := join_init_last COMMA g gs
        have hassoc : (split_on COMMA body).1 ++
              ((init_fields g gs).map (fun s => COMMA :: s)).flatten ++
              COMMA :: last_field g gs ++ marker =
            ((split_on COMMA body).1 ++
              (((init_fields g gs).map (fun s => COMMA :: s)).flatten ++
                COMMA :: last_field g gs)) ++ marker := by
          simp only [List.append_assoc]
        rw [hassoc, e, hjoin]
      · intro s hs
        exact hfields s (init_fields_mem g gs s hs)
      · exact hfields _ (last_field_mem g gs)
      · exact init_fields_length g gs
      · intro h2
        have hnil : gs ≠ [] := by
          intro e
          subst e
          simp at hlen
          omega
        have e := k3 hnil
        have hl : m0.middle_parts.length = gs.length := by
          have := congrArg List.length e
          simpa [init_fields_length] using this
        refine ⟨?_, hl⟩
        rw [k6]
        have : 1 ≤ gs.length := by
          cases gs with
          | nil => exact absurd rfl hnil
          | cons _ _ => simp
        omega
    · rw [hover (by omega)] at h
      cases h

/-- C20, at `"pre,mid1,mid2,postMARKER"` with the marker `"MARKER"`: the
parts `"pre"`, `"mid1"`, `"mid2"` and `"post"` joined by commas, with the
marker, give the URI, and the length returned is 18. -/
theorem parse_multi_uri_join_witness :
    ngx_http_vod_parse_multi_uri example_env (bytes "pre,mid1,mid2,post" ++ bytes "MARKER")
        (bytes "MARKER") =
      .ok ({ prefix_ := { data := some 0, len := 3 }
             middle_parts := [{ data := some 4, len := 4 }, { data := some 9, len := 4 }]
             postfix_ := { data := some 14, len := 4 }
             parts_count := 2 }, 18) ∧
    bytes "pre" ++ ([bytes "mid1", bytes "mid2"].map (fun s => COMMA :: s)).flatten ++
        COMMA :: bytes "post" ++ bytes "MARKER" = bytes "pre,mid1,mid2,post" ++ bytes "MARKER" :=
  ⟨by decide,
    (parse_multi_uri_join example_env (bytes "pre,mid1,mid2,post") (bytes "MARKER")
      { prefix_ := { data := some 0, len := 3 }
        middle_parts := [{ data := some 4, len := 4 }, { data := some 9, len := 4 }]
        postfix_ := { data := some 14, len := 4 }
        parts_count := 2 } 18 (by decide) (by decide)).1⟩

/-- C18. The slots that the loop of `ngx_http_vod_parse_uri_path` writes fit
the allocation. For a mask `M` (a 32-bit word) and any `parts_count`, the
number of `i < parts_count` that pass the test `(M & (1 << i)) != 0` is
`uri_count = popcount(M & ((1 << parts_count) - 1))`, the number of slots
allocated; after any number of iterations, whatever the track filter keeps,
the loop has written at most `uri_count` sequence slots and as many sources;
and on success `1 ≤ sequence_count ≤ uri_count`, with `sequence_count`
sequences and sources (a call that succeeds has `parts_count < 32`, where the
shift is defined and the two forms of the mask agree). -/
theorem parse_uri_path_slots_bound :
    (∀ (M P : Nat), M < 2 ^ 32 →
      ((List.range P).filter (fun i => part_selected M i)).length =
        vod_get_number_of_set_bits (M &&& (((1 <<< P) % 2 ^ 32 + 2 ^ 32 - 1) % 2 ^ 32))) ∧
    (∀ (env : Env) (uri : Bytes) (m : ngx_http_vod_multi_uri_t) (M : Nat)
        (rp : request_params_t) (n : Nat) (st : PathState),
      M < 2 ^ 32 → n ≤ m.parts_count →
      path_loop env uri m M rp n 0 { sequences := [], sources := [], clip_id := 1 } = .ok st →
      st.sequences.length ≤ vod_get_number_of_set_bits
          (M &&& (((1 <<< m.parts_count) % 2 ^ 32 + 2 ^ 32 - 1) % 2 ^ 32)) ∧
        st.sources.length = st.sequences.length) ∧
    (∀ (env : Env) (marker uri : Bytes) (rp rp1 : request_params_t) (ms : media_set_t)
        (n1 : Nat),
      rp.sequences_mask < 2 ^ 32 →
      ngx_http_vod_parse_uri_path env marker uri rp = some (.ok (ms, rp1, n1)) →
      ∃ m n0, ngx_http_vod_parse_multi_uri env uri marker = .ok (m, n0) ∧
        m.parts_count < 32 ∧
        ms.sequence_count ≤ vod_get_number_of_set_bits
          ((if m.parts_count > 1 then rp.sequences_mask else 0xffffffff) &&&
            ((1 <<< m.parts_count) - 1)) ∧
        1 ≤ ms.sequence_count ∧
        ms.sequence_count ≤ vod_get_number_of_set_bits
          ((if m.parts_count > 1 then rp.sequences_mask else 0xffffffff) &&&
            (((1 <<< m.parts_count) % 2 ^ 32 + 2 ^ 32 - 1) % 2 ^ 32)) ∧
        ms.sequences.length = ms.sequence_count ∧ ms.sources.length = ms.sequence_count) := by
  refine ⟨selected_count, ?_, ?_⟩
  · intro env uri m M rp n st hM hn hst
    obtain ⟨k1, k2, -⟩ := path_loop_ok env uri m M rp n 0 _ st hst
    refine ⟨?_, k2 rfl⟩
    have hl := congrArg List.length k1
    simp only [List.length_map, List.map_nil, List.nil_append, ← List.range_eq_range'] at hl
    rw [hl, ← selected_count M m.parts_count hM]
    exact Nat.le_trans (filter_and_length_le _ _ _) (filter_range_length_mono _ n _ hn)
  · intro env marker uri rp rp1 ms n1 hM h
    cases hm : ngx_http_vod_parse_multi_uri env uri marker with
    | error rc =>
      simp only [ngx_http_vod_parse_uri_path, hm] at h
      cases h
    | ok r =>
      obtain ⟨m, n0⟩ := r
      obtain ⟨-, k2, -, k4, k5, k6⟩ := parse_uri_path_ok_parts env marker uri rp _ m n0 _ hm rfl rfl
        ms rp1 n1 h
      have hmask : (if m.parts_count > 1 then rp.sequences_mask else 0xffffffff) < 2 ^ 32 := by
        split
        · exact hM
        · decide
      have hP := parse_uri_path_defined env marker uri rp m n0 hm _ h
      have hbound : ms.sequence_count ≤ vod_get_number_of_set_bits
          ((if m.parts_count > 1 then rp.sequences_mask else 0xffffffff) &&&
            (((1 <<< m.parts_count) % 2 ^ 32 + 2 ^ 32 - 1) % 2 ^ 32)) := by
        have hl := congrArg List.length k2
        simp only [List.length_map] at hl
        rw [k5, hl, ← selected_count _ m.parts_count hmask]
        exact filter_and_length_le _ _ _
      refine ⟨m, n0, rfl, hP, ?_, k6, hbound, k5.symm, by rw [k4, k5]⟩
      rw [shift_mask_eq _ hP]
      exact hbound

/-- C18, at `"/pre,a,b,c,/postM"` with the mask `0b101`: two slots are
allocated and the two sequences of index 0 and 2 are written. -/
theorem parse_uri_path_slots_bound_witness :
    ∃ ms rp1 n1,
      ngx_http_vod_parse_uri_path example_env (bytes "M") (bytes "/pre,a,b,c,/postM")
          { segment_index := 0, clip_index := 0, sequences_mask := 5,
            tracks_mask_audio := 0xffffffff, tracks_mask_video := 0xffffffff } =
        some (.ok (ms, rp1, n1)) ∧
      ∃ m n0, ngx_http_vod_parse_multi_uri example_env (bytes "/pre,a,b,c,/postM") (bytes "M") =
          .ok (m, n0) ∧
        m.parts_count < 32 ∧
        ms.sequence_count ≤ vod_get_number_of_set_bits
          ((if m.parts_count > 1 then 5 else 0xffffffff) &&& ((1 <<< m.parts_count) - 1)) ∧
        1 ≤ ms.sequence_count ∧
        ms.sequence_count ≤ vod_get_number_of_set_bits
          ((if m.parts_count > 1 then 5 else 0xffffffff) &&&
            (((1 <<< m.parts_count) % 2 ^ 32 + 2 ^ 32 - 1) % 2 ^ 32)) ∧
        ms.sequences.length = ms.sequence_count ∧ ms.sources.length = ms.sequence_count := by
  refine ⟨
    { sequences :=
        [{ index := 0, clips := .source, stripped_uri := bytes "/prea/post",
           mapped_uri := bytes "/prea/post" },
         { index := 2, clips := .source, stripped_uri := bytes "/prec/post",
           mapped_uri := bytes "/prec/post" }],
      sources :=
        [{ id := 1, clip_from := 0, clip_to := 4294967295,
           tracks_mask_audio := 4294967295, tracks_mask_video := 4294967295,
           uri := bytes "/prea/post", stripped_uri := bytes "/prea/post",
           mapped_uri := bytes "/prea/post", sequence := 0 },
         { id := 2, clip_from := 0, clip_to := 4294967295,
           tracks_mask_audio := 4294967295, tracks_mask_video := 4294967295,
           uri := bytes "/prec/post", stripped_uri := bytes "/prec/post",
           mapped_uri := bytes "/prec/post", sequence := 1 }],
      sequence_count := 2, has_multi_sequences := true, total_clip_count := 1,
      clip_count := 1 },
    { segment_index := 0, clip_index := 0, sequences_mask := 4294967295,
      tracks_mask_audio := 4294967295, tracks_mask_video := 4294967295 },
    16, by decide, ?_⟩
  exact parse_uri_path_slots_bound.2.2 example_env (bytes "M") (bytes "/pre,a,b,c,/postM")
    { segment_index := 0, clip_index := 0, sequences_mask := 5,
      tracks_mask_audio := 0xffffffff, tracks_mask_video := 0xffffffff }
    { segment_index := 0, clip_index := 0, sequences_mask := 4294967295,
      tracks_mask_audio := 4294967295, tracks_mask_video := 4294967295 }
    _ 16 (by decide) (by decide)

theorem ngx_tolower_idem (c : Nat) : ngx_tolower (ngx_tolower c) = ngx_tolower c := by
  unfold ngx_tolower
  by_cases h : 65 ≤ c ∧ c ≤ 90
  · rw [if_pos h]
    have hc : c ||| 32 = c + 32 := by
      obtain ⟨h1, h2⟩ := h
      interval_cases c <;> rfl
    rw [hc, if_neg (by omega)]
  · rw [if_neg h, if_neg h]

theorem hash_key_lc_eq_fold (data : Bytes) :
    ngx_hash_key_lc data = (data.map ngx_tolower).foldl ngx_hash 0 := by
  unfold ngx_hash_key_lc
  rw [List.foldl_map]

theorem hash_key_lc_lower (data : Bytes) :
    ngx_hash_key_lc (data.map ngx_tolower) = ngx_hash_key_lc data := by
  rw [hash_key_lc_eq_fold, hash_key_lc_eq_fold, List.map_map]
  congr 1
  apply List.map_congr_left
  intro c _
  exact ngx_tolower_idem c

theorem boundary_step_reset (env : Env) (uri : Bytes) (cur_pos : Nat) (st st1 : ScanState)
    (h : boundary_step env uri cur_pos st = .ok st1) :
    st1.last_slash = some cur_pos ∧ st1.param_name = [] ∧ st1.cur_key_hash = 0 := by
  have key : ∀ r : Except Int ScanState,
      (match r with
        | .error rc => (Except.error rc : Except Int ScanState)
        | .ok s => .ok { s with last_slash := some cur_pos, cur_key_hash := 0, param_name := [] }) =
        .ok st1 →
      st1.last_slash = some cur_pos ∧ st1.param_name = [] ∧ st1.cur_key_hash = 0 := by
    intro r hr
    cases r with
    | error rc => cases hr
    | ok s =>
      simp only [Except.ok.injEq] at hr
      subst hr
      exact ⟨rfl, rfl, rfl⟩
  unfold boundary_step at h
  cases hls : st.last_slash with
  | none =>
    rw [hls] at h
    simp only [Except.ok.injEq] at h
    subst h
    exact ⟨rfl, rfl, rfl⟩
  | some ls =>
    rw [hls] at h
    exact key _ h

theorem boundary_lookup_ok (env : Env) (uri pre rest : Bytes) (st : ScanState) (cur_pos : Nat)
    (huri : uri = pre ++ rest) (hpos : cur_pos = pre.length)
    (hrest : rest = [] ∨ rest.head? = some SLASH)
    (hinv : ∀ ls, st.last_slash = some ls → ∃ A cur, pre = A ++ SLASH :: cur ∧ ls = A.length ∧
      SLASH ∉ cur ∧ st.param_name = key_name env cur ∧
      st.cur_key_hash = (key_name env cur).foldl ngx_hash 0) :
    ∀ l ∈ boundary_lookup cur_pos st, lookup_ok env uri l := by
  intro l hl
  unfold boundary_lookup at hl
  split at hl
  · rename_i ls hls hpd
    obtain ⟨A, cur, h1, h2, h3, h4, h5⟩ := hinv ls hls
    simp only [List.mem_singleton] at hl
    subst hl
    refine ⟨A, cur, rest, ?_, h2, ?_, h3, hrest, h4, h5⟩
    · rw [huri, h1]
    · simp only
      rw [hpos, h1]
      simp
      omega
  · cases hl

theorem scan_lookups_spec (env : Env) (uri : Bytes) : ∀ (rest pre : Bytes) (st : ScanState)
    (cur_pos : Nat), uri = pre ++ rest → cur_pos = pre.length →
    (∀ ls, st.last_slash = some ls → ∃ A cur, pre = A ++ SLASH :: cur ∧ ls = A.length ∧
      SLASH ∉ cur ∧ st.param_name = key_name env cur ∧
      st.cur_key_hash = (key_name env cur).foldl ngx_hash 0) →
    ∀ l ∈ scan_lookups env uri rest cur_pos st, lookup_ok env uri l := by
  intro rest
  induction rest with
  | nil =>
    intro pre st cur_pos huri hpos hinv l hl
    exact boundary_lookup_ok env uri pre [] st cur_pos huri hpos (Or.inl rfl) hinv l hl
  | cons c rest ih =>
    intro pre st cur_pos huri hpos hinv l hl
    simp only [scan_lookups] at hl
    by_cases hc : c ≠ SLASH
    · rw [if_pos hc] at hl
      refine ih (pre ++ [c]) (name_step env st c) (cur_pos + 1) (by simp [huri])
        (by simp [hpos]) ?_ l hl
      intro ls hls
      rw [(name_step_fields env st c).1] at hls
      obtain ⟨A, cur, h1, h2, h3, h4, h5⟩ := hinv ls hls
      obtain ⟨k1, k2⟩ := name_step_name env st c cur h4 h5
      refine ⟨A, cur ++ [c], by simp [h1], h2, ?_, k1, k2⟩
      simp only [List.mem_append, List.mem_singleton, not_or]
      exact ⟨h3, fun e => hc e.symm⟩
    · rw [if_neg hc] at hl
      have hc2 : c = SLASH := not_not.mp hc
      subst hc2
      rcases List.mem_append.mp hl with hl1 | hl2
      · exact boundary_lookup_ok env uri pre (SLASH :: rest) st cur_pos huri hpos
          (Or.inr rfl) hinv l hl1
      · cases hb : boundary_step env uri cur_pos st with
        | error rc =>
          rw [hb] at hl2
          cases hl2
        | ok st1 =>
          rw [hb] at hl2
          obtain ⟨r1, r2, r3⟩ := boundary_step_reset env uri cur_pos st st1 hb
          refine ih (pre ++ [SLASH]) st1 (cur_pos + 1) (by simp [huri]) (by simp [hpos]) ?_ l hl2
          intro ls hls
          rw [r1] at hls
          simp only [Option.some.injEq] at hls
          refine ⟨pre, [], by simp, by omega, by simp, ?_, ?_⟩
          · rw [r2]; simp [key_name]
          · rw [r3]; simp [key_name]

theorem extract_lookups_spec (env : Env) (uri : Bytes) (sequence clip_id : Nat)
    (l : lookup_call) (hl : l ∈ extract_lookups env uri sequence clip_id) :
    l.last_slash < l.cur_pos ∧ l.cur_pos ≤ uri.length ∧
      uri[l.last_slash]? = some SLASH ∧
      (l.cur_pos = uri.length ∨ uri[l.cur_pos]? = some SLASH) ∧
      SLASH ∉ lookup_segment uri l ∧
      (lookup_segment uri l).length = l.cur_pos - (l.last_slash + 1) ∧
      l.name =
        ((lookup_segment uri l).take (env.MAX_URI_PARAM_NAME_LEN + 1)).map ngx_tolower ∧
      l.key = ngx_hash_key_lc l.name ∧
      l.key = ngx_hash_key_lc ((lookup_segment uri l).take (env.MAX_URI_PARAM_NAME_LEN + 1)) ∧
      ((lookup_segment uri l).length ≤ env.MAX_URI_PARAM_NAME_LEN + 1 →
        ∀ key : Bytes, key.map ngx_tolower = (lookup_segment uri l).map ngx_tolower →
          l.key = ngx_hash_key_lc key) := by
  unfold extract_lookups at hl
  split at hl
  · cases hl
  · obtain ⟨A, seg, B, h1, h2, h3, h4, h5, h6, h7⟩ :=
      scan_lookups_spec env uri uri [] (scan_init uri sequence clip_id) 0 (by simp) rfl
        (fun ls hls => by cases hls) l hl
    have hseg : lookup_segment uri l = seg := by
      unfold lookup_segment
      rw [h1, h2]
      exact value_slice A seg B SLASH l.cur_pos h3
    have hlen : uri.length = A.length + 1 + seg.length + B.length := by
      rw [h1]
      simp
      omega
    rw [hseg]
    have hkey : l.key = ngx_hash_key_lc (seg.take (env.MAX_URI_PARAM_NAME_LEN + 1)) := by
      rw [h7, hash_key_lc_eq_fold]
      rfl
    refine ⟨by omega, by omega, ?_, ?_, h4, by omega, h6, ?_, hkey, ?_⟩
    · rw [h1, h2, List.append_assoc, List.getElem?_append_right (Nat.le_refl _)]
      simp
    · rcases h5 with hB | hB
      · left
        rw [hB] at hlen
        simp at hlen
        omega
      · right
        cases B with
        | nil => cases hB
        | cons b bs =>
          simp only [List.head?_cons, Option.some.injEq] at hB
          subst hB
          have e : A ++ SLASH :: seg ++ SLASH :: bs = (A ++ SLASH :: seg) ++ SLASH :: bs := by simp
          rw [h1, h3, e, List.getElem?_append_right (by simp; omega)]
          simp
          have : A.length + 1 + seg.length - (A.length + (seg.length + 1)) = 0 := by omega
          rw [this]
          simp
    · rw [h6]
      unfold key_name
      rw [hash_key_lc_lower]
      exact hkey
    · intro hshort key hk
      rw [hkey, List.take_of_length_le hshort, hash_key_lc_eq_fold, hash_key_lc_eq_fold, hk]

theorem value_step_table (env : Env) (f : Nat → Bytes → Option ParamDef) (d : ParamDef)
    (cur_param : Bytes) (o : ParamState) :
    value_step { env with ngx_hash_find := f } d cur_param o = value_step env d cur_param o := by
  cases d <;> rfl

theorem boundary_step_table (env : Env) (f : Nat → Bytes → Option ParamDef) (uri : Bytes)
    (cur_pos : Nat) (st : ScanState)
    (h : ∀ l ∈ boundary_lookup cur_pos st, f l.key l.name = env.ngx_hash_find l.key l.name) :
    boundary_step { env with ngx_hash_find := f } uri cur_pos st =
      boundary_step env uri cur_pos st := by
  cases hls : st.last_slash with
  | none => simp only [boundary_step, hls]
  | some ls =>
    cases hpd : st.param_def with
    | none =>
      have hf : f st.cur_key_hash st.param_name =
          env.ngx_hash_find st.cur_key_hash st.param_name := by
        have := h { key := st.cur_key_hash, name := st.param_name, last_slash := ls,
                    cur_pos := cur_pos } (by simp [boundary_lookup, hls, hpd])
        exact this
      simp only [boundary_step, hls, hpd, hf]
    | some d =>
      simp only [boundary_step, hls, hpd, value_step_table]

theorem scan_loop_table (env : Env) (f : Nat → Bytes → Option ParamDef) (uri : Bytes) :
    ∀ (rest : Bytes) (cur_pos : Nat) (st : ScanState),
    (∀ l ∈ scan_lookups env uri rest cur_pos st,
      f l.key l.name = env.ngx_hash_find l.key l.name) →
    scan_loop { env with ngx_hash_find := f } uri rest cur_pos st =
        scan_loop env uri rest cur_pos st ∧
      scan_lookups { env with ngx_hash_find := f } uri rest cur_pos st =
        scan_lookups env uri rest cur_pos st := by
  intro rest
  induction rest with
  | nil =>
    intro cur_pos st h
    simp only [scan_loop, scan_lookups] at h ⊢
    exact ⟨boundary_step_table env f uri cur_pos st h, trivial⟩
  | cons c rest ih =>
    intro cur_pos st h
    have hname : name_step { env with ngx_hash_find := f } st c = name_step env st c := rfl
    by_cases hc : c ≠ SLASH
    · simp only [scan_loop, scan_lookups, if_pos hc, hname] at h ⊢
      exact ih (cur_pos + 1) (name_step env st c) h
    · simp only [scan_loop, scan_lookups, if_neg hc] at h ⊢
      have hb := boundary_step_table env f uri cur_pos st
        (fun l hl => h l (List.mem_append_left _ hl))
      rw [hb]
      cases hs : boundary_step env uri cur_pos st with
      | error rc => exact ⟨rfl, rfl⟩
      | ok st1 =>
        rw [hs] at h
        obtain ⟨i1, i2⟩ := ih (cur_pos + 1) st1 (fun l hl => h l (List.mem_append_right _ hl))
        simp only [i1, i2, and_self]

/-- C17. At every call of `ngx_hash_find` that
`ngx_http_vod_extract_uri_params` makes, `last_slash` is at a `'/'`,
`cur_pos` is at the next boundary (a `'/'` or the end of the URI) and the
segment between them has no `'/'`; the name passed is the first
`MAX_URI_PARAM_NAME_LEN + 1` bytes of that segment in lower case, and the hash
passed is `ngx_hash_key_lc` of the name, which is also `ngx_hash_key_lc` of
these bytes of the segment as they are written. For a segment of at most
`MAX_URI_PARAM_NAME_LEN + 1` bytes the hash is therefore `ngx_hash_key_lc` of
every key that is the segment up to letter case, the hash that
`ngx_http_vod_init_hash` stores for the key: it depends on the lower-cased
segment only, not on what precedes it in the URI. The calls listed are those
of the function: a table that answers these calls as the given one does
leaves the result of `ngx_http_vod_extract_uri_params` and its calls as they
are, so the function reads the table at no other hash and name; and the
function is the extraction that looks each key segment up under its
lower-cased first `MAX_URI_PARAM_NAME_LEN + 1` bytes and their
`ngx_hash_key_lc`. In `"ab/x/ClipFrom/10"` two calls are made, for `"x"` and
for `"clipfrom"`, and the second finds the key `clipfrom` of the table, which
answers under the `ngx_hash_key_lc` of its keys only: `clip_from` is 10 and the
stripped URI is `"ab/x"`. -/
theorem extract_uri_params_lookup_key :
    (∀ (env : Env) (uri : Bytes) (sequence clip_id : Nat) (l : lookup_call),
      l ∈ extract_lookups env uri sequence clip_id →
      l.last_slash < l.cur_pos ∧ l.cur_pos ≤ uri.length ∧
        uri[l.last_slash]? = some SLASH ∧
        (l.cur_pos = uri.length ∨ uri[l.cur_pos]? = some SLASH) ∧
        SLASH ∉ lookup_segment uri l ∧
        (lookup_segment uri l).length = l.cur_pos - (l.last_slash + 1) ∧
        l.name =
          ((lookup_segment uri l).take (env.MAX_URI_PARAM_NAME_LEN + 1)).map ngx_tolower ∧
        l.key = ngx_hash_key_lc l.name ∧
        l.key =
          ngx_hash_key_lc ((lookup_segment uri l).take (env.MAX_URI_PARAM_NAME_LEN + 1)) ∧
        ((lookup_segment uri l).length ≤ env.MAX_URI_PARAM_NAME_LEN + 1 →
          ∀ key : Bytes, key.map ngx_tolower = (lookup_segment uri l).map ngx_tolower →
            l.key = ngx_hash_key_lc key)) ∧
    (∀ (env : Env) (f : Nat → Bytes → Option ParamDef) (uri : Bytes) (sequence clip_id : Nat),
      (∀ l ∈ extract_lookups env uri sequence clip_id,
        f l.key l.name = env.ngx_hash_find l.key l.name) →
      ngx_http_vod_extract_uri_params { env with ngx_hash_find := f } uri sequence clip_id =
          ngx_http_vod_extract_uri_params env uri sequence clip_id ∧
        extract_lookups { env with ngx_hash_find := f } uri sequence clip_id =
          extract_lookups env uri sequence clip_id) ∧
    (∀ (env : Env) (uri : Bytes) (sequence clip_id : Nat),
      ngx_http_vod_extract_uri_params env uri sequence clip_id =
          spec_extract_uri_params env uri sequence clip_id ∧
        ∀ seg : Bytes,
          lookup env seg =
            env.ngx_hash_find
              (ngx_hash_key_lc ((seg.take (env.MAX_URI_PARAM_NAME_LEN + 1)).map ngx_tolower))
              ((seg.take (env.MAX_URI_PARAM_NAME_LEN + 1)).map ngx_tolower)) ∧
    extract_lookups example_env (bytes "ab/x/ClipFrom/10") 0 0 =
      [{ key := ngx_hash_key_lc (bytes "x"), name := bytes "x", last_slash := 2, cur_pos := 4 },
       { key := ngx_hash_key_lc (bytes "clipfrom"), name := bytes "clipfrom", last_slash := 4,
         cur_pos := 13 }] ∧
    ngx_http_vod_extract_uri_params example_env (bytes "ab/x/ClipFrom/10") 0 0 =
      .ok
        { source_clip :=
            { id := 0, clip_from := 10, clip_to := 4294967295, tracks_mask_audio := 4294967295,
              tracks_mask_video := 4294967295, uri := bytes "ab/x/ClipFrom/10",
              stripped_uri := bytes "ab/x", mapped_uri := bytes "ab/x", sequence := 0 }
          result := .source
          clip_id := 1 } := by
  refine ⟨extract_lookups_spec, ?_, ?_, by decide, by decide⟩
  · intro env f uri sequence clip_id h
    unfold extract_lookups at h
    unfold ngx_http_vod_extract_uri_params extract_lookups
    have hp : ({ env with ngx_hash_find := f } : Env).ngx_palloc (uri.length + 1) =
        env.ngx_palloc (uri.length + 1) := rfl
    rw [hp]
    by_cases hpal : env.ngx_palloc (uri.length + 1) = false
    · simp only [hpal, if_true, and_self]
    · rw [if_neg hpal] at h
      simp only [hpal, if_false]
      obtain ⟨i1, i2⟩ := scan_loop_table env f uri uri 0 (scan_init uri sequence clip_id) h
      rw [i1, i2]
      exact ⟨rfl, rfl⟩
  · intro env uri sequence clip_id
    refine ⟨extract_uri_params_eq_spec env uri sequence clip_id, ?_⟩
    intro seg
    unfold lookup key_name
    rw [hash_key_lc_lower, hash_key_lc_eq_fold]

/-- C17, at the URI `"ab/x/ClipFrom/10"`: the second lookup is made with
the name `"clipfrom"` and the `ngx_hash_key_lc` of the segment `"ClipFrom"`. -/
theorem extract_uri_params_lookup_key_witness :
    ({ key := ngx_hash_key_lc (bytes "clipfrom"), name := bytes "clipfrom", last_slash := 4,
       cur_pos := 13 } : lookup_call) ∈
        extract_lookups example_env (bytes "ab/x/ClipFrom/10") 0 0 ∧
      lookup_segment (bytes "ab/x/ClipFrom/10")
          { key := ngx_hash_key_lc (bytes "clipfrom"), name := bytes "clipfrom", last_slash := 4,
            cur_pos := 13 } = bytes "ClipFrom" ∧
      ngx_hash_key_lc (bytes "clipfrom") =
        ngx_hash_key_lc
          ((lookup_segment (bytes "ab/x/ClipFrom/10")
            { key := ngx_hash_key_lc (bytes "clipfrom"), name := bytes "clipfrom",
              last_slash := 4, cur_pos := 13 }).take
            (example_env.MAX_URI_PARAM_NAME_LEN + 1)) :=
  ⟨by decide, by decide,
    (extract_uri_params_lookup_key.1 example_env (bytes "ab/x/ClipFrom/10") 0 0
      { key := ngx_hash_key_lc (bytes "clipfrom"), name := bytes "clipfrom", last_slash := 4,
        cur_pos := 13 } (by decide)).2.2.2.2.2.2.2.2.1⟩

theorem ranges_ok_le : ∀ (rs : List (Nat × Nat)) (lo hi : Nat), ranges_ok lo hi rs → lo ≤ hi := by
  intro rs
  induction rs with
  | nil => intro lo hi h; exact h
  | cons r rs ih =>
    intro lo hi h
    obtain ⟨h1, h2, h3⟩ := h
    have := ih _ _ h3
    omega

theorem ranges_ok_append : ∀ (rs1 rs2 : List (Nat × Nat)) (a b c : Nat),
    ranges_ok a b rs1 → ranges_ok b c rs2 → ranges_ok a c (rs1 ++ rs2) := by
  intro rs1
  induction rs1 with
  | nil =>
    intro rs2 a b c h1 h2
    have hab : a ≤ b := h1
    cases rs2 with
    | nil =>
      have hbc : b ≤ c := h2
      exact Nat.le_trans hab hbc
    | cons r rs =>
      obtain ⟨k1, k2, k3⟩ := h2
      exact ⟨Nat.le_trans hab k1, k2, k3⟩
  | cons r rs ih =>
    intro rs2 a b c h1 h2
    obtain ⟨k1, k2, k3⟩ := h1
    exact ⟨k1, k2, ih rs2 _ b c k3 h2⟩

theorem ranges_ok_weaken (rs : List (Nat × Nat)) (a b c : Nat) (h : ranges_ok a b rs)
    (hbc : b ≤ c) : ranges_ok a c rs := by
  have := ranges_ok_append rs [] a b c h hbc
  simpa using this

theorem range_bytes_append (uri : Bytes) (a b c : Nat) (hab : a ≤ b) (hbc : b ≤ c) :
    range_bytes uri (a, b) ++ range_bytes uri (b, c) = range_bytes uri (a, c) := by
  unfold range_bytes
  simp only
  have e : c - a = (b - a) + (c - b) := by omega
  rw [e, List.take_add, List.drop_drop]
  congr 3
  omega

theorem range_bytes_sublist (uri : Bytes) : ∀ (rs : List (Nat × Nat)) (lo hi : Nat),
    ranges_ok lo hi rs → ((rs.map (range_bytes uri)).flatten).Sublist (range_bytes uri (lo, hi)) := by
  intro rs
  induction rs with
  | nil => intro lo hi _; simp
  | cons r rs ih =>
    intro lo hi h
    obtain ⟨h1, h2, h3⟩ := h
    have h4 := ranges_ok_le rs _ _ h3
    have e1 : range_bytes uri (lo, hi) = range_bytes uri (lo, r.1) ++ range_bytes uri (r.1, hi) :=
      (range_bytes_append uri lo r.1 hi h1 (by omega)).symm
    have e2 : range_bytes uri (r.1, hi) = range_bytes uri (r.1, r.2) ++ range_bytes uri (r.2, hi) :=
      (range_bytes_append uri r.1 r.2 hi h2 h4).symm
    simp only [List.map_cons, List.flatten_cons]
    rw [e1, e2]
    apply List.Sublist.trans _ (List.sublist_append_right _ _)
    exact List.Sublist.append (List.Sublist.refl _) (ih _ _ h3)

theorem boundary_step_copy (env : Env) (uri : Bytes) (cur_pos : Nat) (st : ScanState)
    (hc : st.copy_start ≤ cur_pos)
    (hl : ∀ ls, st.last_slash = some ls → st.copy_start ≤ ls ∧ ls ≤ cur_pos) :
    (∀ st1, boundary_step env uri cur_pos st = .ok st1 →
      st1.copy_start ≤ cur_pos ∧
        ranges_ok st.copy_start st1.copy_start (boundary_copy env st) ∧
        st1.p = st.p ++ ((boundary_copy env st).map (range_bytes uri)).flatten) ∧
    (∀ rc, boundary_step env uri cur_pos st = .error rc → boundary_copy env st = []) := by
  cases hls : st.last_slash with
  | none =>
    refine ⟨?_, ?_⟩
    · intro st1 h
      simp only [boundary_step, hls, Except.ok.injEq] at h
      subst h
      simp only [boundary_copy, hls, List.map_nil, List.flatten_nil, List.append_nil]
      exact ⟨hc, Nat.le_refl _, trivial⟩
    · intro rc h
      simp [boundary_step, hls] at h
  | some ls =>
    obtain ⟨k1, k2⟩ := hl ls hls
    cases hpd : st.param_def with
    | none =>
      cases hf : env.ngx_hash_find st.cur_key_hash st.param_name with
      | none =>
        refine ⟨?_, ?_⟩
        · intro st1 h
          simp only [boundary_step, hls, hpd, hf, Except.ok.injEq] at h
          subst h
          simp only [boundary_copy, hls, hpd, hf, List.map_nil, List.flatten_nil, List.append_nil]
          exact ⟨hc, Nat.le_refl _, trivial⟩
        · intro rc h
          simp [boundary_step, hls, hpd, hf] at h
      | some d =>
        refine ⟨?_, ?_⟩
        · intro st1 h
          simp only [boundary_step, hls, hpd, hf, Except.ok.injEq] at h
          subst h
          simp only [boundary_copy, hls, hpd, hf, List.map_cons, List.map_nil, List.flatten_cons,
            List.flatten_nil, List.append_nil]
          exact ⟨k2, ⟨Nat.le_refl _, k1, Nat.le_refl _⟩, rfl⟩
        · intro rc h
          simp [boundary_step, hls, hpd, hf] at h
    | some d =>
      have hcopy : boundary_copy env st = [] := by
        simp [boundary_copy, hls, hpd]
      refine ⟨?_, fun _ _ => hcopy⟩
      intro st1 h
      rw [hcopy]
      cases hv : value_step env d ((uri.drop (ls + 1)).take (cur_pos - (ls + 1))) st.out with
      | error rc =>
        simp [boundary_step, hls, hpd, hv] at h
      | ok o =>
        simp only [boundary_step, hls, hpd, hv, Except.ok.injEq] at h
        subst h
        simp only [List.map_nil, List.flatten_nil, List.append_nil]
        exact ⟨Nat.le_refl _, hc, trivial⟩

theorem ranges_ok_mem : ∀ (rs : List (Nat × Nat)) (lo hi : Nat), ranges_ok lo hi rs →
    ∀ r ∈ rs, lo ≤ r.1 ∧ r.1 ≤ r.2 ∧ r.2 ≤ hi := by
  intro rs
  induction rs with
  | nil => intro lo hi _ r hr; cases hr
  | cons r0 rs ih =>
    intro lo hi h r hr
    obtain ⟨h1, h2, h3⟩ := h
    rcases List.mem_cons.mp hr with e | e
    · subst e
      exact ⟨h1, h2, ranges_ok_le rs _ _ h3⟩
    · have := ih _ _ h3 r e
      omega

theorem ranges_ok_pairwise : ∀ (rs : List (Nat × Nat)) (lo hi : Nat), ranges_ok lo hi rs →
    rs.Pairwise (fun r1 r2 => r1.2 ≤ r2.1) := by
  intro rs
  induction rs with
  | nil => intro lo hi _; exact List.Pairwise.nil
  | cons r0 rs ih =>
    intro lo hi h
    obtain ⟨-, -, h3⟩ := h
    exact List.Pairwise.cons (fun r hr => (ranges_ok_mem rs _ _ h3 r hr).1) (ih _ _ h3)

theorem scan_copies_spec (env : Env) (uri : Bytes) : ∀ (rest pre : Bytes) (st : ScanState)
    (cur_pos : Nat), uri = pre ++ rest → cur_pos = pre.length → st.copy_start ≤ cur_pos →
    (∀ ls, st.last_slash = some ls → st.copy_start ≤ ls ∧ ls ≤ cur_pos) →
    (∀ st1, scan_loop env uri rest cur_pos st = .ok st1 →
      st1.copy_start ≤ uri.length ∧
        ranges_ok st.copy_start st1.copy_start (scan_copies env uri rest cur_pos st) ∧
        st1.p = st.p ++ ((scan_copies env uri rest cur_pos st).map (range_bytes uri)).flatten) ∧
    (∀ rc, scan_loop env uri rest cur_pos st = .error rc →
      ranges_ok st.copy_start uri.length (scan_copies env uri rest cur_pos st)) := by
  intro rest
  induction rest with
  | nil =>
    intro pre st cur_pos huri hpos hc hl
    have hlen : cur_pos = uri.length := by rw [huri, hpos]; simp
    obtain ⟨b1, b2⟩ := boundary_step_copy env uri cur_pos st hc hl
    refine ⟨?_, ?_⟩
    · intro st1 h
      obtain ⟨k1, k2, k3⟩ := b1 st1 h
      exact ⟨by omega, k2, k3⟩
    · intro rc h
      simp only [scan_copies]
      rw [b2 rc h]
      show st.copy_start ≤ uri.length
      omega
  | cons c rest ih =>
    intro pre st cur_pos huri hpos hc hl
    have hlen : cur_pos < uri.length := by rw [huri, hpos]; simp
    by_cases hne : c ≠ SLASH
    · obtain ⟨f1, f2, f3, f4, f5⟩ := name_step_fields env st c
      have h := ih (pre ++ [c]) (name_step env st c) (cur_pos + 1) (by simp [huri])
        (by simp [hpos]) (by rw [f3]; omega)
        (by
          intro ls hls
          rw [f1] at hls
          rw [f3]
          have := hl ls hls
          omega)
      simp only [scan_loop, scan_copies, if_pos hne]
      rw [f3, f4] at h
      exact h
    · simp only [scan_loop, scan_copies, if_neg hne]
      obtain ⟨b1, b2⟩ := boundary_step_copy env uri cur_pos st hc hl
      cases hb : boundary_step env uri cur_pos st with
      | error rc =>
        refine ⟨(fun st1 h => by cases h), ?_⟩
        intro rc2 _
        rw [b2 rc hb]
        show st.copy_start ≤ uri.length
        omega
      | ok st0 =>
        obtain ⟨k1, k2, k3⟩ := b1 st0 hb
        have hls0 : st0.last_slash = some cur_pos := (boundary_step_reset env uri cur_pos st st0 hb).1
        obtain ⟨i1, i2⟩ := ih (pre ++ [c]) st0 (cur_pos + 1) (by simp [huri]) (by simp [hpos])
          (by omega)
          (by
            intro ls hls
            rw [hls0] at hls
            simp only [Option.some.injEq] at hls
            omega)
        refine ⟨?_, ?_⟩
        · intro st1 h
          obtain ⟨j1, j2, j3⟩ := i1 st1 h
          refine ⟨j1, ranges_ok_append _ _ _ _ _ k2 j2, ?_⟩
          rw [j3, k3]
          simp
        · intro rc h
          exact ranges_ok_append _ _ _ _ _ k2 (i2 rc h)

/-- C19. The ranges that `ngx_http_vod_extract_uri_params` copies to the
stripped buffer are well formed, increasing and disjoint, from the start of
the URI to its end: each copy of the loop goes from `copy_start` to
`last_slash` with `copy_start ≤ last_slash ≤ end_pos`, it starts at or after
the end of the copy before, and the last copy goes from `copy_start` to
`end_pos` with `copy_start ≤ end_pos`. On success the stripped URI is the
bytes of these ranges in order, so it is a subsequence of the URI and its
length is at most `uri->len`, one less than the size allocated. -/
theorem extract_uri_params_copy_ranges (env : Env) (uri : Bytes) (sequence clip_id : Nat) :
    ranges_ok 0 uri.length (extract_copies env uri sequence clip_id) ∧
      (∀ r ∈ extract_copies env uri sequence clip_id, r.1 ≤ r.2 ∧ r.2 ≤ uri.length) ∧
      (extract_copies env uri sequence clip_id).Pairwise (fun r1 r2 => r1.2 ≤ r2.1) ∧
      (∀ res, ngx_http_vod_extract_uri_params env uri sequence clip_id = .ok res →
        res.source_clip.stripped_uri =
            ((extract_copies env uri sequence clip_id).map (range_bytes uri)).flatten ∧
          res.source_clip.stripped_uri.Sublist uri ∧
          res.source_clip.stripped_uri.length ≤ uri.length ∧
          res.source_clip.stripped_uri.length + 1 ≤ uri.length + 1) := by
  have hok : ranges_ok 0 uri.length (extract_copies env uri sequence clip_id) := by
    unfold extract_copies
    split
    · exact Nat.zero_le _
    · obtain ⟨s1, s2⟩ := scan_copies_spec env uri uri [] (scan_init uri sequence clip_id) 0
        (by simp) rfl (Nat.le_refl _) (fun ls hls => by cases hls)
      cases hs : scan_loop env uri uri 0 (scan_init uri sequence clip_id) with
      | error rc =>
        simp only [List.append_nil]
        exact s2 rc hs
      | ok st =>
        obtain ⟨k1, k2, -⟩ := s1 st hs
        simp only
        split
        · simp only [List.append_nil]
          exact ranges_ok_weaken _ _ _ _ k2 k1
        · exact ranges_ok_append _ _ _ _ _ k2 ⟨Nat.le_refl _, k1, Nat.le_refl _⟩
  have hsub := range_bytes_sublist uri _ _ _ hok
  have hfull : range_bytes uri (0, uri.length) = uri := by
    simp [range_bytes]
  rw [hfull] at hsub
  refine ⟨hok, ?_, ?_, ?_⟩
  · intro r hr
    have := ranges_ok_mem _ _ _ hok r hr
    omega
  · exact ranges_ok_pairwise _ _ _ hok
  · intro res h
    have hstr : res.source_clip.stripped_uri =
        ((extract_copies env uri sequence clip_id).map (range_bytes uri)).flatten := by
      unfold ngx_http_vod_extract_uri_params at h
      unfold extract_copies
      split at h
      · cases h
      · rename_i hp
        rw [if_neg hp]
        obtain ⟨s1, -⟩ := scan_copies_spec env uri uri [] (scan_init uri sequence clip_id) 0
          (by simp) rfl (Nat.le_refl _) (fun ls hls => by cases hls)
        cases hs : scan_loop env uri uri 0 (scan_init uri sequence clip_id) with
        | error rc =>
          rw [hs] at h
          cases h
        | ok st =>
          rw [hs] at h
          obtain ⟨-, -, k3⟩ := s1 st hs
          simp only [extract_finish] at h
          split at h
          · cases h
          · rename_i hclip
            simp only [Except.ok.injEq] at h
            subst h
            simp only [if_neg hclip, List.map_append, List.flatten_append, List.map_cons,
              List.map_nil, List.flatten_cons, List.flatten_nil, List.append_nil]
            have k4 : st.p = ((scan_copies env uri uri 0
                (scan_init uri sequence clip_id)).map (range_bytes uri)).flatten := by
              simpa [scan_init] using k3
            rw [← k4]
            rfl
    rw [hstr]
    exact ⟨rfl, hsub, hsub.length_le, Nat.succ_le_succ hsub.length_le⟩

/-- C19, at the URI `"ab/x/ClipFrom/10/y/clipto/20"`: the copies are the
ranges 0 to 4, 16 to 18 and 28 to 28, and the stripped URI `"ab/x/y"` is a
subsequence of the URI. -/
theorem extract_uri_params_copy_ranges_witness :
    extract_copies example_env (bytes "ab/x/ClipFrom/10/y/clipto/20") 0 0 =
        [(0, 4), (16, 18), (28, 28)] ∧
      ngx_http_vod_extract_uri_params example_env (bytes "ab/x/ClipFrom/10/y/clipto/20") 0 0 =
        .ok
          { source_clip :=
              { id := 0, clip_from := 10, clip_to := 20, tracks_mask_audio := 4294967295,
                tracks_mask_video := 4294967295, uri := bytes "ab/x/ClipFrom/10/y/clipto/20",
                stripped_uri := bytes "ab/x/y", mapped_uri := bytes "ab/x/y", sequence := 0 }
            result := .source
            clip_id := 1 } ∧
      (bytes "ab/x/y").Sublist (bytes "ab/x/ClipFrom/10/y/clipto/20") :=
  ⟨by decide, by decide,
    ((extract_uri_params_copy_ranges example_env (bytes "ab/x/ClipFrom/10/y/clipto/20") 0 0).2.2.2
      { source_clip :=
          { id := 0, clip_from := 10, clip_to := 20, tracks_mask_audio := 4294967295,
            tracks_mask_video := 4294967295, uri := bytes "ab/x/ClipFrom/10/y/clipto/20",
            stripped_uri := bytes "ab/x/y", mapped_uri := bytes "ab/x/y", sequence := 0 }
        result := .source
        clip_id := 1 } (by decide)).2.1⟩

theorem decimal_fold_shift (digits : Bytes) : ∀ (v : Nat),
    digits.foldl (fun value c => value * 10 + (c - 48)) v =
      v * 10 ^ digits.length + decimal_value digits := by
  induction digits with
  | nil => intro v; simp [decimal_value]
  | cons c cs ih =>
    intro v
    simp only [decimal_value, List.foldl_cons, List.length_cons]
    rw [ih (v * 10 + (c - 48)), ih (0 * 10 + (c - 48))]
    ring

theorem decimal_value_cons (c : Nat) (digits : Bytes) :
    decimal_value (c :: digits) = (c - 48) * 10 ^ digits.length + decimal_value digits := by
  have h := decimal_fold_shift digits (0 * 10 + (c - 48))
  simp only [decimal_value, List.foldl_cons] at h ⊢
  rw [h]
  simp

theorem wrap_times_ten (x : Nat) : (x % 2 ^ 32 * 10) % 2 ^ 32 = (x * 10) % 2 ^ 32 := by
  omega

theorem wrap_add_digit (d x y : Nat) :
    (y % 2 ^ 32 + (d * (x % 2 ^ 32)) % 2 ^ 32) % 2 ^ 32 = (d * x + y) % 2 ^ 32 := by
  have h : d * (x % 2 ^ 32) % 2 ^ 32 = d * x % 2 ^ 32 := by
    rw [Nat.mul_mod, Nat.mod_mod, ← Nat.mul_mod]
  rw [h, ← Nat.add_mod, Nat.add_comm]

theorem reverse_loop_spec : ∀ (rs done : Bytes) (end_pos multiplier value : Nat),
    multiplier = 10 ^ done.length % 2 ^ 32 → value = decimal_value done % 2 ^ 32 →
    reverse_loop rs end_pos multiplier value =
      (decimal_value ((rs.takeWhile is_digit).reverse ++ done) % 2 ^ 32,
        end_pos - (rs.takeWhile is_digit).length) := by
  intro rs
  induction rs with
  | nil =>
    intro done end_pos multiplier value _ hv
    simp [reverse_loop, hv]
  | cons c cs ih =>
    intro done end_pos multiplier value hm hv
    by_cases hc : 48 ≤ c ∧ c ≤ 57
    · have hd : is_digit c = true := by simp [is_digit, hc]
      have h1 : (multiplier * 10) % 2 ^ 32 = 10 ^ (c :: done).length % 2 ^ 32 := by
        rw [hm, List.length_cons, Nat.pow_succ]
        exact wrap_times_ten _
      have h2 : (value + ((c - 48) * multiplier) % 2 ^ 32) % 2 ^ 32 =
          decimal_value (c :: done) % 2 ^ 32 := by
        rw [hv, hm, decimal_value_cons]
        exact wrap_add_digit _ _ _
      simp only [reverse_loop, if_pos hc, List.takeWhile_cons, hd, if_true, List.reverse_cons,
        List.append_assoc, List.singleton_append, List.length_cons]
      rw [ih (c :: done) (end_pos - 1) _ _ h1 h2]
      congr 1
      omega
    · have hd : is_digit c = false := by simp [is_digit, hc]
      simp [reverse_loop, hc, List.takeWhile_cons, hd, hv]

theorem extract_uint32_token_reverse_run (pre digits : Bytes)
    (hd : ∀ c ∈ digits, is_digit c = true) (hp : ∀ c ∈ pre.getLast?, is_digit c = false) :
    ngx_http_vod_extract_uint32_token_reverse (pre ++ digits) =
      (decimal_value digits % 2 ^ 32, pre.length) := by
  unfold ngx_http_vod_extract_uint32_token_reverse
  rw [reverse_loop_spec _ [] _ 1 0 (by simp) (by simp [decimal_value]), List.reverse_append]
  have h := (takeWhile_digits_append digits.reverse pre.reverse
    (fun c hc => hd c (List.mem_reverse.mp hc))
    (by rw [List.head?_reverse]; exact hp)).1
  rw [h]
  simp

theorem digit_run_split (range : Bytes) :
    ∃ pre digits, range = pre ++ digits ∧ (∀ c ∈ digits, is_digit c = true) ∧
      (∀ c ∈ pre.getLast?, is_digit c = false) := by
  refine ⟨(range.reverse.dropWhile is_digit).reverse, (range.reverse.takeWhile is_digit).reverse,
    ?_, ?_, ?_⟩
  · rw [← List.reverse_append, List.takeWhile_append_dropWhile, List.reverse_reverse]
  · intro c hc
    exact List.mem_takeWhile_imp (List.mem_reverse.mp hc)
  · intro c hc
    rw [List.getLast?_reverse] at hc
    exact dropWhile_head_not_digit _ c hc

/-- C21. For every byte range, `ngx_http_vod_extract_uint32_token_reverse`
returns the position where the maximal run of decimal digits that ends at
`end_pos` begins, and stores the decimal value of that run modulo `2 ^ 32`,
with the value and the multiplier both wrapping in 32 bits. Every range is
`pre ++ digits` with `digits` all digits and `pre` empty or ending with a
byte that is not a digit: the position returned is the end of `pre` (never
before `start_pos`) and the value is that of `digits`. When the range is
empty or its last byte is not a digit, the position is `end_pos` and the
value is 0. -/
theorem extract_uint32_token_reverse_spec :
    (∀ (pre digits : Bytes), (∀ c ∈ digits, is_digit c = true) →
      (∀ c ∈ pre.getLast?, is_digit c = false) →
      ngx_http_vod_extract_uint32_token_reverse (pre ++ digits) =
        (decimal_value digits % 2 ^ 32, pre.length)) ∧
    (∀ range : Bytes, ∃ pre digits, range = pre ++ digits ∧
      (∀ c ∈ digits, is_digit c = true) ∧ (∀ c ∈ pre.getLast?, is_digit c = false)) ∧
    (∀ range : Bytes, (∀ c ∈ range.getLast?, is_digit c = false) →
      ngx_http_vod_extract_uint32_token_reverse range = (0, range.length)) ∧
    (∀ range : Bytes,
      (ngx_http_vod_extract_uint32_token_reverse range).2 ≤ range.length ∧
      (ngx_http_vod_extract_uint32_token_reverse range).1 < 2 ^ 32 ∧
      (∀ c ∈ range.drop (ngx_http_vod_extract_uint32_token_reverse range).2,
        is_digit c = true) ∧
      (∀ c ∈ (range.take (ngx_http_vod_extract_uint32_token_reverse range).2).getLast?,
        is_digit c = false) ∧
      (ngx_http_vod_extract_uint32_token_reverse range).1 =
        decimal_value (range.drop (ngx_http_vod_extract_uint32_token_reverse range).2) %
          2 ^ 32) := by
  refine ⟨extract_uint32_token_reverse_run, digit_run_split, ?_, ?_⟩
  · intro range h
    have e := extract_uint32_token_reverse_run range [] (fun c hc => by cases hc) h
    simpa [decimal_value] using e
  · intro range
    obtain ⟨pre, digits, h1, h2, h3⟩ := digit_run_split range
    have e := extract_uint32_token_reverse_run pre digits h2 h3
    rw [h1, e]
    refine ⟨by simp, Nat.mod_lt _ (by decide), ?_, ?_, ?_⟩
    · simpa using h2
    · simpa using h3
    · simp

/-- C21, at `"seg-99999999999"`: the run starts at offset 4 and the value
stored is `99999999999` modulo `2 ^ 32`, which is `1215752191`. -/
theorem extract_uint32_token_reverse_spec_witness :
    99999999999 % 2 ^ 32 = 1215752191 ∧
      ngx_http_vod_extract_uint32_token_reverse (bytes "seg-" ++ bytes "99999999999") =
        (1215752191, 4) :=
  ⟨by decide,
    extract_uint32_token_reverse_spec.1 (bytes "seg-") (bytes "99999999999") (by decide)
      (by decide)⟩

end NgxVod
